import Mathlib

/-!
Verification of the `McpClient` run-queue / transport core.

A shallow embedding, in Lean 4, of the behaviour of
`multi-model-mcp/vscode-extension/src/mcpClient.ts`:

* a JSON-like value model (`JsValue`) for the untyped JavaScript values the
  client handles;
* the `extractModel` heuristic of `McpClient.extractModel`;
* the stderr redaction chain of `ensureRunning`'s stderr handler;
* the stdout line handler / request correlator (`ensureRunning`'s stdout
  handler together with `send`'s pending map and timeout);
* the completed-run history (`recordCompletion`);
* the run queue and scheduler (`enqueueToolCall`, `drainQueue`, `processRun`,
  `executeToolCall`, `cancelRun`) as a step machine whose actions are the
  points at which the single-threaded JavaScript event loop can interleave
  observable activity.

Wall-clock fields of the source (`enqueuedAt`, `startedAt`, `finishedAt`,
`elapsedMs`, produced by `Date.now()`) are outside the model; no claim
depends on their values.  Timers are modelled by the actions that fire them.
-/

set_option maxHeartbeats 1000000

namespace Mcp

/-- A JSON-ish model of the JavaScript values handled by the client.
`vundef` stands for JavaScript `undefined` (the result of reading an absent
property); the remaining constructors are the JSON values. -/
inductive JsValue where
  | vundef
  | vnull
  | vbool (b : Bool)
  | vnum (n : Int)
  | vstr (s : String)
  | varr (items : List JsValue)
  | vobj (fields : List (String × JsValue))

/-- JavaScript truthiness (`if (x)`).  `NaN` is not modelled (no arithmetic
produces it here). -/
def truthy : JsValue → Bool
  | .vundef => false
  | .vnull => false
  | .vbool b => b
  | .vnum n => !(n == 0)
  | .vstr s => !(s == "")
  | .varr _ => true
  | .vobj _ => true

/-- Property read `v.name` on a non-null value: object lookup, `undefined`
otherwise (matching JavaScript, where reading any property of a number,
string, boolean or array that does not carry it yields `undefined`).
Reading a property of `null` throws in JavaScript; callers below only read
after a null guard, mirroring the source. -/
def jsField (v : JsValue) (name : String) : JsValue :=
  match v with
  | .vobj fields =>
    match fields.find? (fun p => p.1 == name) with
    | some p => p.2
    | none => .vundef
  | _ => (.vundef)

/-- Optional chaining `v?.name`: `undefined` when `v` is nullish. -/
def jsFieldOpt (v : JsValue) (name : String) : JsValue :=
  match v with
  | .vnull => .vundef
  | .vundef => .vundef
  | _ => jsField v name

/-- `typeof v === "object"` (true for objects, arrays and `null`). -/
def isObjectType : JsValue → Bool
  | .vobj _ => true
  | .varr _ => true
  | .vnull => true
  | _ => false

/-- `McpClient.extractModel` (mcpClient.ts:286-295), line by line:
```
if (!args) return "unknown";
if (typeof args === "string") return args;
if (typeof args.model === "string") return args.model;
if (Array.isArray(args)) {
  const first = args.find((item) => typeof item === "object" && item?.model);
  if (first && typeof first.model === "string") return first.model;
}
return "unknown";
```
-/
def extractModel (args : JsValue) : String :=
  if !truthy args then "unknown"
  else
    match args with
    | .vstr s => s
    | _ =>
      match jsField args "model" with
      | .vstr m => m
      | _ =>
        match args with
        | .varr items =>
          match items.find? (fun item => isObjectType item && truthy (jsFieldOpt item "model")) with
          | some first =>
            match jsField first "model" with
            | .vstr m => m
            | _ => "unknown"
          | none => "unknown"
        | _ => "unknown"

/-- The model label given to a run at enqueue time
(`meta?.model ?? this.extractModel(request.arguments)`, mcpClient.ts:216). -/
def enqueueModel (meta : Option String) (args : JsValue) : String :=
  meta.getD (extractModel args)

/-! ## Stderr redaction (mcpClient.ts:129-141)

Each `.replace(regex, replacement)` with a global regex scans the string left
to right, substituting every (non-overlapping) match and continuing after the
end of each match; the five replaces are chained, each operating on the output
of the previous one.  A matcher below returns, for a given position, the
length of the regex match starting exactly there (if any) together with the
replacement text; `scanReplace` supplies the left-to-right global-scan
semantics. -/

/-- Does `hay` start with `pat`? (plain list equality on the first
`pat.length` characters.) -/
def startsWithSeq : List Char → List Char → Bool
  | _, [] => true
  | [], _ :: _ => false
  | c :: cs, d :: ds => c == d && startsWithSeq cs ds

/-- Does `hay` contain `pat` as a contiguous run? -/
def containsSeq (hay pat : List Char) : Bool :=
  match hay with
  | [] => pat.isEmpty
  | _ :: rest => startsWithSeq hay pat || containsSeq rest pat

/-- `String` version of `containsSeq`. -/
def containsSub (hay pat : String) : Bool :=
  containsSeq hay.data pat.data

/-- Global leftmost replace, recursing on an explicit bound on the number of
remaining scan positions (every step consumes at least one character, so
`fuel = length` never runs out): at each position try the matcher; on a match
of `n` characters emit its replacement and resume after the match, otherwise
keep the character and move on.  All matchers below only succeed with
`n ≥ 1`. -/
def scanReplaceGo (m : List Char → Option (Nat × List Char)) : Nat → List Char → List Char
  | _, [] => []
  | 0, rest => rest
  | fuel + 1, c :: cs =>
    match m (c :: cs) with
    | some (n, rep) => rep ++ scanReplaceGo m fuel (cs.drop (n - 1))
    | none => c :: scanReplaceGo m fuel cs

/-- Global leftmost replace over a whole string. -/
def scanReplace (m : List Char → Option (Nat × List Char)) (cs : List Char) : List Char :=
  scanReplaceGo m cs.length cs

/-- Character class `[A-Za-z0-9_-]`. -/
def isTokenChar (c : Char) : Bool :=
  c.isAlpha || c.isDigit || c == '_' || c == '-'

/-- Character class `[A-Za-z0-9]`. -/
def isAlnumChar (c : Char) : Bool :=
  c.isAlpha || c.isDigit

/-- Regex `\s` (the whitespace characters relevant to log lines). -/
def isJsWhitespace (c : Char) : Bool :=
  c == ' ' || c == '\t' || c == '\n' || c == '\r' || c == '\x0b' || c == '\x0c'

/-- Matcher for `/Bearer [A-Za-z0-9_-]+/g` with replacement
`"Bearer [REDACTED]"`. -/
def matchBearer (cs : List Char) : Option (Nat × List Char) :=
  if startsWithSeq cs "Bearer ".data then
    let run := (cs.drop 7).takeWhile isTokenChar
    if run.length == 0 then none
    else some (7 + run.length, "Bearer [REDACTED]".data)
  else none

/-- Matcher for `/sk-ant-[A-Za-z0-9_-]+/g` with replacement
`"sk-ant-[REDACTED]"`. -/
def matchSkAnt (cs : List Char) : Option (Nat × List Char) :=
  if startsWithSeq cs "sk-ant-".data then
    let run := (cs.drop 7).takeWhile isTokenChar
    if run.length == 0 then none
    else some (7 + run.length, "sk-ant-[REDACTED]".data)
  else none

/-- Matcher for `/sk-[A-Za-z0-9]+/g` with replacement `"sk-[REDACTED]"`. -/
def matchSk (cs : List Char) : Option (Nat × List Char) :=
  if startsWithSeq cs "sk-".data then
    let run := (cs.drop 3).takeWhile isAlnumChar
    if run.length == 0 then none
    else some (3 + run.length, "sk-[REDACTED]".data)
  else none

/-- Matches `\s*"[^"]+"` at the head of `cs`, returning the consumed length. -/
def matchQuotedValue (cs : List Char) : Option Nat :=
  let wsn := (cs.takeWhile isJsWhitespace).length
  match cs.drop wsn with
  | '"' :: rest =>
    let v := rest.takeWhile (fun c => !(c == '"'))
    if v.length == 0 then none
    else
      match rest.drop v.length with
      | '"' :: _ => some (wsn + 1 + v.length + 1)
      | _ => none
  | _ => none

/-- Case-insensitive `startsWithSeq` (for the `/i` flag; the field names are
ASCII). -/
def startsWithCI (cs pat : List Char) : Bool :=
  startsWithSeq (cs.map Char.toLower) (pat.map Char.toLower)

/-- Try one alternative of
`/(access_token|api_key|token|password)":\s*"[^"]+"/gi`.  The replacement
`'$1": "[REDACTED]"'` keeps the matched name text (original case). -/
def tryFieldName4 (cs : List Char) (name : List Char) : Option (Nat × List Char) :=
  if startsWithCI cs name then
    let actual := cs.take name.length
    match cs.drop name.length with
    | '"' :: ':' :: rest =>
      match matchQuotedValue rest with
      | some k => some (name.length + 2 + k, actual ++ "\": \"[REDACTED]\"".data)
      | none => none
    | _ => none
  else none

/-- Matcher for `/(access_token|api_key|token|password)":\s*"[^"]+"/gi`
(alternatives tried in source order at each position). -/
def matchField4 (cs : List Char) : Option (Nat × List Char) :=
  ["access_token".data, "api_key".data, "token".data, "password".data].findSome?
    (tryFieldName4 cs)

/-- Try one alternative of `/(accessToken|apiKey|refreshToken)":\s*"[^"]+"/g`
(case sensitive).  The replacement `'$1: "[REDACTED]"'` drops the quote after
the name. -/
def tryFieldName5 (cs : List Char) (name : List Char) : Option (Nat × List Char) :=
  if startsWithSeq cs name then
    match cs.drop name.length with
    | '"' :: ':' :: rest =>
      match matchQuotedValue rest with
      | some k => some (name.length + 2 + k, name ++ ": \"[REDACTED]\"".data)
      | none => none
    | _ => none
  else none

/-- Matcher for `/(accessToken|apiKey|refreshToken)":\s*"[^"]+"/g`. -/
def matchField5 (cs : List Char) : Option (Nat × List Char) :=
  ["accessToken".data, "apiKey".data, "refreshToken".data].findSome?
    (tryFieldName5 cs)

/-- The five chained `.replace` calls of the stderr handler
(mcpClient.ts:133-138). -/
def redactChars (cs : List Char) : List Char :=
  scanReplace matchField5
    (scanReplace matchField4
      (scanReplace matchSk
        (scanReplace matchSkAnt
          (scanReplace matchBearer cs))))

/-- Redaction of one stderr line. -/
def redactLine (s : String) : String :=
  ⟨redactChars s.data⟩

/-- The line actually surfaced on the output channel for one stderr line:
`this.out.appendLine('[server] ' + redacted)` (mcpClient.ts:139). -/
def surfaceStderrLine (s : String) : String :=
  "[server] " ++ redactLine s

/-! ## Transport channel / request correlator (mcpClient.ts:104-176)

`JSON.parse` is an external library routine; the stdout handler is therefore
modelled at the granularity of one complete, trimmed line together with its
parse result (`none` when `JSON.parse` throws).  The pending map is the set
of request ids whose resolver is registered; settling a promise is recorded
in `promiseLog`. -/

/-- Outcome of a settled promise. -/
inductive PromiseOutcome where
  | resolved (v : JsValue)
  | rejected (msg : String)

/-- The correlator-relevant state of a `McpClient`:`nextId`, the `pending`
map (its key set; each key has exactly one resolver), the output channel's
appended lines, and the settlements of the promises returned by `send`. -/
structure TransportState where
  nextId : Nat
  pending : List Nat
  outLines : List String
  promiseLog : List (Nat × PromiseOutcome)

/-- Default of `send`'s `timeoutMs` parameter (mcpClient.ts:151). -/
def defaultTimeoutMs : Nat := 30000

/-- Registration part of `send` (mcpClient.ts:153, 168-172): take a fresh id
and store a resolver for it. -/
def sendRegister (st : TransportState) : TransportState × Nat :=
  let id := st.nextId
  ({ st with nextId := id + 1, pending := st.pending ++ [id] }, id)

/-- The timeout timer body (mcpClient.ts:158-165): if the entry is still
pending, remove it, log, and reject the promise. -/
def timerFire (st : TransportState) (id : Nat) (timeoutMs : Nat) : TransportState :=
  if id ∈ st.pending then
    { st with
      pending := st.pending.erase id,
      outLines := st.outLines ++
        ["Request " ++ toString id ++ " timed out after " ++ toString timeoutMs ++ "ms"],
      promiseLog := st.promiseLog ++
        [(id, .rejected ("MCP request timed out after " ++ toString timeoutMs ++ "ms"))] }
  else st

/-- `msg.result ?? msg` (mcpClient.ts:117): `??` falls back exactly on
`undefined` and `null`. -/
def resultOrMsg (msg : JsValue) : JsValue :=
  match jsField msg "result" with
  | .vundef => msg
  | .vnull => msg
  | v => v

/-- `this.pending.get(msg.id)` (mcpClient.ts:113-114): the map's keys are the
numbers issued by `send`, so only a numeric `id` can hit an entry. -/
def pendingLookup (pending : List Nat) (idv : JsValue) : Option Nat :=
  match idv with
  | .vnum n => pending.find? (fun i => (i : Int) == n)
  | _ => none

/-- The stdout line handler (mcpClient.ts:104-127) for one complete, trimmed,
non-empty line.  `parsed` is `JSON.parse line` (`none` when it throws).  A
parsed `null` also lands in the catch branch, because `msg.id` then throws a
`TypeError` inside the same `try`.  On a correlator hit the stored resolver
(mcpClient.ts:168-172) is invoked as `resolver(msg.result ?? msg, undefined)`
— the `err` argument is always `undefined` here, so the stored
`err ? reject(err) : resolve(val)` always takes the `resolve` branch. -/
def handleStdoutLine : TransportState → Option JsValue → String → TransportState
  | st, none, line => { st with outLines := st.outLines ++ ["Non JSON on stdout: " ++ line] }
  | st, some .vnull, line =>
    { st with outLines := st.outLines ++ ["Non JSON on stdout: " ++ line] }
  | st, some msg, line =>
    match pendingLookup st.pending (jsField msg "id") with
    | some id =>
      { st with
        pending := st.pending.erase id,
        promiseLog := st.promiseLog ++ [(id, .resolved (resultOrMsg msg))] }
    | none => { st with outLines := st.outLines ++ ["Unsolicited: " ++ line] }

/-- A JSON-RPC success response carrying `result`. -/
def responseMsg (id : Nat) (v : JsValue) : JsValue :=
  .vobj [("jsonrpc", .vstr "2.0"), ("id", .vnum id), ("result", v)]

/-- A JSON-RPC error response for id 1 (`{"jsonrpc":"2.0","id":1,"error":
{"code":-32000,"message":"boom"}}`). -/
def errorResponseMsg : JsValue :=
  .vobj [("jsonrpc", .vstr "2.0"), ("id", .vnum 1),
         ("error", .vobj [("code", .vnum (-32000)), ("message", .vstr "boom")])]

/-! ## Run queue, scheduler and history (mcpClient.ts:214-461)

The scheduler is modelled as a step machine.  JavaScript runs the client on a
single thread, so each external stimulus (an enqueue call, the settlement of
the in-flight channel promise, a cancel call, the progress-interval tick, and
the microtask that finalizes an actively-cancelled run) executes an atomic
block of the source; one `Act` below is one such block, and `step` is its
effect on the client state, including every event it emits along the way.
Wall-clock timestamps are outside the model. -/

/-- `RunState` (mcpClient.ts:10). -/
inductive RunState where
  | queued
  | running
  | done
  | failed
  | cancelled
deriving DecidableEq, Repr

/-- Is the state terminal? -/
def RunState.isTerminal : RunState → Bool
  | .done => true
  | .failed => true
  | .cancelled => true
  | _ => false

/-- `ToolRunSummary` (mcpClient.ts:12-25) minus the wall-clock fields
(`enqueuedAt`, `startedAt`, `finishedAt`, `elapsedMs`). -/
structure RunSnap where
  id : Nat
  tool : String
  model : String
  state : RunState
  arguments : JsValue
  result : Option JsValue
  error : Option String
  cancelled : Bool

/-- `ToolRunInternal` (mcpClient.ts:38-45).  `execSettled` is the local
`settled` flag of `executeToolCall`'s promise executor; `timerOn` is whether
the progress interval of `startProgressTimer` is live.  The `resolve` /
`reject` callbacks are represented by the completion log of `ClientState`;
`cancelFn` by the `cancelRun` / `finalizeCancel` steps. -/
structure ToolRunInternal where
  id : Nat
  tool : String
  model : String
  state : RunState
  arguments : JsValue
  result : Option JsValue
  error : Option String
  cancelled : Bool
  execSettled : Bool
  timerOn : Bool

/-- `cloneRun` (mcpClient.ts:440-455), minus the wall-clock fields. -/
def cloneRun (run : ToolRunInternal) : RunSnap :=
  { id := run.id, tool := run.tool, model := run.model, state := run.state,
    arguments := run.arguments, result := run.result, error := run.error,
    cancelled := run.cancelled }

/-- `RunHistory` (mcpClient.ts:36). -/
structure RunHistory where
  queue : List RunSnap
  completed : List RunSnap

/-- `RunEventName` (mcpClient.ts:27-34) with the payload each event carries
(mcpClient.ts:425-438). -/
inductive RunEvent where
  | runQueued (r : RunSnap)
  | runStarted (r : RunSnap)
  | runProgress (r : RunSnap)
  | runFinished (r : RunSnap)
  | runFailed (r : RunSnap)
  | runCancelled (r : RunSnap)
  | historyUpdated (h : RunHistory)

/-- The scheduler-relevant state of a `McpClient`, together with the
observable logs: the emitted events, the settlements of the per-run
completion promises, and the values returned by the `cancelRun` calls made so
far.  `settledIds` is specification-only bookkeeping (the ids ever passed to
`recordCompletion`, in order); it is written, never read, by the
transitions. -/
structure ClientState where
  runQueue : List ToolRunInternal
  completedRuns : List RunSnap
  activeRun : Option ToolRunInternal
  runIdCounter : Nat
  draining : Bool
  events : List RunEvent
  completions : List (Nat × PromiseOutcome)
  cancelResults : List Bool
  settledIds : List Nat

/-- The initial state (mcpClient.ts:54-58). -/
def initState : ClientState :=
  { runQueue := [], completedRuns := [], activeRun := none, runIdCounter := 1,
    draining := false, events := [], completions := [], cancelResults := [],
    settledIds := [] }

/-- The snapshot of the active slot: `[cloneRun active]` or `[]`
(mcpClient.ts:251). -/
def activeSnapList : Option ToolRunInternal → List RunSnap
  | some r => [cloneRun r]
  | none => []

/-- `getRunHistory` (mcpClient.ts:249-259): the active run (if any) prepended
to the pending queue, plus the completed list (all as snapshots). -/
def getRunHistory (st : ClientState) : RunHistory :=
  { queue := activeSnapList st.activeRun ++ st.runQueue.map cloneRun,
    completed := st.completedRuns }

/-- Append one event to the log (`emitRunEvent`, mcpClient.ts:425-434). -/
def emitEvent (st : ClientState) (e : RunEvent) : ClientState :=
  { st with events := st.events ++ [e] }

/-- `emitHistory` (mcpClient.ts:436-438): emit `historyUpdated` carrying a
fresh `getRunHistory()` snapshot. -/
def emitHistory (st : ClientState) : ClientState :=
  emitEvent st (.historyUpdated (getRunHistory st))

/-- The list update of `recordCompletion` (mcpClient.ts:412-421): push the
snapshot if its id is absent (trimming to the last 100 with `slice(-100)`
when the length exceeds 100), otherwise replace the entry with the same id in
place. -/
def recordCompletionList (completed : List RunSnap) (snapshot : RunSnap) : List RunSnap :=
  if !completed.any (fun r => r.id == snapshot.id) then
    let pushed := completed ++ [snapshot]
    if pushed.length > 100 then pushed.drop (pushed.length - 100) else pushed
  else
    completed.map (fun r => if r.id == snapshot.id then snapshot else r)

/-- `recordCompletion` (mcpClient.ts:412-423): update the completed list,
then emit a `historyUpdated` snapshot of the updated state. -/
def recordCompletion (st : ClientState) (run : ToolRunInternal) : ClientState :=
  let st1 := { st with
    completedRuns := recordCompletionList st.completedRuns (cloneRun run),
    settledIds := st.settledIds ++ [run.id] }
  emitHistory st1

/-- The drain loop (mcpClient.ts:297-316) from the point where `draining` is
already `true`: pop the head; a head already marked cancelled is recorded and
skipped without contacting the channel; otherwise it becomes the active run,
`processRun` stamps it `running`, emits `runStarted` and a history snapshot,
and starts the progress interval (mcpClient.ts:318-325), after which the loop
suspends on the channel call.  When the queue is empty the `finally` clears
`draining` and emits a final history snapshot (mcpClient.ts:312-315).  The
first argument is the pending queue (kept equal to `st.runQueue`). -/
def drainLoop : List ToolRunInternal → ClientState → ClientState
  | [], st => emitHistory { st with draining := false }
  | run :: rest, st =>
    if run.cancelled then
      drainLoop rest (recordCompletion { st with runQueue := rest } run)
    else
      let run1 := { run with state := RunState.running, timerOn := true }
      let st1 := { st with runQueue := rest, activeRun := some run1 }
      emitHistory (emitEvent st1 (.runStarted (cloneRun run1)))

/-- `drainQueue` (mcpClient.ts:297-301): re-entrancy guard, then the loop. -/
def drainQueue (st : ClientState) : ClientState :=
  if st.draining then st
  else
    let st1 := { st with draining := true }
    drainLoop st1.runQueue st1

/-- `enqueueToolCall` (mcpClient.ts:214-239): assign the next run id, extract
the model label, append the run to the queue, emit `runQueued` and a history
snapshot, then kick the drain loop. -/
def enqueueToolCall (st : ClientState) (tool : String) (args : JsValue)
    (meta : Option String) : ClientState :=
  let id := st.runIdCounter
  let run : ToolRunInternal :=
    { id := id, tool := tool, model := enqueueModel meta args,
      state := RunState.queued, arguments := args, result := none,
      error := none, cancelled := false, execSettled := false, timerOn := false }
  let st1 := { st with runIdCounter := id + 1, runQueue := st.runQueue ++ [run] }
  let st2 := emitEvent st1 (.runQueued (cloneRun run))
  let st3 := emitHistory st2
  drainQueue st3

/-- The `catch` branch of `processRun` for a cancelled run
(mcpClient.ts:341-349) followed by the resumption of the drain loop
(mcpClient.ts:310-311): mark the run `cancelled`, store the error message,
reject the completion promise, record the completion (which emits a history
snapshot), emit `runCancelled`, clear the active slot and continue
draining. -/
def finalizeActiveCancelled (st : ClientState) (run : ToolRunInternal) (msg : String) :
    ClientState :=
  let run1 := { run with state := RunState.cancelled, error := some msg }
  let st1 := { st with
    activeRun := some run1,
    completions := st.completions ++ [(run1.id, .rejected msg)] }
  let st2 := recordCompletion st1 run1
  let st3 := emitEvent st2 (.runCancelled (cloneRun run1))
  let st4 := { st3 with activeRun := none }
  drainLoop st4.runQueue st4

/-- Settlement of the in-flight channel promise for the active run: the
`.then`/`.catch` of `executeToolCall` (mcpClient.ts:378-389, guarded by the
local `settled` flag and `run.cancelled`), then the rest of `processRun`
(mcpClient.ts:327-365), then the resumption of the drain loop
(mcpClient.ts:310-311).  With no active unsettled call the stale settlement
is ignored. -/
def settleChannel (st : ClientState) (outcome : PromiseOutcome) : ClientState :=
  match st.activeRun with
  | none => st
  | some run =>
    if run.execSettled || run.cancelled then st
    else
      let run0 := { run with execSettled := true }
      match outcome with
      | .resolved v =>
        -- processRun success continuation (mcpClient.ts:328-339)
        if run0.cancelled then finalizeActiveCancelled st run0 "Cancelled"
        else
          let run1 := { run0 with result := some v, state := RunState.done }
          let st1 := { st with
            activeRun := some run1,
            completions := st.completions ++ [(run1.id, .resolved v)] }
          let st2 := emitEvent st1 (.runProgress (cloneRun run1))
          let st3 := emitEvent st2 (.runFinished (cloneRun run1))
          let st4 := recordCompletion st3 run1
          let st5 := { st4 with activeRun := none }
          drainLoop st5.runQueue st5
      | .rejected msg =>
        -- processRun catch (mcpClient.ts:340-358)
        if run0.cancelled then finalizeActiveCancelled st run0 msg
        else
          let run1 := { run0 with error := some msg, state := RunState.failed }
          let st1 := { st with
            activeRun := some run1,
            completions := st.completions ++ [(run1.id, .rejected msg)] }
          let st2 := emitEvent st1 (.runFailed (cloneRun run1))
          let st3 := recordCompletion st2 run1
          let st4 := { st3 with activeRun := none }
          drainLoop st4.runQueue st4

/-- Remove the first queue entry with the given id (`findIndex` + `splice`,
mcpClient.ts:270-272). -/
def removeFirst : List ToolRunInternal → Nat → Option (ToolRunInternal × List ToolRunInternal)
  | [], _ => none
  | r :: rest, runId =>
    if r.id == runId then some (r, rest)
    else (removeFirst rest runId).map (fun p => (p.1, r :: p.2))

/-- `cancelRun` (mcpClient.ts:261-284).  For the active run in `running`
state it sets the cancelled flag and invokes `cancelFn`
(mcpClient.ts:371-376), which — unless the in-flight call already settled —
marks it settled and schedules the rejection that `finalizeCancel` will
deliver; the call returns `true` while the run is still observably
`running`.  For a queued run it removes it, finalizes it as cancelled
immediately (reject, record, `runCancelled`, history) and returns `true`.
Otherwise it returns `false`. -/
def cancelRun (st : ClientState) (runId : Nat) : ClientState × Bool :=
  match st.activeRun with
  | some run =>
    if run.id == runId then
      if !(run.state == RunState.running) then (st, false)
      else
        ({ st with activeRun := some { run with cancelled := true, execSettled := true } }, true)
    else cancelQueued st runId
  | none => cancelQueued st runId
where
  /-- The queued-run branch (mcpClient.ts:270-283). -/
  cancelQueued (st : ClientState) (runId : Nat) : ClientState × Bool :=
    match removeFirst st.runQueue runId with
    | some (run, rest) =>
      let run1 := { run with cancelled := true, state := RunState.cancelled }
      let st1 := { st with
        runQueue := rest,
        completions := st.completions ++ [(run1.id, .rejected "Cancelled")] }
      let st2 := recordCompletion st1 run1
      let st3 := emitEvent st2 (.runCancelled (cloneRun run1))
      (emitHistory st3, true)
    | none => (st, false)

/-- One tick of the progress interval (mcpClient.ts:393-403): on a cancelled
run stop the interval, otherwise emit `runProgress` with a fresh snapshot. -/
def progressTick (st : ClientState) : ClientState :=
  match st.activeRun with
  | some run =>
    if run.timerOn then
      if run.cancelled then { st with activeRun := some { run with timerOn := false } }
      else emitEvent st (.runProgress (cloneRun run))
    else st
  | none => st

/-- The external stimuli that drive the scheduler. -/
inductive Act where
  | enqueue (tool : String) (args : JsValue) (meta : Option String)
  | settleOk (v : JsValue)
  | settleErr (msg : String)
  | cancel (runId : Nat)
  | finalizeCancel
  | tick

/-- One atomic block of the event loop. `finalizeCancel` is the microtask
scheduled by `cancelFn`'s rejection; it is a no-op unless an actively
cancelled run is awaiting finalization. -/
def step (st : ClientState) : Act → ClientState
  | .enqueue tool args meta => enqueueToolCall st tool args meta
  | .settleOk v => settleChannel st (.resolved v)
  | .settleErr msg => settleChannel st (.rejected msg)
  | .cancel runId =>
    let p := cancelRun st runId
    { p.1 with cancelResults := p.1.cancelResults ++ [p.2] }
  | .finalizeCancel =>
    match st.activeRun with
    | some run =>
      if run.cancelled && run.state == RunState.running then
        finalizeActiveCancelled st run "Cancelled"
      else st
    | none => st
  | .tick => progressTick st

/-- Run the machine from the initial state. -/
def runActs (acts : List Act) : ClientState :=
  acts.foldl step initState

/-! ## Observations

Projections of the observable logs used to state the claims. -/

/-- Tags for the per-run projection of the event log: `q`/`s`/`p` are
`runQueued`/`runStarted`/`runProgress`, `f`/`fl`/`c` the terminal events
`runFinished`/`runFailed`/`runCancelled`, and `hs` marks a `historyUpdated`
event whose snapshot shows the run with a terminal state. -/
inductive Tag where
  | q
  | s
  | p
  | f
  | fl
  | c
  | hs
deriving DecidableEq, Repr

/-- Ids of the pending queue. -/
def queueIds (st : ClientState) : List Nat :=
  st.runQueue.map (fun r => r.id)

/-- Id of the active run, if any. -/
def activeIdOf (st : ClientState) : Option Nat :=
  st.activeRun.map (fun r => r.id)

/-- Does the snapshot show run `i` settled (present with a terminal state)? -/
def showsSettled (h : RunHistory) (i : Nat) : Bool :=
  (h.queue ++ h.completed).any (fun r => r.id == i && r.state.isTerminal)

/-- Number of runs with state `running` in a snapshot. -/
def runningCount (h : RunHistory) : Nat :=
  ((h.queue ++ h.completed).filter (fun r => r.state == RunState.running)).length

/-- Classify one event from the point of view of run `i`. -/
def classify (i : Nat) : RunEvent → Option Tag
  | .runQueued r => if r.id == i then some .q else none
  | .runStarted r => if r.id == i then some .s else none
  | .runProgress r => if r.id == i then some .p else none
  | .runFinished r => if r.id == i then some .f else none
  | .runFailed r => if r.id == i then some .fl else none
  | .runCancelled r => if r.id == i then some .c else none
  | .historyUpdated h => if showsSettled h i then some .hs else none

/-- The projection of the emitted event log onto run `i`. -/
def projOf (st : ClientState) (i : Nat) : List Tag :=
  st.events.filterMap (classify i)

/-- Ids carried by the `runStarted` events, in emission order. -/
def startedIds (events : List RunEvent) : List Nat :=
  events.filterMap (fun e =>
    match e with
    | .runStarted r => some r.id
    | _ => none)

/-- Is a list of naturals strictly increasing? -/
def strictlyIncreasing : List Nat → Bool
  | [] => true
  | [_] => true
  | a :: b :: rest => a < b && strictlyIncreasing (b :: rest)

/-- Per-event check: a `historyUpdated` snapshot shows at most one running
run. -/
def eventRunningOk : RunEvent → Bool
  | .historyUpdated h => runningCount h ≤ 1
  | _ => true

/-- How many entries of `l` carry id `i`. -/
def countIdIn (l : List RunSnap) (i : Nat) : Nat :=
  (l.filter (fun r => r.id == i)).length

/-- Snapshot-level ownership: every id occurs at most once in `queue` and at
most once in `completed`, and an id occurring in both is the head of `queue`
with a terminal state (the just-settled active run during its
finalization). -/
def snapshotOwnershipOk (h : RunHistory) : Bool :=
  (h.queue ++ h.completed).all (fun r =>
    countIdIn h.queue r.id ≤ 1 && countIdIn h.completed r.id ≤ 1 &&
    (!(countIdIn h.queue r.id == 1 && countIdIn h.completed r.id == 1)
      || (match h.queue with
          | q0 :: _ => q0.id == r.id && q0.state.isTerminal
          | [] => false)))

/-- Per-event form of `snapshotOwnershipOk`. -/
def eventOwnershipOk : RunEvent → Bool
  | .historyUpdated h => snapshotOwnershipOk h
  | _ => true

/-- Does exactly one of {pending queue, active slot, settled set} hold id
`i`? -/
def exactlyOneHolder (st : ClientState) (i : Nat) : Bool :=
  ((if (queueIds st).contains i then 1 else 0)
    + (if activeIdOf st == some i then 1 else 0)
    + (if st.settledIds.contains i then 1 else 0)) == 1

/-- Number of terminal events emitted for run `i`. -/
def terminalCount (st : ClientState) (i : Nat) : Nat :=
  (st.events.filter (fun e =>
    match e with
    | .runFinished r => r.id == i
    | .runFailed r => r.id == i
    | .runCancelled r => r.id == i
    | _ => false)).length

/-- Drop leading tags equal to `t`. -/
def dropTags (t : Tag) : List Tag → List Tag
  | [] => []
  | x :: xs => if x == t then dropTags t xs else x :: xs

/-- `[q]`: a queued, not yet dispatched run. -/
def patQueued (l : List Tag) : Bool :=
  l == [Tag.q]

/-- `q s p*`: a dispatched run with no terminal event yet. -/
def patActive (l : List Tag) : Bool :=
  match l with
  | .q :: .s :: rest => rest.all (fun t => t == Tag.p)
  | _ => false

/-- `q s p* f hs*`: a successful run — terminal `runFinished`, with every
settled-showing `historyUpdated` after it. -/
def patDone (l : List Tag) : Bool :=
  match l with
  | .q :: .s :: rest =>
    match dropTags .p rest with
    | .f :: rest2 => rest2.all (fun t => t == Tag.hs)
    | _ => false
  | _ => false

/-- `q s p* fl hs*`: a failed run — terminal `runFailed`, with every
settled-showing `historyUpdated` after it. -/
def patFailed (l : List Tag) : Bool :=
  match l with
  | .q :: .s :: rest =>
    match dropTags .p rest with
    | .fl :: rest2 => rest2.all (fun t => t == Tag.hs)
    | _ => false
  | _ => false

/-- `q hs c hs*`: a run cancelled while still queued — no `runStarted`, and
a settled-showing `historyUpdated` precedes the terminal `runCancelled`. -/
def patCancelledQueued (l : List Tag) : Bool :=
  match l with
  | .q :: .hs :: .c :: rest => rest.all (fun t => t == Tag.hs)
  | _ => false

/-- `q s p* hs c hs*`: a run cancelled while active — a settled-showing
`historyUpdated` precedes the terminal `runCancelled`. -/
def patCancelledActive (l : List Tag) : Bool :=
  match l with
  | .q :: .s :: rest =>
    match dropTags .p rest with
    | .hs :: .c :: rest2 => rest2.all (fun t => t == Tag.hs)
    | _ => false
  | _ => false

/-- The per-run event-order discipline the code actually follows, phased by
where run `i` currently lives. -/
def c3CheckRun (st : ClientState) (i : Nat) : Bool :=
  let l := projOf st i
  if (queueIds st).contains i then patQueued l
  else if activeIdOf st == some i then patActive l
  else if st.settledIds.contains i then
    patDone l || patFailed l || patCancelledQueued l || patCancelledActive l
  else l == []

/-- Event-order discipline for every run id ever issued. -/
def c3Check (st : ClientState) : Bool :=
  (List.range st.runIdCounter).all (fun i => c3CheckRun st i)

/-- The at-most-one-running / FIFO-dispatch / single-drain observation. -/
def c2Check (st : ClientState) : Bool :=
  (runningCount (getRunHistory st) ≤ 1)
  && st.events.all eventRunningOk
  && strictlyIncreasing (startedIds st.events)
  && (st.draining == st.activeRun.isSome)

/-- Ownership observation: state-level exactly-one holder, snapshot-level
ownership in every emitted snapshot, and completed = the most recent (at
most 100) settled runs. -/
def c4Check (st : ClientState) : Bool :=
  (List.range st.runIdCounter).all (fun i => i == 0 || exactlyOneHolder st i)
  && st.events.all eventOwnershipOk
  && (st.completedRuns.map (fun r => r.id)
        == st.settledIds.drop (st.settledIds.length - 100))

/-- Single-finalization observation: at most one terminal event, one
completed entry and one completion-promise settlement per run id. -/
def c5Check (st : ClientState) : Bool :=
  (List.range st.runIdCounter).all (fun i =>
    (terminalCount st i ≤ 1)
    && (countIdIn st.completedRuns i ≤ 1)
    && ((st.completions.map Prod.fst).count i ≤ 1))

/-- `historyUpdated` event in which run `i` appears both in `queue` and in
`completed`. -/
def doubleOwnedEvent (i : Nat) : RunEvent → Bool
  | .historyUpdated h => countIdIn h.queue i == 1 && countIdIn h.completed i == 1
  | _ => false

/-! ## The reachable-state invariant

`Inv` collects everything that holds of every state reachable from
`initState`; the claim theorems about the scheduler are projections of it. -/

/-- Exactly one of three alternatives holds. -/
def ExactlyOne3 (a b c : Prop) : Prop :=
  (a ∧ ¬b ∧ ¬c) ∨ (¬a ∧ b ∧ ¬c) ∨ (¬a ∧ ¬b ∧ c)

/-- The event-log projection of a settled run: queued, then (if it was
dispatched) started and some progress, then a terminal event — `runFinished`
and `runFailed` precede every settled-showing snapshot, while `runCancelled`
is always preceded by one. -/
def SettledPat (l : List Tag) : Prop :=
  (∃ k m, l = .q :: .s :: List.replicate k .p ++ .f :: List.replicate m .hs)
  ∨ (∃ k m, l = .q :: .s :: List.replicate k .p ++ .fl :: List.replicate m .hs)
  ∨ (∃ m, l = .q :: .hs :: .c :: List.replicate m .hs)
  ∨ (∃ k m, l = .q :: .s :: List.replicate k .p ++ .hs :: .c :: List.replicate m .hs)

/-- Invariant of every reachable `ClientState`. -/
structure Inv (st : ClientState) : Prop where
  counter_pos : 1 ≤ st.runIdCounter
  queue_bounds : ∀ r ∈ st.runQueue, 1 ≤ r.id ∧ r.id < st.runIdCounter
  active_bounds : ∀ r, st.activeRun = some r → 1 ≤ r.id ∧ r.id < st.runIdCounter
  settled_bounds : ∀ i ∈ st.settledIds, 1 ≤ i ∧ i < st.runIdCounter
  queue_state : ∀ r ∈ st.runQueue, r.state = RunState.queued ∧ r.cancelled = false
  queue_sorted : st.runQueue.Pairwise (fun a b => a.id < b.id)
  active_state : ∀ r, st.activeRun = some r → r.state = RunState.running
  completed_terminal : ∀ r ∈ st.completedRuns, r.state.isTerminal = true
  completed_eq : st.completedRuns.map (fun r => r.id)
    = st.settledIds.drop (st.settledIds.length - 100)
  settled_nodup : st.settledIds.Nodup
  holder : ∀ i, 1 ≤ i → i < st.runIdCounter →
    ExactlyOne3 (i ∈ queueIds st) (activeIdOf st = some i) (i ∈ st.settledIds)
  draining_eq : st.draining = st.activeRun.isSome
  idle_empty : st.draining = false → st.runQueue = []
  completions_eq : st.completions.map Prod.fst = st.settledIds
  started_inc : strictlyIncreasing (startedIds st.events) = true
  started_lt_queue : ∀ j ∈ startedIds st.events, ∀ r ∈ st.runQueue, j < r.id
  started_bounds : ∀ j ∈ startedIds st.events, j < st.runIdCounter
  log_running : ∀ e ∈ st.events, eventRunningOk e = true
  log_ownership : ∀ e ∈ st.events, eventOwnershipOk e = true
  pat_queued : ∀ i ∈ queueIds st, projOf st i = [Tag.q]
  pat_active : ∀ i, activeIdOf st = some i →
    ∃ k, projOf st i = Tag.q :: Tag.s :: List.replicate k Tag.p
  pat_settled : ∀ i ∈ st.settledIds, SettledPat (projOf st i)
  pat_unknown : ∀ i, i ∉ queueIds st → activeIdOf st ≠ some i →
    i ∉ st.settledIds → projOf st i = []

/-- The invariant that holds while the drain loop is between the settlement
of one run and the dispatch of the next: `draining` is set, the active slot
is empty, and everything else is as in `Inv`. -/
structure DrainPre (st : ClientState) : Prop where
  counter_pos : 1 ≤ st.runIdCounter
  queue_bounds : ∀ r ∈ st.runQueue, 1 ≤ r.id ∧ r.id < st.runIdCounter
  settled_bounds : ∀ i ∈ st.settledIds, 1 ≤ i ∧ i < st.runIdCounter
  queue_state : ∀ r ∈ st.runQueue, r.state = RunState.queued ∧ r.cancelled = false
  queue_sorted : st.runQueue.Pairwise (fun a b => a.id < b.id)
  completed_terminal : ∀ r ∈ st.completedRuns, r.state.isTerminal = true
  completed_eq : st.completedRuns.map (fun r => r.id)
    = st.settledIds.drop (st.settledIds.length - 100)
  settled_nodup : st.settledIds.Nodup
  holder : ∀ i, 1 ≤ i → i < st.runIdCounter →
    (i ∈ queueIds st ∧ i ∉ st.settledIds) ∨ (i ∉ queueIds st ∧ i ∈ st.settledIds)
  draining_true : st.draining = true
  active_none : st.activeRun = none
  completions_eq : st.completions.map Prod.fst = st.settledIds
  started_inc : strictlyIncreasing (startedIds st.events) = true
  started_lt_queue : ∀ j ∈ startedIds st.events, ∀ r ∈ st.runQueue, j < r.id
  started_bounds : ∀ j ∈ startedIds st.events, j < st.runIdCounter
  log_running : ∀ e ∈ st.events, eventRunningOk e = true
  log_ownership : ∀ e ∈ st.events, eventOwnershipOk e = true
  pat_queued : ∀ i ∈ queueIds st, projOf st i = [Tag.q]
  pat_settled : ∀ i ∈ st.settledIds, SettledPat (projOf st i)
  pat_unknown2 : ∀ i, i ∉ queueIds st → i ∉ st.settledIds → projOf st i = []

/-! ## Concrete instances used by witnesses -/

/-- A completed-run snapshot with the given id. -/
def mkSnap (i : Nat) : RunSnap :=
  { id := i, tool := "echo", model := "m", state := RunState.done,
    arguments := .vnull, result := none, error := none, cancelled := false }

/-- 150 completion snapshots with distinct ids. -/
def witnessRuns : List RunSnap :=
  (List.range 150).map mkSnap

/-! # Theorems -/

/-! ## C6 — model-label extraction -/

/-- Unfolding of `extractModel` on an array argument. -/
theorem extractModel_varr (items : List JsValue) :
    extractModel (.varr items)
      = match items.find? (fun item => isObjectType item && truthy (jsFieldOpt item "model")) with
        | some first =>
          match jsField first "model" with
          | .vstr m => m
          | _ => "unknown"
        | none => "unknown" := rfl

/-- C6 (counterexample).  The claim says a plain-string argument payload
yields the label `"unknown"`; `extractModel` instead returns the string
itself (`if (typeof args === "string") return args;`, mcpClient.ts:288), so
an enqueue with string arguments and no meta gets that string as its model
label. -/
theorem C6_plain_string_counterexample :
    enqueueModel none (.vstr "claude-3-opus") = "claude-3-opus"
    ∧ enqueueModel none (.vstr "claude-3-opus") ≠ "unknown" := by
  refine ⟨rfl, ?_⟩
  decide

/-- C6 (amended).  The model label equals `meta.model` when given; else, for
a plain non-empty string payload, the string itself; else `arguments.model`
when that field is a string; else, for an array, the `model` field of the
first element of object type with a truthy `model` — and only when that
field is a string; every other shape (empty string, `null`, `undefined`,
booleans, numbers, objects without a string `model`, arrays without a
matching element) yields `"unknown"`. -/
theorem C6_model_extraction_amended :
    (∀ m args, enqueueModel (some m) args = m)
    ∧ (∀ args, enqueueModel none args = extractModel args)
    ∧ (∀ s : String, s ≠ "" → extractModel (.vstr s) = s)
    ∧ extractModel (.vstr "") = "unknown"
    ∧ extractModel .vnull = "unknown"
    ∧ extractModel .vundef = "unknown"
    ∧ (∀ b, extractModel (.vbool b) = "unknown")
    ∧ (∀ n : Int, extractModel (.vnum n) = "unknown")
    ∧ (∀ fs m, jsField (.vobj fs) "model" = .vstr m → extractModel (.vobj fs) = m)
    ∧ (∀ fs, (∀ m, jsField (.vobj fs) "model" ≠ JsValue.vstr m) →
        extractModel (.vobj fs) = "unknown")
    ∧ (∀ items first m,
        items.find? (fun item => isObjectType item && truthy (jsFieldOpt item "model"))
          = some first →
        jsField first "model" = .vstr m → extractModel (.varr items) = m)
    ∧ (∀ items first,
        items.find? (fun item => isObjectType item && truthy (jsFieldOpt item "model"))
          = some first →
        (∀ m, jsField first "model" ≠ JsValue.vstr m) → extractModel (.varr items) = "unknown")
    ∧ (∀ items,
        items.find? (fun item => isObjectType item && truthy (jsFieldOpt item "model"))
          = none →
        extractModel (.varr items) = "unknown") := by
  refine ⟨fun m args => rfl, fun args => rfl, ?_, rfl, rfl, rfl, ?_, ?_, ?_, ?_, ?_, ?_, ?_⟩
  · intro s hs
    simp [extractModel, truthy, hs]
  · intro b
    cases b <;> rfl
  · intro n
    by_cases hn : n = 0 <;> simp [extractModel, truthy, jsField, hn]
  · intro fs m h
    simp [extractModel, truthy, h]
  · intro fs h
    cases hj : jsField (.vobj fs) "model" with
    | vstr m => exact absurd hj (h m)
    | _ => simp [extractModel, truthy, hj]
  · intro items first m hfind hfield
    rw [extractModel_varr, hfind]
    show (match jsField first "model" with | JsValue.vstr m => m | _ => "unknown") = m
    rw [hfield]
  · intro items first hfind h
    rw [extractModel_varr, hfind]
    show (match jsField first "model" with | JsValue.vstr m => m | _ => "unknown") = "unknown"
    cases hj : jsField first "model"
    case vstr m => exact absurd hj (h m)
    all_goals rfl
  · intro items hfind
    rw [extractModel_varr, hfind]

/-- C6 (witness): the amended theorem applied to a non-empty plain string
and to an object carrying a string `model` field. -/
theorem C6_model_extraction_witness :
    ("claude" : String) ≠ ""
    ∧ extractModel (.vstr "claude") = "claude"
    ∧ jsField (.vobj [("model", .vstr "gpt-4o")]) "model" = .vstr "gpt-4o"
    ∧ extractModel (.vobj [("model", .vstr "gpt-4o")]) = "gpt-4o" := by
  obtain ⟨-, -, h3, -, -, -, -, -, h9, -⟩ := C6_model_extraction_amended
  exact ⟨by decide, h3 "claude" (by decide), rfl, h9 _ "gpt-4o" rfl⟩

/-! ## C9 — stderr redaction -/

/-- C9 (counterexample).  The claim says the value of any JSON field named
`token` (among others) is replaced before the line is surfaced.  The field
pattern requires the name to be immediately followed by `":` (mcpClient.ts:
137), so the legal JSON spelling `"token" : "secret"` — whitespace before
the colon — is surfaced with the secret intact and no redaction marker. -/
theorem C9_redaction_counterexample :
    containsSub (surfaceStderrLine "\x7b\"token\" : \"secret\"\x7d") "secret" = true
    ∧ containsSub (surfaceStderrLine "\x7b\"token\" : \"secret\"\x7d") "[REDACTED]" = false := by
  constructor <;> decide

/-- C9 (amended).  The stderr redaction applies five global rewrites in
order — `Bearer` token runs, `sk-ant-` and `sk-` key runs, then the listed
snake/lower-case field names (case-insensitively) and the camel-case field
names, each only when the name is immediately followed by `":`, optional
whitespace, and a non-empty double-quoted value — each inserting the fixed
marker `[REDACTED]`.  In particular the spec's two probes are redacted (the
marker appears, the secret does not), field-name matching is
case-insensitive, `refresh_token` values are caught (via the `token`
alternative), while a field written with whitespace between the name and the
colon passes through unchanged. -/
theorem C9_redaction_amended :
    containsSub (surfaceStderrLine "auth Bearer abc123 rest") "[REDACTED]" = true
    ∧ containsSub (surfaceStderrLine "auth Bearer abc123 rest") "abc123" = false
    ∧ surfaceStderrLine "auth Bearer abc123 rest" = "[server] auth Bearer [REDACTED] rest"
    ∧ containsSub (surfaceStderrLine "\x7b\"api_key\": \"sk-xyz\"\x7d") "[REDACTED]" = true
    ∧ containsSub (surfaceStderrLine "\x7b\"api_key\": \"sk-xyz\"\x7d") "sk-xyz" = false
    ∧ surfaceStderrLine "\x7b\"api_key\": \"sk-xyz\"\x7d" = "[server] \x7b\"api_key\": \"[REDACTED]\"\x7d"
    ∧ containsSub (surfaceStderrLine "\x7b\"token\": \"secret\"\x7d") "secret" = false
    ∧ containsSub (surfaceStderrLine "\x7b\"ACCESS_TOKEN\": \"hush\"\x7d") "hush" = false
    ∧ containsSub (surfaceStderrLine "\x7b\"refresh_token\": \"r1value\"\x7d") "r1value" = false
    ∧ containsSub (surfaceStderrLine "\x7b\"password\": \"pw1\"\x7d") "pw1" = false
    ∧ containsSub (surfaceStderrLine "key sk-ant-abcdef") "abcdef" = false
    ∧ redactLine "\x7b\"token\" : \"secret\"\x7d" = "\x7b\"token\" : \"secret\"\x7d" := by
  refine ⟨?_, ?_, ?_, ?_, ?_, ?_, ?_, ?_, ?_, ?_, ?_, ?_⟩ <;> decide

/-! ## C8 / C10 — correlator helpers -/

/-- Looking up a numeric id that is pending finds exactly that id. -/
theorem find?_int_eq (pending : List Nat) (id : Nat) (h : id ∈ pending) :
    pending.find? (fun (i : Nat) => (i : Int) == (id : Int)) = some id := by
  induction pending with
  | nil => cases h
  | cons p ps ih =>
    by_cases hp : p = id
    · subst hp
      exact List.find?_cons_of_pos _ (by simp)
    · rw [List.find?_cons_of_neg _ (by simp [hp])]
      rcases List.mem_cons.mp h with he | hm
      · exact absurd he.symm hp
      · exact ih hm

/-- `pendingLookup` on a pending numeric id. -/
theorem pendingLookup_mem (pending : List Nat) (id : Nat) (h : id ∈ pending) :
    pendingLookup pending (.vnum (id : Int)) = some id := by
  unfold pendingLookup
  exact find?_int_eq pending id h

/-- The stdout handler on a success response whose id is pending: remove the
entry and resolve with the `result` field. -/
theorem handleStdoutLine_response (st : TransportState) (id : Nat) (v : JsValue)
    (line : String) (hmem : id ∈ st.pending) (hv1 : v ≠ .vnull) (hv2 : v ≠ .vundef) :
    handleStdoutLine st (some (responseMsg id v)) line
      = { st with
          pending := st.pending.erase id,
          promiseLog := st.promiseLog ++ [(id, .resolved v)] } := by
  have hid : jsField (responseMsg id v) "id" = .vnum (id : Int) := rfl
  have hres : resultOrMsg (responseMsg id v) = v := by
    have hfield : jsField (responseMsg id v) "result" = v := rfl
    unfold resultOrMsg
    rw [hfield]
    cases v
    case vnull => exact absurd rfl hv1
    case vundef => exact absurd rfl hv2
    all_goals rfl
  have hstep : handleStdoutLine st (some (responseMsg id v)) line
      = match pendingLookup st.pending (jsField (responseMsg id v) "id") with
        | some i =>
          { st with
            pending := st.pending.erase i,
            promiseLog := st.promiseLog
              ++ [(i, .resolved (resultOrMsg (responseMsg id v)))] }
        | none => { st with outLines := st.outLines ++ ["Unsolicited: " ++ line] } := rfl
  rw [hstep, hid, pendingLookup_mem st.pending id hmem, hres]

/-- Every list starts with itself. -/
theorem startsWithSeq_refl (l : List Char) : startsWithSeq l l = true := by
  induction l with
  | nil => rfl
  | cons c cs ih => simp [startsWithSeq, ih]

/-- Every list contains itself. -/
theorem containsSeq_self (l : List Char) : containsSeq l l = true := by
  cases l with
  | nil => rfl
  | cons c cs => simp [containsSeq, startsWithSeq_refl]

/-- Containment is preserved by prepending. -/
theorem containsSeq_append_left (l₁ l₂ p : List Char) (h : containsSeq l₂ p = true) :
    containsSeq (l₁ ++ l₂) p = true := by
  induction l₁ with
  | nil => exact h
  | cons c cs ih => simp [containsSeq, ih]

/-- String containment is preserved by prepending. -/
theorem containsSub_append_of (a b s : String) (h : containsSub b s = true) :
    containsSub (a ++ b) s = true := by
  unfold containsSub at h ⊢
  rw [String.data_append]
  exact containsSeq_append_left _ _ _ h

/-- A string contains its own suffix. -/
theorem containsSub_append_self (a b : String) : containsSub (a ++ b) b = true :=
  containsSub_append_of a b b (by unfold containsSub; exact containsSeq_self _)

/-- The stdout handler on a parsed message that misses the pending map:
log it as unsolicited, touch nothing else. -/
theorem handleStdoutLine_unsolicited (st : TransportState) (msg : JsValue) (line : String)
    (hnn : msg ≠ .vnull)
    (hlook : pendingLookup st.pending (jsField msg "id") = none) :
    handleStdoutLine st (some msg) line
      = { st with outLines := st.outLines ++ ["Unsolicited: " ++ line] } := by
  cases msg
  case vnull => exact absurd rfl hnn
  all_goals
    simp only [handleStdoutLine]
    rw [hlook]

/-! ## C8 — per-request timeout and its isolation -/

/-- C8.  Firing the timeout timer of a pending request rejects exactly that
request's promise with a message carrying the configured bound (default
30000ms), removes its pending entry, and leaves any other pending entry
intact — a still-pending second request whose response then arrives resolves
normally. -/
theorem C8_timeout_isolation (st : TransportState) (id₁ id₂ t : Nat) (v : JsValue)
    (line : String) (hnd : st.pending.Nodup) (h1 : id₁ ∈ st.pending)
    (h2 : id₂ ∈ st.pending) (hne : id₂ ≠ id₁) (hv1 : v ≠ .vnull) (hv2 : v ≠ .vundef) :
    defaultTimeoutMs = 30000
    ∧ (timerFire st id₁ t).promiseLog
        = st.promiseLog
            ++ [(id₁, .rejected ("MCP request timed out after " ++ toString t ++ "ms"))]
    ∧ containsSub ("MCP request timed out after " ++ toString t ++ "ms")
        (toString t ++ "ms") = true
    ∧ id₁ ∉ (timerFire st id₁ t).pending
    ∧ id₂ ∈ (timerFire st id₁ t).pending
    ∧ (handleStdoutLine (timerFire st id₁ t) (some (responseMsg id₂ v)) line).promiseLog
        = (timerFire st id₁ t).promiseLog ++ [(id₂, .resolved v)] := by
  have htf : timerFire st id₁ t
      = { st with
          pending := st.pending.erase id₁,
          outLines := st.outLines
            ++ ["Request " ++ toString id₁ ++ " timed out after " ++ toString t ++ "ms"],
          promiseLog := st.promiseLog
            ++ [(id₁, .rejected ("MCP request timed out after " ++ toString t ++ "ms"))] } := by
    simp [timerFire, h1]
  have hmarker : containsSub ("MCP request timed out after " ++ toString t ++ "ms")
      (toString t ++ "ms") = true := by
    rw [String.append_assoc]
    exact containsSub_append_self _ _
  have hnotmem : id₁ ∉ (timerFire st id₁ t).pending := by
    rw [htf]
    exact hnd.not_mem_erase
  have hmem2 : id₂ ∈ (timerFire st id₁ t).pending := by
    rw [htf]
    exact (List.mem_erase_of_ne hne).mpr h2
  refine ⟨rfl, by rw [htf], hmarker, hnotmem, hmem2, ?_⟩
  rw [handleStdoutLine_response (timerFire st id₁ t) id₂ v line hmem2 hv1 hv2]

/-- C8 (witness): two pending requests; request 1 times out (rejected, with
the bound in the message, entry removed), request 2 stays pending and then
resolves normally. -/
theorem C8_timeout_isolation_witness :
    ([1, 2] : List Nat).Nodup
    ∧ 1 ∈ ([1, 2] : List Nat)
    ∧ 2 ∈ ([1, 2] : List Nat)
    ∧ (2 : Nat) ≠ 1
    ∧ JsValue.vstr "ok" ≠ JsValue.vnull
    ∧ JsValue.vstr "ok" ≠ JsValue.vundef
    ∧ (defaultTimeoutMs = 30000
      ∧ (timerFire ⟨3, [1, 2], [], []⟩ 1 30000).promiseLog
          = [] ++ [(1, .rejected ("MCP request timed out after " ++ toString 30000 ++ "ms"))]
      ∧ containsSub ("MCP request timed out after " ++ toString 30000 ++ "ms")
          (toString 30000 ++ "ms") = true
      ∧ 1 ∉ (timerFire ⟨3, [1, 2], [], []⟩ 1 30000).pending
      ∧ 2 ∈ (timerFire ⟨3, [1, 2], [], []⟩ 1 30000).pending
      ∧ (handleStdoutLine (timerFire ⟨3, [1, 2], [], []⟩ 1 30000)
            (some (responseMsg 2 (.vstr "ok"))) "resp").promiseLog
          = (timerFire ⟨3, [1, 2], [], []⟩ 1 30000).promiseLog
              ++ [(2, .resolved (.vstr "ok"))]) := by
  have hv1 : JsValue.vstr "ok" ≠ JsValue.vnull := fun h => nomatch h
  have hv2 : JsValue.vstr "ok" ≠ JsValue.vundef := fun h => nomatch h
  refine ⟨by decide, by decide, by decide, by decide, hv1, hv2, ?_⟩
  exact C8_timeout_isolation ⟨3, [1, 2], [], []⟩ 1 2 30000 (.vstr "ok") "resp"
    (by decide) (by decide) (by decide) (by decide) hv1 hv2

/-! ## C10 — non-JSON and unsolicited stdout lines surface unredacted -/

/-- C10.  A stdout line that fails to parse is surfaced on the output
channel verbatim behind the `Non JSON on stdout:` prefix, and a parsed
message whose id misses the pending map is surfaced verbatim behind
`Unsolicited:`; no redaction is applied on this path, so any secret
substring of the line is still contained in the surfaced line. -/
theorem C10_stdout_surfaced_verbatim (st : TransportState) (line secret : String)
    (msg : JsValue) :
    ((handleStdoutLine st none line).outLines
        = st.outLines ++ ["Non JSON on stdout: " ++ line])
    ∧ (containsSub line secret = true →
        containsSub ("Non JSON on stdout: " ++ line) secret = true)
    ∧ (msg ≠ .vnull →
        pendingLookup st.pending (jsField msg "id") = none →
        (handleStdoutLine st (some msg) line).outLines
          = st.outLines ++ ["Unsolicited: " ++ line])
    ∧ (containsSub line secret = true →
        containsSub ("Unsolicited: " ++ line) secret = true) := by
  refine ⟨rfl, fun h => containsSub_append_of _ _ _ h, ?_, fun h => containsSub_append_of _ _ _ h⟩
  intro hnn hlook
  rw [handleStdoutLine_unsolicited st msg line hnn hlook]

/-- C10 (witness): a non-JSON line and an unsolicited response, both
containing `Bearer abc123`, surface with the secret still present. -/
theorem C10_stdout_surfaced_verbatim_witness :
    containsSub "dbg Bearer abc123" "abc123" = true
    ∧ JsValue.vobj [("id", .vnum 9)] ≠ JsValue.vnull
    ∧ pendingLookup ([] : List Nat) (jsField (.vobj [("id", .vnum 9)]) "id") = none
    ∧ (handleStdoutLine ⟨1, [], [], []⟩ none "dbg Bearer abc123").outLines
        = [] ++ ["Non JSON on stdout: " ++ "dbg Bearer abc123"]
    ∧ containsSub ("Non JSON on stdout: " ++ "dbg Bearer abc123") "abc123" = true
    ∧ (handleStdoutLine ⟨1, [], [], []⟩ (some (.vobj [("id", .vnum 9)]))
          "dbg Bearer abc123").outLines
        = [] ++ ["Unsolicited: " ++ "dbg Bearer abc123"]
    ∧ containsSub ("Unsolicited: " ++ "dbg Bearer abc123") "abc123" = true := by
  have h := C10_stdout_surfaced_verbatim ⟨1, [], [], []⟩ "dbg Bearer abc123" "abc123"
    (.vobj [("id", .vnum 9)])
  have hsec : containsSub "dbg Bearer abc123" "abc123" = true := by decide
  have hnn : JsValue.vobj [("id", JsValue.vnum 9)] ≠ JsValue.vnull := fun hc => nomatch hc
  exact ⟨hsec, hnn, by decide, h.1, h.2.1 hsec, h.2.2.1 hnn (by decide), h.2.2.2 hsec⟩

/-! ## C7 — the completed history cap -/

/-- `recordCompletionList` when the id is absent: push then trim to the last
100. -/
theorem recordCompletionList_of_not_mem (completed : List RunSnap) (snap : RunSnap)
    (h : ∀ r ∈ completed, r.id ≠ snap.id) :
    recordCompletionList completed snap
      = if completed.length + 1 > 100
        then (completed ++ [snap]).drop (completed.length + 1 - 100)
        else completed ++ [snap] := by
  have hany : completed.any (fun r => r.id == snap.id) = false := by
    rw [List.any_eq_false]
    intro r hr
    simp [h r hr]
  unfold recordCompletionList
  rw [hany]
  simp [List.length_append]

/-- `recordCompletionList` when the id is present: in-place replacement. -/
theorem recordCompletionList_of_mem (completed : List RunSnap) (snap : RunSnap)
    (h : ∃ r ∈ completed, r.id = snap.id) :
    recordCompletionList completed snap
      = completed.map (fun r => if r.id == snap.id then snap else r) := by
  have hany : completed.any (fun r => r.id == snap.id) = true := by
    rw [List.any_eq_true]
    obtain ⟨r, hr, he⟩ := h
    exact ⟨r, hr, by simp [he]⟩
  unfold recordCompletionList
  rw [hany]
  rfl

/-- Replacement in place does not change the id sequence. -/
theorem recordCompletionList_ids_of_mem (completed : List RunSnap) (snap : RunSnap)
    (h : ∃ r ∈ completed, r.id = snap.id) :
    (recordCompletionList completed snap).map (fun r => r.id)
      = completed.map (fun r => r.id) := by
  rw [recordCompletionList_of_mem completed snap h, List.map_map]
  refine List.map_congr_left ?_
  intro r _
  by_cases he : r.id = snap.id <;> simp [he]

/-- `recordCompletionList` preserves distinctness of the stored ids. -/
theorem recordCompletionList_nodup (completed : List RunSnap) (snap : RunSnap)
    (h : (completed.map (fun r => r.id)).Nodup) :
    ((recordCompletionList completed snap).map (fun r => r.id)).Nodup := by
  by_cases hm : ∃ r ∈ completed, r.id = snap.id
  · rw [recordCompletionList_ids_of_mem completed snap hm]
    exact h
  · push_neg at hm
    have happ : ((completed ++ [snap]).map (fun r => r.id)).Nodup := by
      rw [List.map_append, List.nodup_append]
      refine ⟨h, List.nodup_singleton _, ?_⟩
      intro a ha hb
      obtain ⟨r, hr, he⟩ := List.mem_map.mp ha
      rw [List.map_singleton, List.mem_singleton] at hb
      exact hm r hr (he.trans hb)
    rw [recordCompletionList_of_not_mem completed snap hm]
    by_cases hlen : completed.length + 1 > 100
    · rw [if_pos hlen, List.map_drop]
      exact happ.sublist ((List.drop_suffix _ _).sublist)
    · rw [if_neg hlen]
      exact happ

/-- From the empty history, completions with distinct ids leave exactly the
most recent 100 (all of them while there are at most 100). -/
theorem hist_foldl (runs : List RunSnap) (h : (runs.map (fun r => r.id)).Nodup) :
    runs.foldl recordCompletionList [] = runs.drop (runs.length - 100) := by
  induction runs using List.reverseRecOn with
  | nil => rfl
  | append_singleton runs r ih =>
    have hsplit := h
    rw [List.map_append, List.nodup_append] at hsplit
    obtain ⟨hids, -, hdisj⟩ := hsplit
    have hnotmem : ∀ x ∈ runs, x.id ≠ r.id := by
      intro x hx he
      exact hdisj (List.mem_map_of_mem _ hx) (by simp [he])
    have hprev_not : ∀ x ∈ runs.drop (runs.length - 100), x.id ≠ r.id :=
      fun x hx => hnotmem x ((List.drop_suffix _ _).subset hx)
    rw [List.foldl_append, ih hids]
    show recordCompletionList (runs.drop (runs.length - 100)) r = _
    rw [recordCompletionList_of_not_mem _ _ hprev_not]
    have hlen : (runs.drop (runs.length - 100)).length
        = runs.length - (runs.length - 100) := List.length_drop _ _
    by_cases hk : runs.length < 100
    · have h1 : runs.length - 100 = 0 := by omega
      have h2 : (runs ++ [r]).length - 100 = 0 := by
        rw [List.length_append]
        simp
        omega
      rw [if_neg (by omega), h1, h2, List.drop_zero, List.drop_zero]
    · have hlen2 : (runs ++ [r]).length = runs.length + 1 := by simp
      have h1 : (runs.drop (runs.length - 100)).length + 1 - 100 = 1 := by omega
      rw [if_pos (by omega), h1,
        List.drop_append_of_le_length (by omega),
        List.drop_append_of_le_length (by omega),
        List.drop_drop]
      have h2 : runs.length - 100 + 1 = (runs ++ [r]).length - 100 := by omega
      rw [h2]

/-- C7.  The completed history from `recordCompletion` holds at most 100
runs; a sequence of more than 100 completions with distinct ids leaves
exactly the most recent 100 in completion order (oldest evicted first); ids
stay distinct; and finalizing a run whose id is already present replaces
that entry in place. -/
theorem C7_history_cap :
    (∀ runs : List RunSnap, (runs.map (fun r => r.id)).Nodup →
      (runs.foldl recordCompletionList []).length ≤ 100
      ∧ runs.foldl recordCompletionList [] = runs.drop (runs.length - 100))
    ∧ (∀ completed snap, (completed.map (fun r => r.id)).Nodup →
        ((recordCompletionList completed snap).map (fun r => r.id)).Nodup)
    ∧ (∀ completed snap, (∃ r ∈ completed, r.id = snap.id) →
        recordCompletionList completed snap
          = completed.map (fun r => if r.id == snap.id then snap else r)) := by
  refine ⟨?_, recordCompletionList_nodup, recordCompletionList_of_mem⟩
  intro runs h
  have he := hist_foldl runs h
  refine ⟨?_, he⟩
  rw [he, List.length_drop]
  omega

/-- C7 (witness): the theorem applied to 150 distinct completions — the
history length becomes 100 and holds exactly the last 100 — and to an
in-place upsert. -/
theorem C7_history_cap_witness :
    (witnessRuns.map (fun r => r.id)).Nodup
    ∧ (witnessRuns.foldl recordCompletionList []).length ≤ 100
    ∧ witnessRuns.foldl recordCompletionList [] = witnessRuns.drop (witnessRuns.length - 100)
    ∧ (∃ r ∈ [mkSnap 1], r.id = (mkSnap 1).id)
    ∧ recordCompletionList [mkSnap 1] (mkSnap 1)
        = [mkSnap 1].map (fun r => if r.id == (mkSnap 1).id then mkSnap 1 else r) := by
  obtain ⟨h1, -, h3⟩ := C7_history_cap
  have hn : (witnessRuns.map (fun r => r.id)).Nodup := by
    have he : witnessRuns.map (fun r => r.id) = List.range 150 := by
      rw [witnessRuns, List.map_map]
      exact List.map_id _
    rw [he]
    exact List.nodup_range _
  have hm : ∃ r ∈ [mkSnap 1], r.id = (mkSnap 1).id :=
    ⟨mkSnap 1, List.mem_singleton_self _, rfl⟩
  exact ⟨hn, (h1 witnessRuns hn).1, (h1 witnessRuns hn).2, hm, h3 _ _ hm⟩

/-! ## C1 — responses carrying a JSON-RPC `error` object -/

/-- C1 (divergence witness at the failing input).  For a pending request
with id 1 and an incoming response line carrying a JSON-RPC `error` object,
the stdout handler invokes the stored resolver as
`resolver(msg.result ?? msg, undefined)` (mcpClient.ts:117) — the `err`
argument of the resolver (mcpClient.ts:168-172) is always `undefined`, so
the `send` promise RESOLVES (with the entire message, error object
included) instead of rejecting with the response's `error`.  A run whose
channel call receives an error response therefore settles as a success. -/
theorem C1_error_response_resolves :
    (handleStdoutLine { nextId := 2, pending := [1], outLines := [], promiseLog := [] }
        (some errorResponseMsg)
        "\x7b\"jsonrpc\":\"2.0\",\"id\":1,\"error\":\x7b\"code\":-32000,\"message\":\"boom\"\x7d\x7d").promiseLog
      = [(1, PromiseOutcome.resolved errorResponseMsg)]
    ∧ (handleStdoutLine { nextId := 2, pending := [1], outLines := [], promiseLog := [] }
        (some errorResponseMsg)
        "\x7b\"jsonrpc\":\"2.0\",\"id\":1,\"error\":\x7b\"code\":-32000,\"message\":\"boom\"\x7d\x7d").pending
      = [] := by
  constructor <;> rfl

/-! ## Scheduler: snapshot-level lemmas -/

/-- A filter that rejects every element has length 0. -/
theorem length_filter_eq_zero {α : Type _} (p : α → Bool) (l : List α)
    (h : ∀ x ∈ l, p x = false) : (l.filter p).length = 0 := by
  rw [← List.countP_eq_length_filter, List.countP_eq_zero]
  intro x hx
  simp [h x hx]

/-- `countIdIn` as a count over the id sequence. -/
theorem countIdIn_eq_count (l : List RunSnap) (i : Nat) :
    countIdIn l i = (l.map (fun r => r.id)).count i := by
  induction l with
  | nil => rfl
  | cons r rest ih =>
    by_cases h : r.id = i <;>
      simp [countIdIn, List.filter_cons, List.count_cons, h] at ih ⊢ <;>
      omega

/-- At most one snapshot in a history can be `running` when the queued tail
is all `queued` and the completed list is all terminal. -/
theorem runningCount_le_one (st : ClientState)
    (hq : ∀ r ∈ st.runQueue, r.state = RunState.queued)
    (hc : ∀ r ∈ st.completedRuns, r.state.isTerminal = true) :
    runningCount (getRunHistory st) ≤ 1 := by
  have hq0 : ∀ r ∈ st.runQueue.map cloneRun, (r.state == RunState.running) = false := by
    intro r hr
    obtain ⟨x, hx, rfl⟩ := List.mem_map.mp hr
    simp [cloneRun, hq x hx]
  have hc0 : ∀ r ∈ st.completedRuns, (r.state == RunState.running) = false := by
    intro r hr
    have ht := hc r hr
    cases hstate : r.state <;> simp_all [RunState.isTerminal]
  unfold runningCount getRunHistory
  rw [List.filter_append, List.length_append]
  cases hact : st.activeRun with
  | none =>
    simp only [activeSnapList, List.nil_append]
    rw [length_filter_eq_zero _ _ hq0, length_filter_eq_zero _ _ hc0]
    omega
  | some a =>
    simp only [activeSnapList, List.singleton_append]
    rw [List.filter_cons, length_filter_eq_zero _ _ hc0]
    cases hr : (cloneRun a).state == RunState.running <;>
      simp [hr, length_filter_eq_zero _ _ hq0]

/-- Ownership of a snapshot follows from distinct queue ids, distinct
completed ids, and the double-membership case being the terminal head. -/
theorem snapshotOwnershipOk_of (h : RunHistory)
    (hq : (h.queue.map (fun r => r.id)).Nodup)
    (hc : (h.completed.map (fun r => r.id)).Nodup)
    (hboth : ∀ i, i ∈ h.queue.map (fun r => r.id) → i ∈ h.completed.map (fun r => r.id) →
      ∃ q0 t, h.queue = q0 :: t ∧ q0.id = i ∧ q0.state.isTerminal = true) :
    snapshotOwnershipOk h = true := by
  unfold snapshotOwnershipOk
  rw [List.all_eq_true]
  intro r hr
  have hcq : countIdIn h.queue r.id ≤ 1 := by
    rw [countIdIn_eq_count]
    exact List.nodup_iff_count_le_one.mp hq _
  have hcc : countIdIn h.completed r.id ≤ 1 := by
    rw [countIdIn_eq_count]
    exact List.nodup_iff_count_le_one.mp hc _
  simp only [Bool.and_eq_true, Bool.or_eq_true, decide_eq_true_eq, beq_iff_eq]
  refine ⟨⟨hcq, hcc⟩, ?_⟩
  by_cases hb : countIdIn h.queue r.id = 1 ∧ countIdIn h.completed r.id = 1
  · right
    have hq1 : (h.queue.map (fun r => r.id)).count r.id = 1 := by
      rw [← countIdIn_eq_count]
      exact hb.1
    have hc1 : (h.completed.map (fun r => r.id)).count r.id = 1 := by
      rw [← countIdIn_eq_count]
      exact hb.2
    have hmq : r.id ∈ h.queue.map (fun r => r.id) := by
      rw [← List.count_pos_iff]
      omega
    have hmc : r.id ∈ h.completed.map (fun r => r.id) := by
      rw [← List.count_pos_iff]
      omega
    obtain ⟨q0, t, heq, hid, hterm⟩ := hboth r.id hmq hmc
    rw [heq]
    simp [hid, hterm]
  · left
    simp only [Bool.not_eq_true', Bool.and_eq_false_iff]
    rcases Nat.lt_or_ge (countIdIn h.queue r.id) 1 with hlt | hge
    · left
      simp only [beq_eq_false_iff_ne]
      omega
    · right
      simp only [beq_eq_false_iff_ne]
      have : countIdIn h.queue r.id = 1 := by omega
      intro hcmp
      exact hb ⟨this, hcmp⟩

/-- A history snapshot shows run `i` settled only through an entry with id
`i` and a terminal state. -/
theorem showsSettled_false (st : ClientState) (i : Nat)
    (hq : ∀ r ∈ st.runQueue, r.state.isTerminal = false)
    (ha : ∀ r, st.activeRun = some r → r.id = i → r.state.isTerminal = false)
    (hc : ∀ r ∈ st.completedRuns, r.id ≠ i) :
    showsSettled (getRunHistory st) i = false := by
  unfold showsSettled getRunHistory
  rw [List.any_eq_false]
  intro r hr
  simp only [Bool.and_eq_true, beq_iff_eq, not_and]
  intro hid
  rcases List.mem_append.mp hr with hql | hcl
  · rcases List.mem_append.mp hql with hal | hml
    · cases hact : st.activeRun with
      | none =>
        rw [hact] at hal
        cases hal
      | some a =>
        rw [hact] at hal
        rcases List.mem_singleton.mp hal with rfl
        simp only [Bool.not_eq_true]
        exact ha a hact (by rw [← hid]; rfl)
    · obtain ⟨x, hx, rfl⟩ := List.mem_map.mp hml
      simp only [Bool.not_eq_true]
      exact hq x hx
  · exact absurd hid (hc r hcl)

/-- A completed terminal entry makes the snapshot show its run settled. -/
theorem showsSettled_true (st : ClientState) (i : Nat)
    (h : ∃ r ∈ st.completedRuns, r.id = i ∧ r.state.isTerminal = true) :
    showsSettled (getRunHistory st) i = true := by
  unfold showsSettled getRunHistory
  rw [List.any_eq_true]
  obtain ⟨r, hr, hid, hterm⟩ := h
  exact ⟨r, List.mem_append.mpr (Or.inr hr), by simp [hid, hterm]⟩

/-- A settled projection absorbs a further settled-showing snapshot. -/
theorem SettledPat.append_hs {l : List Tag} (h : SettledPat l) :
    SettledPat (l ++ [Tag.hs]) := by
  rcases h with ⟨k, m, rfl⟩ | ⟨k, m, rfl⟩ | ⟨m, rfl⟩ | ⟨k, m, rfl⟩
  · exact Or.inl ⟨k, m + 1, by simp [List.replicate_succ', List.append_assoc]⟩
  · exact Or.inr (Or.inl ⟨k, m + 1, by simp [List.replicate_succ', List.append_assoc]⟩)
  · exact Or.inr (Or.inr (Or.inl ⟨m + 1, by simp [List.replicate_succ', List.append_assoc]⟩))
  · exact Or.inr (Or.inr (Or.inr ⟨k, m + 1, by simp [List.replicate_succ', List.append_assoc]⟩))

/-- A settled projection is unchanged or extended by `hs` by any
`historyUpdated` event. -/
theorem SettledPat.append_classify_history {l : List Tag} (h : SettledPat l)
    (hist : RunHistory) (i : Nat) :
    SettledPat (l ++ (classify i (.historyUpdated hist)).toList) := by
  cases hss : showsSettled hist i
  · have he : classify i (.historyUpdated hist) = none := by simp [classify, hss]
    rw [he]
    simpa using h
  · have he : classify i (.historyUpdated hist) = some Tag.hs := by simp [classify, hss]
    rw [he]
    simpa using h.append_hs

/-! ## Scheduler: event-log rewriting lemmas -/

theorem startedIds_append (l₁ l₂ : List RunEvent) :
    startedIds (l₁ ++ l₂) = startedIds l₁ ++ startedIds l₂ :=
  List.filterMap_append ..

theorem filterMap_singleton {α β : Type _} (f : α → Option β) (a : α) :
    List.filterMap f [a] = (f a).toList := by
  cases h : f a <;> simp [List.filterMap_cons, h]

/-- Projection of an extended log. -/
theorem projOf_events_eq (st st' : ClientState) (l : List RunEvent)
    (h : st'.events = st.events ++ l) (i : Nat) :
    projOf st' i = projOf st i ++ l.filterMap (classify i) := by
  unfold projOf
  rw [h, List.filterMap_append]

/-- A strictly increasing sequence extended by a strict upper bound. -/
theorem strictlyIncreasing_append (l : List Nat) (j : Nat)
    (h : strictlyIncreasing l = true) (hj : ∀ x ∈ l, x < j) :
    strictlyIncreasing (l ++ [j]) = true := by
  induction l with
  | nil => rfl
  | cons a t ih =>
    cases t with
    | nil =>
      have ha := hj a (List.mem_singleton_self a)
      simp [strictlyIncreasing, ha]
    | cons b t2 =>
      have hstep : ∀ (x y : Nat) (r : List Nat),
          strictlyIncreasing (x :: y :: r) = (decide (x < y) && strictlyIncreasing (y :: r)) :=
        fun _ _ _ => rfl
      rw [List.cons_append, List.cons_append, hstep]
      rw [hstep] at h
      simp only [Bool.and_eq_true] at h ⊢
      refine ⟨h.1, ?_⟩
      have hrec := ih h.2 (fun x hx => hj x (List.mem_cons_of_mem a hx))
      rw [List.cons_append] at hrec
      exact hrec

theorem isTerminal_queued : RunState.queued.isTerminal = false := rfl

theorem isTerminal_running : RunState.running.isTerminal = false := rfl

/-! ## Scheduler: the drain loop preserves the invariant -/

/-- The drain loop re-establishes the full invariant: with an empty queue it
goes idle, otherwise it dispatches the head of the queue (which is never
marked cancelled while queued). -/
theorem drainLoop_inv (st : ClientState) (h : DrainPre st) :
    Inv (drainLoop st.runQueue st) := by
  have hcsub : ∀ i, i ∈ st.completedRuns.map (fun r => r.id) → i ∈ st.settledIds := by
    intro i hi
    rw [h.completed_eq] at hi
    exact (List.drop_suffix _ _).subset hi
  have hcnodup : (st.completedRuns.map (fun r => r.id)).Nodup := by
    rw [h.completed_eq]
    exact h.settled_nodup.sublist (List.drop_suffix _ _).sublist
  have hcne : ∀ i, i ∉ st.settledIds → ∀ r ∈ st.completedRuns, r.id ≠ i := by
    intro i hi r hr he
    exact hi (hcsub i (he ▸ List.mem_map_of_mem _ hr))
  cases hquc : st.runQueue with
  | nil =>
    show Inv (emitHistory { st with draining := false })
    have hsnap : getRunHistory { st with draining := false } = getRunHistory st := rfl
    have hq0 : (getRunHistory st).queue = [] := by
      simp [getRunHistory, activeSnapList, h.active_none, hquc]
    have hEv : (emitHistory { st with draining := false }).events
        = st.events ++ [.historyUpdated (getRunHistory st)] := rfl
    have hss_false : ∀ i, i ∉ st.settledIds →
        showsSettled (getRunHistory st) i = false := by
      intro i hi
      refine showsSettled_false st i ?_ ?_ ?_
      · intro r hr
        rw [(h.queue_state r hr).1]
        rfl
      · intro r hr
        rw [h.active_none] at hr
        cases hr
      · exact hcne i hi
    refine
      { counter_pos := h.counter_pos
        queue_bounds := h.queue_bounds
        active_bounds := fun r hr => nomatch h.active_none.symm.trans hr
        settled_bounds := h.settled_bounds
        queue_state := h.queue_state
        queue_sorted := h.queue_sorted
        active_state := fun r hr => nomatch h.active_none.symm.trans hr
        completed_terminal := h.completed_terminal
        completed_eq := h.completed_eq
        settled_nodup := h.settled_nodup
        holder := ?_
        draining_eq := ?_
        idle_empty := fun _ => hquc
        completions_eq := h.completions_eq
        started_inc := ?_
        started_lt_queue := ?_
        started_bounds := ?_
        log_running := ?_
        log_ownership := ?_
        pat_queued := ?_
        pat_active := ?_
        pat_settled := ?_
        pat_unknown := ?_ }
    · -- holder
      intro i h1 h2
      rcases h.holder i h1 h2 with ⟨hin, -⟩ | ⟨-, hin⟩
      · rw [queueIds, hquc] at hin
        cases hin
      · refine Or.inr (Or.inr ⟨?_, ?_, hin⟩)
        · show i ∉ queueIds st
          rw [queueIds, hquc]
          simp
        · show activeIdOf st ≠ some i
          simp [activeIdOf, h.active_none]
    · -- draining_eq
      show false = st.activeRun.isSome
      rw [h.active_none]
      rfl
    · -- started_inc
      show strictlyIncreasing (startedIds (st.events ++ [.historyUpdated (getRunHistory st)])) = true
      rw [startedIds_append]
      have : startedIds [RunEvent.historyUpdated (getRunHistory st)] = [] := rfl
      rw [this, List.append_nil]
      exact h.started_inc
    · -- started_lt_queue
      intro j hj r hr
      rw [hEv, startedIds_append] at hj
      have : startedIds [RunEvent.historyUpdated (getRunHistory st)] = [] := rfl
      rw [this, List.append_nil] at hj
      exact h.started_lt_queue j hj r hr
    · -- started_bounds
      intro j hj
      rw [hEv, startedIds_append] at hj
      have : startedIds [RunEvent.historyUpdated (getRunHistory st)] = [] := rfl
      rw [this, List.append_nil] at hj
      exact h.started_bounds j hj
    · -- log_running
      intro e he
      rw [hEv] at he
      rcases List.mem_append.mp he with hold | hnew
      · exact h.log_running e hold
      · rcases List.mem_singleton.mp hnew with rfl
        simp only [eventRunningOk, decide_eq_true_eq]
        refine runningCount_le_one st ?_ h.completed_terminal
        intro r hr
        exact (h.queue_state r hr).1
    · -- log_ownership
      intro e he
      rw [hEv] at he
      rcases List.mem_append.mp he with hold | hnew
      · exact h.log_ownership e hold
      · rcases List.mem_singleton.mp hnew with rfl
        show snapshotOwnershipOk (getRunHistory st) = true
        refine snapshotOwnershipOk_of _ ?_ ?_ ?_
        · rw [hq0]
          exact List.nodup_nil
        · exact hcnodup
        · intro i hiq
          rw [hq0] at hiq
          cases hiq
    · -- pat_queued
      intro i hi
      rw [queueIds, hquc] at hi
      cases hi
    · -- pat_active
      intro i hi
      simp [activeIdOf, emitHistory, emitEvent, h.active_none] at hi
    · -- pat_settled
      intro i hi
      have hproj := projOf_events_eq st (emitHistory { st with draining := false })
        [.historyUpdated (getRunHistory st)] hEv i
      rw [hproj, filterMap_singleton]
      exact (h.pat_settled i hi).append_classify_history (getRunHistory st) i
    · -- pat_unknown
      intro i hqi hai hsi
      have hproj := projOf_events_eq st (emitHistory { st with draining := false })
        [.historyUpdated (getRunHistory st)] hEv i
      rw [hproj, filterMap_singleton]
      have hqi' : i ∉ queueIds st := hqi
      have hsi' : i ∉ st.settledIds := hsi
      rw [h.pat_unknown2 i hqi' hsi']
      have hnone : classify i (.historyUpdated (getRunHistory st)) = none := by
        simp [classify, hss_false i hsi']
      rw [hnone]
      rfl
  | cons run rest =>
    have hrunq : run ∈ st.runQueue := by
      rw [hquc]
      exact List.mem_cons_self run rest
    have hrest_sub : ∀ r ∈ rest, r ∈ st.runQueue := by
      intro r hr
      rw [hquc]
      exact List.mem_cons_of_mem run hr
    have hnc : run.cancelled = false := (h.queue_state run hrunq).2
    have hrun_lt : ∀ r ∈ rest, run.id < r.id := by
      have := h.queue_sorted
      rw [hquc] at this
      exact (List.pairwise_cons.mp this).1
    have hrun_notsettled : run.id ∉ st.settledIds := by
      rcases h.holder run.id (h.queue_bounds run hrunq).1 (h.queue_bounds run hrunq).2 with
        ⟨-, hout⟩ | ⟨hout, -⟩
      · exact hout
      · exact absurd (by rw [queueIds]; exact List.mem_map_of_mem _ hrunq) hout
    set run1 : ToolRunInternal := { run with state := RunState.running, timerOn := true }
      with hrun1
    set st1 : ClientState := { st with runQueue := rest, activeRun := some run1 } with hst1
    have hdl : drainLoop (run :: rest) st
        = emitHistory (emitEvent st1 (.runStarted (cloneRun run1))) := by
      have hif : drainLoop (run :: rest) st
          = if run.cancelled = true
            then drainLoop rest (recordCompletion { st with runQueue := rest } run)
            else emitHistory (emitEvent st1 (.runStarted (cloneRun run1))) := rfl
      rw [hif, if_neg]
      simp [hnc]
    rw [hdl]
    have hEv : (emitHistory (emitEvent st1 (.runStarted (cloneRun run1)))).events
        = st.events ++ [.runStarted (cloneRun run1),
            .historyUpdated (getRunHistory st1)] := by
      have h1 : (emitHistory (emitEvent st1 (.runStarted (cloneRun run1)))).events
          = (st.events ++ [RunEvent.runStarted (cloneRun run1)])
              ++ [RunEvent.historyUpdated (getRunHistory st1)] := rfl
      rw [h1, List.append_assoc]
      rfl
    have hss1 : ∀ i, i ∉ st.settledIds → showsSettled (getRunHistory st1) i = false := by
      intro i hi
      refine showsSettled_false st1 i ?_ ?_ ?_
      · intro r hr
        rw [(h.queue_state r (hrest_sub r hr)).1]
        rfl
      · intro r hr hid
        have : r = run1 := by
          have : some r = some run1 := hr ▸ rfl
          exact Option.some.injEq _ _ ▸ (by injection hr)
        rw [this]
        rfl
      · exact hcne i hi
    have hcl_started : ∀ i, run.id ≠ i →
        classify i (.runStarted (cloneRun run1)) = none := by
      intro i hne
      simp [classify, cloneRun, hne]
    refine
      { counter_pos := h.counter_pos
        queue_bounds := fun r hr => h.queue_bounds r (hrest_sub r hr)
        active_bounds := ?_
        settled_bounds := h.settled_bounds
        queue_state := fun r hr => h.queue_state r (hrest_sub r hr)
        queue_sorted := ?_
        active_state := ?_
        completed_terminal := h.completed_terminal
        completed_eq := h.completed_eq
        settled_nodup := h.settled_nodup
        holder := ?_
        draining_eq := ?_
        idle_empty := ?_
        completions_eq := h.completions_eq
        started_inc := ?_
        started_lt_queue := ?_
        started_bounds := ?_
        log_running := ?_
        log_ownership := ?_
        pat_queued := ?_
        pat_active := ?_
        pat_settled := ?_
        pat_unknown := ?_ }
    · -- active_bounds
      intro r hr
      have hr2 : some run1 = some r := hr
      have hre : run1 = r := by injection hr2
      rw [← hre]
      exact h.queue_bounds run hrunq
    · -- queue_sorted
      have := h.queue_sorted
      rw [hquc] at this
      exact (List.pairwise_cons.mp this).2
    · -- active_state
      intro r hr
      have hr2 : some run1 = some r := hr
      have hre : run1 = r := by injection hr2
      rw [← hre]
    · -- holder
      intro i h1 h2
      rcases h.holder i h1 h2 with ⟨hin, hout⟩ | ⟨hout, hin⟩
      · rw [queueIds, hquc] at hin
        rcases List.mem_map.mp hin with ⟨x, hx, hxid⟩
        rcases List.mem_cons.mp hx with rfl | hx2
        · refine Or.inr (Or.inl ⟨?_, ?_, hout⟩)
          · show i ∉ queueIds st1
            rw [queueIds]
            intro hmem
            rcases List.mem_map.mp hmem with ⟨y, hy, hyid⟩
            have := hrun_lt y hy
            omega
          · show activeIdOf st1 = some i
            rw [activeIdOf, hst1]
            simp
            omega
        · refine Or.inl ⟨?_, ?_, hout⟩
          · show i ∈ queueIds st1
            rw [queueIds]
            rw [← hxid]
            exact List.mem_map_of_mem _ hx2
          · show activeIdOf st1 ≠ some i
            rw [activeIdOf, hst1]
            simp
            have := hrun_lt x hx2
            omega
      · refine Or.inr (Or.inr ⟨?_, ?_, hin⟩)
        · show i ∉ queueIds st1
          rw [queueIds]
          intro hmem
          rcases List.mem_map.mp hmem with ⟨y, hy, hyid⟩
          apply hout
          rw [queueIds, hquc, ← hyid]
          exact List.mem_map_of_mem _ (List.mem_cons_of_mem run hy)
        · show activeIdOf st1 ≠ some i
          rw [activeIdOf, hst1]
          simp only [Option.map_some']
          intro he
          have hri : run.id = i := by
            have : run1.id = i := by injection he
            exact this
          exact (hri ▸ hrun_notsettled) hin
    · -- draining_eq
      show st.draining = (some run1).isSome
      rw [h.draining_true]
      rfl
    · -- idle_empty
      intro hd
      have hd2 : st.draining = false := hd
      rw [h.draining_true] at hd2
      cases hd2
    · -- started_inc
      rw [hEv, startedIds_append]
      have : startedIds [RunEvent.runStarted (cloneRun run1),
          .historyUpdated (getRunHistory st1)] = [run.id] := rfl
      rw [this]
      refine strictlyIncreasing_append _ _ h.started_inc ?_
      intro x hx
      exact h.started_lt_queue x hx run hrunq
    · -- started_lt_queue
      intro j hj r hr
      rw [hEv, startedIds_append] at hj
      have hnew : startedIds [RunEvent.runStarted (cloneRun run1),
          .historyUpdated (getRunHistory st1)] = [run.id] := rfl
      rw [hnew] at hj
      rcases List.mem_append.mp hj with hold | hone
      · exact h.started_lt_queue j hold r (hrest_sub r hr)
      · rcases List.mem_singleton.mp hone with rfl
        exact hrun_lt r hr
    · -- started_bounds
      intro j hj
      rw [hEv, startedIds_append] at hj
      have hnew : startedIds [RunEvent.runStarted (cloneRun run1),
          .historyUpdated (getRunHistory st1)] = [run.id] := rfl
      rw [hnew] at hj
      rcases List.mem_append.mp hj with hold | hone
      · exact h.started_bounds j hold
      · rcases List.mem_singleton.mp hone with rfl
        exact (h.queue_bounds run hrunq).2
    · -- log_running
      intro e he
      rw [hEv] at he
      rcases List.mem_append.mp he with hold | hnew
      · exact h.log_running e hold
      · rcases List.mem_cons.mp hnew with rfl | hnew2
        · rfl
        · rcases List.mem_singleton.mp hnew2 with rfl
          simp only [eventRunningOk, decide_eq_true_eq]
          refine runningCount_le_one st1 ?_ h.completed_terminal
          intro r hr
          exact (h.queue_state r (hrest_sub r hr)).1
    · -- log_ownership
      intro e he
      rw [hEv] at he
      rcases List.mem_append.mp he with hold | hnew
      · exact h.log_ownership e hold
      · rcases List.mem_cons.mp hnew with rfl | hnew2
        · rfl
        · rcases List.mem_singleton.mp hnew2 with rfl
          show snapshotOwnershipOk (getRunHistory st1) = true
          refine snapshotOwnershipOk_of _ ?_ ?_ ?_
          · -- queue snapshot ids nodup: run.id :: rest ids
            have hqids : (getRunHistory st1).queue.map (fun r => r.id)
                = run.id :: rest.map (fun r => r.id) := by
              simp [getRunHistory, activeSnapList, hst1, cloneRun, List.map_map]
            rw [hqids, List.nodup_cons]
            constructor
            · intro hmem
              rcases List.mem_map.mp hmem with ⟨y, hy, hyid⟩
              have := hrun_lt y hy
              omega
            · have hsorted := h.queue_sorted
              rw [hquc] at hsorted
              have := (List.pairwise_cons.mp hsorted).2
              have : rest.Pairwise (fun a b => a.id < b.id) := this
              have hpn : (rest.map (fun r => r.id)).Pairwise (· < ·) :=
                List.pairwise_map.mpr this
              exact hpn.imp Nat.ne_of_lt
          · exact hcnodup
          · intro i hiq hic
            exfalso
            have hqids : (getRunHistory st1).queue.map (fun r => r.id)
                = run.id :: rest.map (fun r => r.id) := by
              simp [getRunHistory, activeSnapList, hst1, cloneRun, List.map_map]
            rw [hqids] at hiq
            have hisettled := hcsub i hic
            rcases List.mem_cons.mp hiq with rfl | hitail
            · exact hrun_notsettled hisettled
            · rcases List.mem_map.mp hitail with ⟨y, hy, hyid⟩
              have hyq : y.id ∉ st.settledIds := by
                rcases h.holder y.id (h.queue_bounds y (hrest_sub y hy)).1
                  (h.queue_bounds y (hrest_sub y hy)).2 with ⟨-, hout⟩ | ⟨hout, -⟩
                · exact hout
                · exact absurd (by
                    rw [queueIds]
                    exact List.mem_map_of_mem _ (hrest_sub y hy)) hout
              exact hyq (hyid ▸ hisettled)
    · -- pat_queued
      intro i hi
      rw [queueIds] at hi
      rcases List.mem_map.mp hi with ⟨y, hy, hyid⟩
      have hio : i ∈ queueIds st := by
        rw [queueIds, hquc, ← hyid]
        exact List.mem_map_of_mem _ (List.mem_cons_of_mem run hy)
      have hproj := projOf_events_eq st _ [.runStarted (cloneRun run1),
        .historyUpdated (getRunHistory st1)] hEv i
      rw [hproj]
      have hne : run.id ≠ i := by
        have := hrun_lt y hy
        omega
      have hbq := h.queue_bounds y (hrest_sub y hy)
      rw [hyid] at hbq
      have hnis : i ∉ st.settledIds := by
        rcases h.holder i hbq.1 hbq.2 with ⟨-, hout⟩ | ⟨hout, -⟩
        · exact hout
        · exact absurd hio hout
      have hdelta : List.filterMap (classify i) [.runStarted (cloneRun run1),
          .historyUpdated (getRunHistory st1)] = [] := by
        rw [List.filterMap_cons, hcl_started i hne]
        rw [filterMap_singleton]
        have : classify i (.historyUpdated (getRunHistory st1)) = none := by
          simp [classify, hss1 i hnis]
        rw [this]
        rfl
      rw [hdelta, List.append_nil]
      exact h.pat_queued i hio
    · -- pat_active
      intro i hi
      have hi2 : run.id = i := by
        have h3 : Option.map (fun r => r.id) (some run1) = some i := hi
        simp only [Option.map_some'] at h3
        injection h3
      have hproj := projOf_events_eq st _ [.runStarted (cloneRun run1),
        .historyUpdated (getRunHistory st1)] hEv i
      rw [hproj]
      have hio : i ∈ queueIds st := by
        rw [queueIds, hquc, ← hi2]
        exact List.mem_map_of_mem _ (List.mem_cons_self run rest)
      have hdelta : List.filterMap (classify i) [.runStarted (cloneRun run1),
          .historyUpdated (getRunHistory st1)] = [Tag.s] := by
        rw [List.filterMap_cons]
        have hcs : classify i (.runStarted (cloneRun run1)) = some Tag.s := by
          simp [classify, cloneRun, hi2]
        rw [hcs, filterMap_singleton]
        have hnone : classify i (.historyUpdated (getRunHistory st1)) = none := by
          simp [classify, hss1 i (hi2 ▸ hrun_notsettled)]
        rw [hnone]
        rfl
      rw [hdelta, h.pat_queued i hio]
      exact ⟨0, rfl⟩
    · -- pat_settled
      intro i hi
      have hproj := projOf_events_eq st _ [.runStarted (cloneRun run1),
        .historyUpdated (getRunHistory st1)] hEv i
      rw [hproj]
      have hne : run.id ≠ i := fun he => hrun_notsettled (he ▸ hi)
      rw [List.filterMap_cons, hcl_started i hne]
      have hrest2 : List.filterMap (classify i) [RunEvent.historyUpdated (getRunHistory st1)]
          = (classify i (.historyUpdated (getRunHistory st1))).toList := filterMap_singleton _ _
      rw [hrest2]
      exact (h.pat_settled i hi).append_classify_history (getRunHistory st1) i
    · -- pat_unknown
      intro i hqi hai hsi
      have hproj := projOf_events_eq st _ [.runStarted (cloneRun run1),
        .historyUpdated (getRunHistory st1)] hEv i
      rw [hproj]
      have hne : run.id ≠ i := by
        intro he
        apply hai
        show Option.map (fun r => r.id) (some run1) = some i
        simp only [Option.map_some']
        show some run.id = some i
        rw [he]
      have hqold : i ∉ queueIds st := by
        intro hmem
        rw [queueIds, hquc] at hmem
        rcases List.mem_map.mp hmem with ⟨y, hy, hyid⟩
        rcases List.mem_cons.mp hy with rfl | hy2
        · exact hne hyid
        · apply hqi
          rw [queueIds, hst1, ← hyid]
          exact List.mem_map_of_mem _ hy2
      have hdelta : List.filterMap (classify i) [.runStarted (cloneRun run1),
          .historyUpdated (getRunHistory st1)] = [] := by
        rw [List.filterMap_cons, hcl_started i hne, filterMap_singleton]
        have : classify i (.historyUpdated (getRunHistory st1)) = none := by
          simp [classify, hss1 i hsi]
        rw [this]
        rfl
      rw [hdelta, List.append_nil]
      exact h.pat_unknown2 i hqold hsi

/-! ## Scheduler: recording a completion -/

/-- One step of the 100-cap: push then trim equals trimming the extended
sequence. -/
theorem drop_cap_step {α : Type _} (s : List α) (x : α) :
    (if (s.drop (s.length - 100)).length + 1 > 100
      then (s.drop (s.length - 100) ++ [x]).drop ((s.drop (s.length - 100)).length + 1 - 100)
      else s.drop (s.length - 100) ++ [x])
      = (s ++ [x]).drop ((s ++ [x]).length - 100) := by
  have hlen : (s.drop (s.length - 100)).length = s.length - (s.length - 100) :=
    List.length_drop _ _
  have hlen2 : (s ++ [x]).length = s.length + 1 := by simp
  by_cases hk : s.length < 100
  · have h1 : s.length - 100 = 0 := by omega
    have h2 : (s ++ [x]).length - 100 = 0 := by omega
    rw [if_neg (by omega), h1, h2, List.drop_zero, List.drop_zero]
  · have h1 : (s.drop (s.length - 100)).length + 1 - 100 = 1 := by omega
    rw [if_pos (by omega), h1,
      List.drop_append_of_le_length (by omega),
      List.drop_append_of_le_length (by omega),
      List.drop_drop]
    have h2 : s.length - 100 + 1 = (s ++ [x]).length - 100 := by omega
    rw [h2]

/-- Recording a fresh id keeps the completed ids equal to the trimmed
settled sequence. -/
theorem recordCompletionList_ids_eq (completed : List RunSnap) (settled : List Nat)
    (snap : RunSnap)
    (heq : completed.map (fun r => r.id) = settled.drop (settled.length - 100))
    (hnot : snap.id ∉ settled) :
    (recordCompletionList completed snap).map (fun r => r.id)
      = (settled ++ [snap.id]).drop ((settled ++ [snap.id]).length - 100) := by
  have hnotmem : ∀ r ∈ completed, r.id ≠ snap.id := by
    intro r hr he
    apply hnot
    have hm : r.id ∈ completed.map (fun r => r.id) := List.mem_map_of_mem _ hr
    rw [heq] at hm
    exact he ▸ (List.drop_suffix _ _).subset hm
  have hclen : completed.length = (settled.drop (settled.length - 100)).length := by
    rw [← heq, List.length_map]
  rw [recordCompletionList_of_not_mem _ _ hnotmem,
    apply_ite (List.map (fun r : RunSnap => r.id))]
  simp only [List.map_drop, List.map_append, List.map_singleton]
  simp only [heq, hclen]
  exact drop_cap_step settled snap.id

/-- Recording a terminal snapshot keeps every completed entry terminal. -/
theorem recordCompletionList_terminal (completed : List RunSnap) (snap : RunSnap)
    (hc : ∀ r ∈ completed, r.state.isTerminal = true)
    (hs : snap.state.isTerminal = true) :
    ∀ r ∈ recordCompletionList completed snap, r.state.isTerminal = true := by
  intro r hr
  by_cases hm : ∃ x ∈ completed, x.id = snap.id
  · rw [recordCompletionList_of_mem _ _ hm] at hr
    rcases List.mem_map.mp hr with ⟨x, hx, rfl⟩
    by_cases he : x.id = snap.id <;> simp [he, hs, hc x hx]
  · push_neg at hm
    rw [recordCompletionList_of_not_mem _ _ hm] at hr
    by_cases hcond : completed.length + 1 > 100
    · rw [if_pos hcond] at hr
      have hr2 := List.drop_subset _ _ hr
      rcases List.mem_append.mp hr2 with h1 | h2
      · exact hc r h1
      · rcases List.mem_singleton.mp h2 with rfl
        exact hs
    · rw [if_neg hcond] at hr
      rcases List.mem_append.mp hr with h1 | h2
      · exact hc r h1
      · rcases List.mem_singleton.mp h2 with rfl
        exact hs

/-- The id sequence of a history snapshot's queue. -/
theorem getRunHistory_queue_ids (st : ClientState) :
    (getRunHistory st).queue.map (fun r => r.id)
      = (activeSnapList st.activeRun).map (fun r => r.id)
        ++ st.runQueue.map (fun r => r.id) := by
  show (activeSnapList st.activeRun ++ st.runQueue.map cloneRun).map (fun r => r.id) = _
  rw [List.map_append, List.map_map]
  rfl

/-- Appending a fresh element preserves distinctness. -/
theorem nodup_append_singleton {l : List Nat} {x : Nat} (h : l.Nodup) (hx : x ∉ l) :
    (l ++ [x]).Nodup := by
  rw [List.nodup_append]
  refine ⟨h, List.nodup_singleton x, ?_⟩
  intro a ha hb
  rw [List.mem_singleton] at hb
  exact hx (hb ▸ ha)

/-- The element just pushed always survives the cap trim. -/
theorem mem_drop_append_last {α : Type _} (l : List α) (x : α) (k : Nat)
    (hk : k ≤ l.length) : x ∈ (l ++ [x]).drop k := by
  rw [List.drop_append_of_le_length hk]
  exact List.mem_append.mpr (Or.inr (List.mem_singleton_self x))

/-- `removeFirst` decomposes the queue around the first entry with the id. -/
theorem removeFirst_eq_some (l : List ToolRunInternal) (runId : Nat)
    (run : ToolRunInternal) (rest : List ToolRunInternal)
    (h : removeFirst l runId = some (run, rest)) :
    run.id = runId
    ∧ ∃ l₁ l₂, l = l₁ ++ run :: l₂ ∧ rest = l₁ ++ l₂ ∧ ∀ r ∈ l₁, r.id ≠ runId := by
  induction l generalizing rest with
  | nil => cases h
  | cons r t ih =>
    by_cases hr : r.id = runId
    · rw [removeFirst, if_pos (by simp [hr])] at h
      have h1 : r = run ∧ t = rest := by
        constructor <;> injection h with h2 <;> injection h2
      rcases h1 with ⟨rfl, rfl⟩
      exact ⟨hr, [], t, rfl, rfl, by intro x hx; cases hx⟩
    · rw [removeFirst, if_neg (by simp [hr])] at h
      rcases Option.map_eq_some'.mp h with ⟨⟨run2, rest2⟩, hfind, heq2⟩
      have hq : run2 = run ∧ r :: rest2 = rest := by
        constructor <;> injection heq2 with h2 h3
      rcases hq with ⟨rfl, rfl⟩
      obtain ⟨hid, l₁, l₂, hl, hr2, hl1⟩ := ih rest2 hfind
      refine ⟨hid, r :: l₁, l₂, by simp [hl], by simp [hr2], ?_⟩
      intro x hx
      rcases List.mem_cons.mp hx with rfl | hx2
      · exact hr
      · exact hl1 x hx2

theorem filterMap_cons_toList {α β : Type _} (f : α → Option β) (a : α) (l : List α) :
    List.filterMap f (a :: l) = (f a).toList ++ l.filterMap f := by
  cases h : f a <;> simp [List.filterMap_cons, h]

/-! ## Scheduler: cancelling a queued run preserves the invariant -/

theorem cancelQueued_inv (st : ClientState) (h : Inv st) (runId : Nat) :
    Inv (cancelRun.cancelQueued st runId).1 := by
  cases hrf : removeFirst st.runQueue runId with
  | none =>
    have heq : (cancelRun.cancelQueued st runId).1 = st := by
      unfold cancelRun.cancelQueued
      rw [hrf]
    rw [heq]
    exact h
  | some p =>
    obtain ⟨run, rest⟩ := p
    obtain ⟨hid, l₁, l₂, hdecomp, hrest, -⟩ := removeFirst_eq_some _ _ _ _ hrf
    set run1 : ToolRunInternal :=
      { run with cancelled := true, state := RunState.cancelled } with hrun1
    set st1 : ClientState := { st with
      runQueue := rest,
      completions := st.completions ++ [(run1.id, .rejected "Cancelled")] } with hst1
    set stA : ClientState := { st1 with
      completedRuns := recordCompletionList st1.completedRuns (cloneRun run1),
      settledIds := st1.settledIds ++ [run1.id] } with hstA
    set R : ClientState :=
      emitHistory (emitEvent (emitHistory stA) (.runCancelled (cloneRun run1))) with hR
    have heq : (cancelRun.cancelQueued st runId).1 = R := by
      unfold cancelRun.cancelQueued
      rw [hrf]
      rfl
    rw [heq]
    have hEv : R.events = st.events
        ++ [.historyUpdated (getRunHistory stA), .runCancelled (cloneRun run1),
            .historyUpdated (getRunHistory stA)] := by
      have h1 : R.events = ((st.events ++ [RunEvent.historyUpdated (getRunHistory stA)])
          ++ [RunEvent.runCancelled (cloneRun run1)])
          ++ [RunEvent.historyUpdated (getRunHistory stA)] := rfl
      rw [h1, List.append_assoc, List.append_assoc]
      rfl
    -- basic facts about the removed run and the rest of the queue
    have hrun_mem : run ∈ st.runQueue := by
      rw [hdecomp]
      exact List.mem_append.mpr (Or.inr (List.mem_cons_self run l₂))
    have hrun_bounds := h.queue_bounds run hrun_mem
    have hrest_sub : ∀ r ∈ rest, r ∈ st.runQueue := by
      intro r hr
      rw [hrest] at hr
      rw [hdecomp]
      rcases List.mem_append.mp hr with h1 | h2
      · exact List.mem_append.mpr (Or.inl h1)
      · exact List.mem_append.mpr (Or.inr (List.mem_cons_of_mem run h2))
    have hrest_sublist : List.Sublist rest st.runQueue := by
      rw [hrest, hdecomp]
      exact (List.sublist_cons_self run l₂).append_left l₁
    have hids_nodup : (st.runQueue.map (fun r => r.id)).Nodup :=
      (List.pairwise_map.mpr h.queue_sorted).imp Nat.ne_of_lt
    have hqids : st.runQueue.map (fun r => r.id)
        = l₁.map (fun r => r.id) ++ run.id :: l₂.map (fun r => r.id) := by
      rw [hdecomp]
      simp
    have hrest_ids : rest.map (fun r => r.id)
        = l₁.map (fun r => r.id) ++ l₂.map (fun r => r.id) := by
      rw [hrest]
      simp
    have hrun_notin_rest : run.id ∉ rest.map (fun r => r.id) := by
      have hnd := hids_nodup
      rw [hqids, List.nodup_append] at hnd
      obtain ⟨-, hn2, hdisj⟩ := hnd
      rw [List.nodup_cons] at hn2
      rw [hrest_ids]
      intro hmem
      rcases List.mem_append.mp hmem with h1 | h2
      · exact hdisj h1 (List.mem_cons_self _ _)
      · exact hn2.1 h2
    have hmem_queue_ids : ∀ i, i ∈ rest.map (fun r => r.id) → i ∈ queueIds st := by
      intro i hi
      rw [queueIds]
      exact (hrest_sublist.map (fun r => r.id)).subset hi
    have hrun_in_qids : run.id ∈ queueIds st := by
      rw [queueIds]
      exact List.mem_map_of_mem _ hrun_mem
    have hrun_notsettled : run.id ∉ st.settledIds := by
      rcases h.holder run.id hrun_bounds.1 hrun_bounds.2 with ⟨-, -, hns⟩ | ⟨hnq, -, -⟩ | ⟨hnq, -, -⟩
      · exact hns
      · exact absurd hrun_in_qids hnq
      · exact absurd hrun_in_qids hnq
    have hqueue_notsettled : ∀ i, i ∈ queueIds st → i ∉ st.settledIds := by
      intro i hi
      have hb : 1 ≤ i ∧ i < st.runIdCounter := by
        rw [queueIds] at hi
        rcases List.mem_map.mp hi with ⟨y, hy, rfl⟩
        exact h.queue_bounds y hy
      rcases h.holder i hb.1 hb.2 with ⟨-, -, hns⟩ | ⟨hnq, -, -⟩ | ⟨hnq, -, -⟩
      · exact hns
      · exact absurd hi hnq
      · exact absurd hi hnq
    have hactive_notqueue : ∀ a, st.activeRun = some a → a.id ∉ queueIds st ∧ a.id ∉ st.settledIds := by
      intro a ha
      have hb := h.active_bounds a ha
      have haid : activeIdOf st = some a.id := by
        rw [activeIdOf, ha]
        rfl
      rcases h.holder a.id hb.1 hb.2 with ⟨-, hna, -⟩ | ⟨hnq, -, hns⟩ | ⟨-, hna, -⟩
      · exact absurd haid hna
      · exact ⟨hnq, hns⟩
      · exact absurd haid hna
    -- the new settled set
    have hsettled' : stA.settledIds = st.settledIds ++ [run.id] := rfl
    have hsnodup' : (st.settledIds ++ [run.id]).Nodup :=
      nodup_append_singleton h.settled_nodup hrun_notsettled
    have hceq' : stA.completedRuns.map (fun r => r.id)
        = (st.settledIds ++ [run.id]).drop ((st.settledIds ++ [run.id]).length - 100) :=
      recordCompletionList_ids_eq st.completedRuns st.settledIds (cloneRun run1)
        h.completed_eq hrun_notsettled
    have hterm' : ∀ r ∈ stA.completedRuns, r.state.isTerminal = true :=
      recordCompletionList_terminal st.completedRuns (cloneRun run1)
        h.completed_terminal rfl
    have hcsub' : ∀ i, i ∈ stA.completedRuns.map (fun r => r.id) →
        i ∈ st.settledIds ++ [run.id] := by
      intro i hi
      rw [hceq'] at hi
      exact (List.drop_suffix _ _).subset hi
    have hcnodup' : (stA.completedRuns.map (fun r => r.id)).Nodup := by
      rw [hceq']
      exact hsnodup'.sublist (List.drop_suffix _ _).sublist
    have hmem_c' : ∃ r ∈ stA.completedRuns, r.id = run.id ∧ r.state.isTerminal = true := by
      have hlen : (st.settledIds ++ [run.id]).length = st.settledIds.length + 1 := by simp
      have hmm : run.id ∈ stA.completedRuns.map (fun r => r.id) := by
        rw [hceq', hlen]
        exact mem_drop_append_last _ _ _ (by omega)
      rcases List.mem_map.mp hmm with ⟨r, hr, hrid2⟩
      exact ⟨r, hr, hrid2, hterm' r hr⟩
    have hssA_false : ∀ i, i ∉ st.settledIds ++ [run.id] →
        showsSettled (getRunHistory stA) i = false := by
      intro i hi
      refine showsSettled_false stA i ?_ ?_ ?_
      · intro r hr
        have : r.state = RunState.queued := (h.queue_state r (hrest_sub r hr)).1
        rw [this]
        rfl
      · intro r hr _
        have hr2 : st.activeRun = some r := hr
        rw [h.active_state r hr2]
        rfl
      · intro r hr he
        exact hi (hcsub' i (he ▸ List.mem_map_of_mem _ hr))
    have hssA_run : showsSettled (getRunHistory stA) run.id = true :=
      showsSettled_true stA run.id hmem_c'
    have hclC : ∀ i, run.id ≠ i → classify i (.runCancelled (cloneRun run1)) = none := by
      intro i hne
      simp [classify, cloneRun, hne]
    have hclC_run : classify run.id (.runCancelled (cloneRun run1)) = some Tag.c := by
      simp [classify, cloneRun]
    have hfm : ∀ i, List.filterMap (classify i)
        [RunEvent.historyUpdated (getRunHistory stA), .runCancelled (cloneRun run1),
          .historyUpdated (getRunHistory stA)]
        = (classify i (.historyUpdated (getRunHistory stA))).toList
          ++ ((classify i (.runCancelled (cloneRun run1))).toList
            ++ (classify i (.historyUpdated (getRunHistory stA))).toList) := by
      intro i
      rw [filterMap_cons_toList, filterMap_cons_toList, filterMap_singleton]
    have hdelta_none : ∀ i, i ∉ st.settledIds ++ [run.id] → run.id ≠ i →
        List.filterMap (classify i)
          [RunEvent.historyUpdated (getRunHistory stA), .runCancelled (cloneRun run1),
            .historyUpdated (getRunHistory stA)] = [] := by
      intro i hns hne
      rw [hfm]
      have h1 : classify i (.historyUpdated (getRunHistory stA)) = none := by
        simp [classify, hssA_false i hns]
      rw [h1, hclC i hne]
      rfl
    have hnotin_settled1 : ∀ i, i ∈ queueIds st → i ∉ st.settledIds ++ [run.id] → True := fun _ _ _ => trivial
    refine
      { counter_pos := h.counter_pos
        queue_bounds := fun r hr => h.queue_bounds r (hrest_sub r hr)
        active_bounds := h.active_bounds
        settled_bounds := ?_
        queue_state := fun r hr => h.queue_state r (hrest_sub r hr)
        queue_sorted := h.queue_sorted.sublist hrest_sublist
        active_state := h.active_state
        completed_terminal := hterm'
        completed_eq := hceq'
        settled_nodup := hsnodup'
        holder := ?_
        draining_eq := h.draining_eq
        idle_empty := ?_
        completions_eq := ?_
        started_inc := ?_
        started_lt_queue := ?_
        started_bounds := ?_
        log_running := ?_
        log_ownership := ?_
        pat_queued := ?_
        pat_active := ?_
        pat_settled := ?_
        pat_unknown := ?_ }
    · -- settled_bounds
      intro i hi
      rcases List.mem_append.mp hi with h1 | h2
      · exact h.settled_bounds i h1
      · rcases List.mem_singleton.mp h2 with rfl
        exact hrun_bounds
    · -- holder
      intro i h1 h2
      by_cases hieq : i = run.id
      · refine Or.inr (Or.inr ⟨?_, ?_, ?_⟩)
        · show i ∉ rest.map (fun r => r.id)
          rw [hieq]
          exact hrun_notin_rest
        · show activeIdOf st ≠ some i
          intro ha
          cases hact : st.activeRun with
          | none =>
            rw [activeIdOf, hact] at ha
            cases ha
          | some a =>
            rw [activeIdOf, hact] at ha
            have haid : a.id = i := by injection ha
            exact (hactive_notqueue a hact).1 (by rw [haid, hieq]; exact hrun_in_qids)
        · show i ∈ st.settledIds ++ [run.id]
          rw [hieq]
          exact List.mem_append.mpr (Or.inr (List.mem_singleton_self _))
      · rcases h.holder i h1 h2 with ⟨hin, hna, hns⟩ | ⟨hnq, hact, hns⟩ | ⟨hnq, hna, hin⟩
        · -- was queued, still queued (i ≠ run.id)
          refine Or.inl ⟨?_, hna, ?_⟩
          · show i ∈ rest.map (fun r => r.id)
            rw [hrest_ids]
            rw [queueIds, hqids] at hin
            rcases List.mem_append.mp hin with hl | hr2
            · exact List.mem_append.mpr (Or.inl hl)
            · rcases List.mem_cons.mp hr2 with he | hr3
              · exact absurd he hieq
              · exact List.mem_append.mpr (Or.inr hr3)
          · show i ∉ st.settledIds ++ [run.id]
            intro hm
            rcases List.mem_append.mp hm with hm1 | hm2
            · exact hns hm1
            · exact hieq (List.mem_singleton.mp hm2)
        · -- active
          refine Or.inr (Or.inl ⟨?_, hact, ?_⟩)
          · show i ∉ rest.map (fun r => r.id)
            intro hm
            exact hnq (hmem_queue_ids i hm)
          · show i ∉ st.settledIds ++ [run.id]
            intro hm
            rcases List.mem_append.mp hm with hm1 | hm2
            · exact hns hm1
            · exact hieq (List.mem_singleton.mp hm2)
        · -- settled
          refine Or.inr (Or.inr ⟨?_, hna, ?_⟩)
          · show i ∉ rest.map (fun r => r.id)
            intro hm
            exact hnq (hmem_queue_ids i hm)
          · show i ∈ st.settledIds ++ [run.id]
            exact List.mem_append.mpr (Or.inl hin)
    · -- idle_empty
      intro hd
      have hd2 : st.draining = false := hd
      have := h.idle_empty hd2
      rw [hdecomp] at this
      cases l₁ <;> cases this
    · -- completions_eq
      show (st.completions ++ [(run1.id, PromiseOutcome.rejected "Cancelled")]).map Prod.fst
        = st.settledIds ++ [run1.id]
      rw [List.map_append, h.completions_eq]
      rfl
    · -- started_inc
      show strictlyIncreasing (startedIds R.events) = true
      rw [hEv, startedIds_append]
      have hno : startedIds [RunEvent.historyUpdated (getRunHistory stA),
          .runCancelled (cloneRun run1), .historyUpdated (getRunHistory stA)] = [] := rfl
      rw [hno, List.append_nil]
      exact h.started_inc
    · -- started_lt_queue
      intro j hj r hr
      rw [hEv, startedIds_append] at hj
      have hno : startedIds [RunEvent.historyUpdated (getRunHistory stA),
          .runCancelled (cloneRun run1), .historyUpdated (getRunHistory stA)] = [] := rfl
      rw [hno, List.append_nil] at hj
      exact h.started_lt_queue j hj r (hrest_sub r hr)
    · -- started_bounds
      intro j hj
      rw [hEv, startedIds_append] at hj
      have hno : startedIds [RunEvent.historyUpdated (getRunHistory stA),
          .runCancelled (cloneRun run1), .historyUpdated (getRunHistory stA)] = [] := rfl
      rw [hno, List.append_nil] at hj
      exact h.started_bounds j hj
    · -- log_running
      intro e he
      rw [hEv] at he
      rcases List.mem_append.mp he with hold | hnew
      · exact h.log_running e hold
      · have hrc : runningCount (getRunHistory stA) ≤ 1 := by
          refine runningCount_le_one stA ?_ hterm'
          intro r hr
          exact (h.queue_state r (hrest_sub r hr)).1
        rcases List.mem_cons.mp hnew with rfl | hnew2
        · simp only [eventRunningOk, decide_eq_true_eq]
          exact hrc
        · rcases List.mem_cons.mp hnew2 with rfl | hnew3
          · rfl
          · rcases List.mem_singleton.mp hnew3 with rfl
            simp only [eventRunningOk, decide_eq_true_eq]
            exact hrc
    · -- log_ownership
      intro e he
      rw [hEv] at he
      rcases List.mem_append.mp he with hold | hnew
      · exact h.log_ownership e hold
      · have hso : snapshotOwnershipOk (getRunHistory stA) = true := by
          refine snapshotOwnershipOk_of _ ?_ ?_ ?_
          · rw [getRunHistory_queue_ids]
            cases hact : stA.activeRun with
            | none =>
              show ((activeSnapList none).map (fun r => r.id)
                ++ rest.map (fun r => r.id)).Nodup
              simp only [activeSnapList, List.map_nil, List.nil_append]
              exact hids_nodup.sublist (hrest_sublist.map (fun r => r.id))
            | some a =>
              show (((activeSnapList (some a)).map (fun r => r.id))
                ++ rest.map (fun r => r.id)).Nodup
              simp only [activeSnapList, List.map_singleton, List.singleton_append]
              rw [List.nodup_cons]
              have hact2 : st.activeRun = some a := hact
              refine ⟨?_, hids_nodup.sublist (hrest_sublist.map (fun r => r.id))⟩
              intro hm
              exact (hactive_notqueue a hact2).1 (hmem_queue_ids a.id hm)
          · exact hcnodup'
          · intro i hiq hic
            exfalso
            rw [getRunHistory_queue_ids] at hiq
            have hisettled' := hcsub' i hic
            rcases List.mem_append.mp hiq with hia | hirest
            · cases hact : stA.activeRun with
              | none =>
                rw [hact] at hia
                cases hia
              | some a =>
                rw [hact] at hia
                simp only [activeSnapList, List.map_singleton] at hia
                rcases List.mem_singleton.mp hia with rfl
                have hact2 : st.activeRun = some a := hact
                rcases List.mem_append.mp hisettled' with hs1 | hs2
                · exact (hactive_notqueue a hact2).2 hs1
                · have he2 : a.id = run.id := List.mem_singleton.mp hs2
                  exact (hactive_notqueue a hact2).1 (by rw [he2]; exact hrun_in_qids)
            · have hir2 : i ∈ queueIds st := hmem_queue_ids i hirest
              rcases List.mem_append.mp hisettled' with hs1 | hs2
              · exact hqueue_notsettled i hir2 hs1
              · rcases List.mem_singleton.mp hs2 with rfl
                exact hrun_notin_rest hirest
        rcases List.mem_cons.mp hnew with rfl | hnew2
        · exact hso
        · rcases List.mem_cons.mp hnew2 with rfl | hnew3
          · rfl
          · rcases List.mem_singleton.mp hnew3 with rfl
            exact hso
    · -- pat_queued
      intro i hi
      have hproj := projOf_events_eq st R _ hEv i
      rw [hproj]
      have hirest : i ∈ rest.map (fun r => r.id) := hi
      have hne : run.id ≠ i := fun he => hrun_notin_rest (he ▸ hirest)
      have hiq : i ∈ queueIds st := hmem_queue_ids i hirest
      have hins' : i ∉ st.settledIds ++ [run.id] := by
        intro hm
        rcases List.mem_append.mp hm with h1 | h2
        · exact hqueue_notsettled i hiq h1
        · exact hne (List.mem_singleton.mp h2).symm
      rw [hdelta_none i hins' hne, List.append_nil]
      exact h.pat_queued i hiq
    · -- pat_active
      intro i hi
      have hproj := projOf_events_eq st R _ hEv i
      rw [hproj]
      have hi2 : activeIdOf st = some i := hi
      obtain ⟨a, hact⟩ : ∃ a, st.activeRun = some a := by
        cases hact : st.activeRun with
        | none =>
          rw [activeIdOf, hact] at hi2
          cases hi2
        | some a => exact ⟨a, rfl⟩
      have haid : a.id = i := by
        rw [activeIdOf, hact] at hi2
        injection hi2
      have hins' : i ∉ st.settledIds ++ [run.id] := by
        intro hm
        rcases List.mem_append.mp hm with h1 | h2
        · exact (hactive_notqueue a hact).2 (haid ▸ h1)
        · rcases List.mem_singleton.mp h2 with rfl
          exact (hactive_notqueue a hact).1 (haid ▸ hrun_in_qids)
      have hne : run.id ≠ i := by
        intro he
        exact hins' (List.mem_append.mpr (Or.inr (by rw [← he]; exact List.mem_singleton_self _)))
      rw [hdelta_none i hins' hne, List.append_nil]
      exact h.pat_active i hi2
    · -- pat_settled
      intro i hi
      have hproj := projOf_events_eq st R _ hEv i
      rw [hproj, hfm]
      have hi2 : i ∈ st.settledIds ++ [run.id] := hi
      rcases List.mem_append.mp hi2 with hold | hnewid
      · -- previously settled: absorb the two snapshots, the cancel event is not ours
        have hne : run.id ≠ i := fun he => hrun_notsettled (he ▸ hold)
        rw [hclC i hne]
        have hp := ((h.pat_settled i hold).append_classify_history (getRunHistory stA) i).append_classify_history (getRunHistory stA) i
        simp only [Option.toList, List.append_assoc, List.nil_append] at hp ⊢
        exact hp
      · rcases List.mem_singleton.mp hnewid with rfl
        -- the cancelled run itself: [q] ++ [hs, c, hs]
        have hq : projOf st run.id = [Tag.q] := h.pat_queued run.id hrun_in_qids
        have hhs : classify run.id (.historyUpdated (getRunHistory stA)) = some Tag.hs := by
          simp [classify, hssA_run]
        rw [hq, hhs, hclC_run]
        refine Or.inr (Or.inr (Or.inl ⟨1, ?_⟩))
        simp [List.replicate]
    · -- pat_unknown
      intro i hqi hai hsi
      have hproj := projOf_events_eq st R _ hEv i
      rw [hproj]
      have hsi2 : i ∉ st.settledIds ++ [run.id] := hsi
      have hne : run.id ≠ i := by
        intro he
        exact hsi2 (List.mem_append.mpr (Or.inr (by rw [← he]; exact List.mem_singleton_self _)))
      have hqold : i ∉ queueIds st := by
        intro hm
        rw [queueIds, hqids] at hm
        rcases List.mem_append.mp hm with h1 | h2
        · apply hqi
          show i ∈ rest.map (fun r => r.id)
          rw [hrest_ids]
          exact List.mem_append.mpr (Or.inl h1)
        · rcases List.mem_cons.mp h2 with he | h3
          · exact hne he.symm
          · apply hqi
            show i ∈ rest.map (fun r => r.id)
            rw [hrest_ids]
            exact List.mem_append.mpr (Or.inr h3)
      rw [hdelta_none i hsi2 hne, List.append_nil]
      refine h.pat_unknown i hqold ?_ ?_
      · intro ha
        exact hai ha
      · intro hs
        exact hsi2 (List.mem_append.mpr (Or.inl hs))

/-! ## Scheduler: the progress tick preserves the invariant -/

theorem tick_inv (st : ClientState) (h : Inv st) : Inv (progressTick st) := by
  cases hact : st.activeRun with
  | none =>
    have heq : progressTick st = st := by
      unfold progressTick
      rw [hact]
    rw [heq]
    exact h
  | some run =>
    have heq : progressTick st
        = if run.timerOn = true then
            (if run.cancelled = true
              then { st with activeRun := some { run with timerOn := false } }
              else emitEvent st (.runProgress (cloneRun run)))
          else st := by
      unfold progressTick
      rw [hact]
    rw [heq]
    by_cases ht : run.timerOn = true
    case neg =>
      rw [if_neg ht]
      exact h
    case pos =>
      rw [if_pos ht]
      by_cases hcan : run.cancelled = true
      case pos =>
        rw [if_pos hcan]
        refine
          { counter_pos := h.counter_pos
            queue_bounds := h.queue_bounds
            active_bounds := ?_
            settled_bounds := h.settled_bounds
            queue_state := h.queue_state
            queue_sorted := h.queue_sorted
            active_state := ?_
            completed_terminal := h.completed_terminal
            completed_eq := h.completed_eq
            settled_nodup := h.settled_nodup
            holder := ?_
            draining_eq := ?_
            idle_empty := h.idle_empty
            completions_eq := h.completions_eq
            started_inc := h.started_inc
            started_lt_queue := h.started_lt_queue
            started_bounds := h.started_bounds
            log_running := h.log_running
            log_ownership := h.log_ownership
            pat_queued := h.pat_queued
            pat_active := ?_
            pat_settled := h.pat_settled
            pat_unknown := ?_ }
        · intro r hr
          have hre : { run with timerOn := false } = r := by
            have hr2 : some { run with timerOn := false } = some r := hr
            injection hr2
          rw [← hre]
          exact h.active_bounds run hact
        · intro r hr
          have hre : { run with timerOn := false } = r := by
            have hr2 : some { run with timerOn := false } = some r := hr
            injection hr2
          rw [← hre]
          exact h.active_state run hact
        · intro i h1 h2
          have heq : activeIdOf { st with activeRun := some { run with timerOn := false } }
              = activeIdOf st := by
            rw [activeIdOf, activeIdOf, hact]
            rfl
          have := h.holder i h1 h2
          rw [← heq] at this
          exact this
        · show st.draining = (some { run with timerOn := false }).isSome
          rw [h.draining_eq, hact]
          rfl
        · intro i hi
          have heq : activeIdOf { st with activeRun := some { run with timerOn := false } }
              = activeIdOf st := by
            rw [activeIdOf, activeIdOf, hact]
            rfl
          rw [heq] at hi
          exact h.pat_active i hi
        · intro i hqi hai hsi
          have heq : activeIdOf { st with activeRun := some { run with timerOn := false } }
              = activeIdOf st := by
            rw [activeIdOf, activeIdOf, hact]
            rfl
          rw [heq] at hai
          exact h.pat_unknown i hqi hai hsi
      case neg =>
        rw [if_neg hcan]
        have hEv : (emitEvent st (.runProgress (cloneRun run))).events
            = st.events ++ [.runProgress (cloneRun run)] := rfl
        have hrid : activeIdOf st = some run.id := by
          rw [activeIdOf, hact]
          rfl
        refine
          { counter_pos := h.counter_pos
            queue_bounds := h.queue_bounds
            active_bounds := h.active_bounds
            settled_bounds := h.settled_bounds
            queue_state := h.queue_state
            queue_sorted := h.queue_sorted
            active_state := h.active_state
            completed_terminal := h.completed_terminal
            completed_eq := h.completed_eq
            settled_nodup := h.settled_nodup
            holder := h.holder
            draining_eq := h.draining_eq
            idle_empty := h.idle_empty
            completions_eq := h.completions_eq
            started_inc := ?_
            started_lt_queue := ?_
            started_bounds := ?_
            log_running := ?_
            log_ownership := ?_
            pat_queued := ?_
            pat_active := ?_
            pat_settled := ?_
            pat_unknown := ?_ }
        · show strictlyIncreasing (startedIds
            (emitEvent st (.runProgress (cloneRun run))).events) = true
          rw [hEv, startedIds_append]
          have hno : startedIds [RunEvent.runProgress (cloneRun run)] = [] := rfl
          rw [hno, List.append_nil]
          exact h.started_inc
        · intro j hj r hr
          rw [hEv, startedIds_append] at hj
          have hno : startedIds [RunEvent.runProgress (cloneRun run)] = [] := rfl
          rw [hno, List.append_nil] at hj
          exact h.started_lt_queue j hj r hr
        · intro j hj
          rw [hEv, startedIds_append] at hj
          have hno : startedIds [RunEvent.runProgress (cloneRun run)] = [] := rfl
          rw [hno, List.append_nil] at hj
          exact h.started_bounds j hj
        · intro e he
          rw [hEv] at he
          rcases List.mem_append.mp he with hold | hnew
          · exact h.log_running e hold
          · rcases List.mem_singleton.mp hnew with rfl
            rfl
        · intro e he
          rw [hEv] at he
          rcases List.mem_append.mp he with hold | hnew
          · exact h.log_ownership e hold
          · rcases List.mem_singleton.mp hnew with rfl
            rfl
        · intro i hi
          have hne : run.id ≠ i := by
            intro he
            rcases h.holder i (he ▸ (h.active_bounds run hact).1)
              (he ▸ (h.active_bounds run hact).2) with
              ⟨-, hna, -⟩ | ⟨hout, -, -⟩ | ⟨hout, -, -⟩
            · exact hna (he ▸ hrid)
            · exact hout hi
            · exact hout hi
          have hproj := projOf_events_eq st _ [.runProgress (cloneRun run)] hEv i
          rw [hproj, filterMap_singleton]
          have hcl : classify i (.runProgress (cloneRun run)) = none := by
            simp [classify, cloneRun, hne]
          rw [hcl]
          simp only [Option.toList, List.append_nil]
          exact h.pat_queued i hi
        · intro i hi
          have hieq : run.id = i := by
            have hi2 : activeIdOf st = some i := hi
            rw [hrid] at hi2
            injection hi2
          have hproj := projOf_events_eq st _ [.runProgress (cloneRun run)] hEv i
          rw [hproj, filterMap_singleton]
          have hcl : classify i (.runProgress (cloneRun run)) = some Tag.p := by
            simp [classify, cloneRun, hieq]
          rw [hcl]
          obtain ⟨k, hk⟩ := h.pat_active i (hieq ▸ hrid)
          rw [hk]
          refine ⟨k + 1, ?_⟩
          rw [List.replicate_succ']
          simp
        · intro i hi
          have hne : run.id ≠ i := by
            intro he
            rcases h.holder i (he ▸ (h.active_bounds run hact).1)
              (he ▸ (h.active_bounds run hact).2) with
              ⟨-, -, hns⟩ | ⟨-, -, hns⟩ | ⟨-, hna, -⟩
            · exact hns hi
            · exact hns hi
            · exact hna (he ▸ hrid)
          have hproj := projOf_events_eq st _ [.runProgress (cloneRun run)] hEv i
          rw [hproj, filterMap_singleton]
          have hcl : classify i (.runProgress (cloneRun run)) = none := by
            simp [classify, cloneRun, hne]
          rw [hcl]
          simp only [Option.toList, List.append_nil]
          exact h.pat_settled i hi
        · intro i hqi hai hsi
          have hne : run.id ≠ i := by
            intro he
            exact hai (he ▸ hrid)
          have hproj := projOf_events_eq st _ [.runProgress (cloneRun run)] hEv i
          rw [hproj, filterMap_singleton]
          have hcl : classify i (.runProgress (cloneRun run)) = none := by
            simp [classify, cloneRun, hne]
          rw [hcl]
          simp only [Option.toList, List.append_nil]
          exact h.pat_unknown i hqi hai hsi

/-! ## Scheduler: `cancelRun` preserves the invariant -/

theorem Inv_set_cancelResults (st : ClientState) (l : List Bool) (h : Inv st) :
    Inv { st with cancelResults := l } :=
  { counter_pos := h.counter_pos
    queue_bounds := h.queue_bounds
    active_bounds := h.active_bounds
    settled_bounds := h.settled_bounds
    queue_state := h.queue_state
    queue_sorted := h.queue_sorted
    active_state := h.active_state
    completed_terminal := h.completed_terminal
    completed_eq := h.completed_eq
    settled_nodup := h.settled_nodup
    holder := h.holder
    draining_eq := h.draining_eq
    idle_empty := h.idle_empty
    completions_eq := h.completions_eq
    started_inc := h.started_inc
    started_lt_queue := h.started_lt_queue
    started_bounds := h.started_bounds
    log_running := h.log_running
    log_ownership := h.log_ownership
    pat_queued := h.pat_queued
    pat_active := h.pat_active
    pat_settled := h.pat_settled
    pat_unknown := h.pat_unknown }

theorem cancelRun_inv (st : ClientState) (h : Inv st) (runId : Nat) :
    Inv (cancelRun st runId).1 := by
  cases hact : st.activeRun with
  | none =>
    have heq : cancelRun st runId = cancelRun.cancelQueued st runId := by
      unfold cancelRun
      rw [hact]
    rw [heq]
    exact cancelQueued_inv st h runId
  | some run =>
    have heq : cancelRun st runId
        = if (run.id == runId) = true then
            (if (!(run.state == RunState.running)) = true then (st, false)
              else ({ st with
                activeRun := some { run with cancelled := true, execSettled := true } }, true))
          else cancelRun.cancelQueued st runId := by
      unfold cancelRun
      rw [hact]
    rw [heq]
    by_cases hid : (run.id == runId) = true
    case neg =>
      rw [if_neg hid]
      exact cancelQueued_inv st h runId
    case pos =>
      rw [if_pos hid]
      by_cases hntr : (!(run.state == RunState.running)) = true
      case pos =>
        rw [if_pos hntr]
        exact h
      case neg =>
        rw [if_neg hntr]
        refine
          { counter_pos := h.counter_pos
            queue_bounds := h.queue_bounds
            active_bounds := ?_
            settled_bounds := h.settled_bounds
            queue_state := h.queue_state
            queue_sorted := h.queue_sorted
            active_state := ?_
            completed_terminal := h.completed_terminal
            completed_eq := h.completed_eq
            settled_nodup := h.settled_nodup
            holder := ?_
            draining_eq := ?_
            idle_empty := h.idle_empty
            completions_eq := h.completions_eq
            started_inc := h.started_inc
            started_lt_queue := h.started_lt_queue
            started_bounds := h.started_bounds
            log_running := h.log_running
            log_ownership := h.log_ownership
            pat_queued := h.pat_queued
            pat_active := ?_
            pat_settled := h.pat_settled
            pat_unknown := ?_ }
        · intro r hr
          have hre : { run with cancelled := true, execSettled := true } = r := by
            have hr2 : some { run with cancelled := true, execSettled := true } = some r := hr
            injection hr2
          rw [← hre]
          exact h.active_bounds run hact
        · intro r hr
          have hre : { run with cancelled := true, execSettled := true } = r := by
            have hr2 : some { run with cancelled := true, execSettled := true } = some r := hr
            injection hr2
          rw [← hre]
          exact h.active_state run hact
        · intro i h1 h2
          have heq2 : activeIdOf { st with
              activeRun := some { run with cancelled := true, execSettled := true } }
              = activeIdOf st := by
            rw [activeIdOf, activeIdOf, hact]
            rfl
          have := h.holder i h1 h2
          rw [← heq2] at this
          exact this
        · show st.draining = (some { run with cancelled := true, execSettled := true }).isSome
          rw [h.draining_eq, hact]
          rfl
        · intro i hi
          have heq2 : activeIdOf { st with
              activeRun := some { run with cancelled := true, execSettled := true } }
              = activeIdOf st := by
            rw [activeIdOf, activeIdOf, hact]
            rfl
          rw [heq2] at hi
          exact h.pat_active i hi
        · intro i hqi hai hsi
          have heq2 : activeIdOf { st with
              activeRun := some { run with cancelled := true, execSettled := true } }
              = activeIdOf st := by
            rw [activeIdOf, activeIdOf, hact]
            rfl
          rw [heq2] at hai
          exact h.pat_unknown i hqi hai hsi

/-! ## Scheduler: enqueueing preserves the invariant -/

theorem enqueue_inv (st : ClientState) (h : Inv st) (tool : String) (args : JsValue)
    (meta : Option String) : Inv (enqueueToolCall st tool args meta) := by
  set n := st.runIdCounter with hn
  set run : ToolRunInternal :=
    { id := n, tool := tool, model := enqueueModel meta args,
      state := RunState.queued, arguments := args, result := none,
      error := none, cancelled := false, execSettled := false, timerOn := false } with hrun
  set st1 : ClientState :=
    { st with runIdCounter := n + 1, runQueue := st.runQueue ++ [run] } with hst1
  set st2 : ClientState := emitEvent st1 (.runQueued (cloneRun run)) with hst2
  set st3 : ClientState := emitHistory st2 with hst3
  have heq : enqueueToolCall st tool args meta = drainQueue st3 := rfl
  rw [heq]
  have hEv3 : st3.events = st.events
      ++ [RunEvent.runQueued (cloneRun run),
          RunEvent.historyUpdated (getRunHistory st2)] := by
    have h1 : st3.events = (st.events ++ [RunEvent.runQueued (cloneRun run)])
        ++ [RunEvent.historyUpdated (getRunHistory st2)] := rfl
    rw [h1, List.append_assoc]
    rfl
  have hq_lt : ∀ r ∈ st.runQueue, r.id < n := fun r hr => (h.queue_bounds r hr).2
  have hn_notin_q : n ∉ queueIds st := by
    intro hm
    rcases List.mem_map.mp hm with ⟨r, hr, hid⟩
    exact absurd (hid ▸ hq_lt r hr) (lt_irrefl n)
  have hn_not_active : activeIdOf st ≠ some n := by
    intro hx
    cases hact : st.activeRun with
    | none =>
      rw [activeIdOf, hact] at hx
      cases hx
    | some a =>
      rw [activeIdOf, hact] at hx
      have haid : a.id = n := by injection hx
      have hlt := (h.active_bounds a hact).2
      rw [haid] at hlt
      exact absurd hlt (lt_irrefl n)
  have hn_not_settled : n ∉ st.settledIds := by
    intro hm
    exact absurd (h.settled_bounds n hm).2 (lt_irrefl n)
  have hcsub : ∀ i, i ∈ st.completedRuns.map (fun r => r.id) → i ∈ st.settledIds := by
    intro i hi
    rw [h.completed_eq] at hi
    exact (List.drop_suffix _ _).subset hi
  have hcnodup : (st.completedRuns.map (fun r => r.id)).Nodup := by
    rw [h.completed_eq]
    exact h.settled_nodup.sublist (List.drop_suffix _ _).sublist
  have hqnodup : (st.runQueue.map (fun r => r.id)).Nodup :=
    (List.pairwise_map.mpr h.queue_sorted).imp Nat.ne_of_lt
  have hactive_fact : ∀ a, st.activeRun = some a →
      a.id ∉ queueIds st ∧ a.id ∉ st.settledIds := by
    intro a ha
    have hb := h.active_bounds a ha
    have haid : activeIdOf st = some a.id := by
      rw [activeIdOf, ha]
      rfl
    rcases h.holder a.id hb.1 hb.2 with ⟨-, hna, -⟩ | ⟨hnq, -, hns⟩ | ⟨-, hna, -⟩
    · exact absurd haid hna
    · exact ⟨hnq, hns⟩
    · exact absurd haid hna
  have hqueue_notsettled : ∀ i, i ∈ queueIds st → i ∉ st.settledIds := by
    intro i hi
    have hb : 1 ≤ i ∧ i < n := by
      rw [queueIds] at hi
      rcases List.mem_map.mp hi with ⟨y, hy, rfl⟩
      exact h.queue_bounds y hy
    rcases h.holder i hb.1 hb.2 with ⟨-, -, hns⟩ | ⟨hnq, -, -⟩ | ⟨hnq, -, -⟩
    · exact hns
    · exact absurd hi hnq
    · exact absurd hi hnq
  -- facts about the extended queue
  have hqb' : ∀ r ∈ st.runQueue ++ [run], 1 ≤ r.id ∧ r.id < n + 1 := by
    intro r hr
    rcases List.mem_append.mp hr with h1 | h2
    · exact ⟨(h.queue_bounds r h1).1, Nat.lt_succ_of_lt (h.queue_bounds r h1).2⟩
    · rcases List.mem_singleton.mp h2 with rfl
      exact ⟨h.counter_pos, Nat.lt_succ_self n⟩
  have hqs' : ∀ r ∈ st.runQueue ++ [run], r.state = RunState.queued ∧ r.cancelled = false := by
    intro r hr
    rcases List.mem_append.mp hr with h1 | h2
    · exact h.queue_state r h1
    · rcases List.mem_singleton.mp h2 with rfl
      exact ⟨rfl, rfl⟩
  have hsort' : (st.runQueue ++ [run]).Pairwise (fun a b => a.id < b.id) := by
    rw [List.pairwise_append]
    refine ⟨h.queue_sorted, List.pairwise_singleton _ _, ?_⟩
    intro a ha b hb
    rcases List.mem_singleton.mp hb with rfl
    exact hq_lt a ha
  have hqids' : (st.runQueue ++ [run]).map (fun r => r.id)
      = st.runQueue.map (fun r => r.id) ++ [n] := by
    rw [List.map_append]
    rfl
  have hqids_nodup' : ((st.runQueue ++ [run]).map (fun r => r.id)).Nodup := by
    rw [hqids']
    exact nodup_append_singleton hqnodup hn_notin_q
  -- classification of the two new events
  have hclQ : ∀ i, n ≠ i → classify i (.runQueued (cloneRun run)) = none := by
    intro i hne
    simp [classify, cloneRun, hne]
  have hclQ_n : classify n (.runQueued (cloneRun run)) = some Tag.q := by
    simp [classify, cloneRun]
  have hss_false : ∀ i, i ∉ st.settledIds → showsSettled (getRunHistory st2) i = false := by
    intro i hns
    refine showsSettled_false st2 i ?_ ?_ ?_
    · intro r hr
      have hr2 : r ∈ st.runQueue ++ [run] := hr
      rw [(hqs' r hr2).1]
      rfl
    · intro r hr _
      have hr2 : st.activeRun = some r := hr
      rw [h.active_state r hr2]
      rfl
    · intro r hr he
      exact hns (hcsub i (he ▸ List.mem_map_of_mem _ hr))
  have hdelta_none : ∀ i, i ∉ st.settledIds → n ≠ i →
      List.filterMap (classify i)
        [RunEvent.runQueued (cloneRun run),
          RunEvent.historyUpdated (getRunHistory st2)] = [] := by
    intro i hns hne
    rw [filterMap_cons_toList, filterMap_singleton, hclQ i hne]
    have hH : classify i (.historyUpdated (getRunHistory st2)) = none := by
      simp [classify, hss_false i hns]
    rw [hH]
    rfl
  have hdelta_n : List.filterMap (classify n)
      [RunEvent.runQueued (cloneRun run),
        RunEvent.historyUpdated (getRunHistory st2)] = [Tag.q] := by
    rw [filterMap_cons_toList, filterMap_singleton, hclQ_n]
    have hH : classify n (.historyUpdated (getRunHistory st2)) = none := by
      simp [classify, hss_false n hn_not_settled]
    rw [hH]
    rfl
  have hrc2 : runningCount (getRunHistory st2) ≤ 1 := by
    refine runningCount_le_one st2 ?_ ?_
    · intro r hr
      have hr2 : r ∈ st.runQueue ++ [run] := hr
      exact (hqs' r hr2).1
    · intro r hr
      exact h.completed_terminal r hr
  have hso2 : snapshotOwnershipOk (getRunHistory st2) = true := by
    refine snapshotOwnershipOk_of _ ?_ hcnodup ?_
    · rw [getRunHistory_queue_ids]
      cases hact : st2.activeRun with
      | none =>
        show ((activeSnapList none).map (fun r => r.id)
          ++ (st.runQueue ++ [run]).map (fun r => r.id)).Nodup
        simp only [activeSnapList, List.map_nil, List.nil_append]
        exact hqids_nodup'
      | some a =>
        show (((activeSnapList (some a)).map (fun r => r.id))
          ++ (st.runQueue ++ [run]).map (fun r => r.id)).Nodup
        simp only [activeSnapList, List.map_singleton, List.singleton_append]
        rw [List.nodup_cons]
        have hact2 : st.activeRun = some a := hact
        refine ⟨?_, hqids_nodup'⟩
        rw [hqids']
        intro hm
        rcases List.mem_append.mp hm with h1 | h2
        · exact (hactive_fact a hact2).1 h1
        · have he2 : a.id = n := List.mem_singleton.mp h2
          have hlt := (h.active_bounds a hact2).2
          rw [he2] at hlt
          exact absurd hlt (lt_irrefl n)
    · intro i hiq hic
      exfalso
      rw [getRunHistory_queue_ids] at hiq
      have hisettled : i ∈ st.settledIds := hcsub i hic
      rcases List.mem_append.mp hiq with hia | hiqq
      · cases hact : st2.activeRun with
        | none =>
          rw [hact] at hia
          cases hia
        | some a =>
          rw [hact] at hia
          simp only [activeSnapList, List.map_singleton] at hia
          rcases List.mem_singleton.mp hia with rfl
          have hact2 : st.activeRun = some a := hact
          exact (hactive_fact a hact2).2 hisettled
      · have hiqq2 : i ∈ (st.runQueue ++ [run]).map (fun r => r.id) := hiqq
        rw [hqids'] at hiqq2
        rcases List.mem_append.mp hiqq2 with h1 | h2
        · exact hqueue_notsettled i h1 hisettled
        · rcases List.mem_singleton.mp h2 with rfl
          exact hn_not_settled hisettled
  by_cases hdr : st.draining = true
  case pos =>
    have heq2 : drainQueue st3 = st3 := by
      unfold drainQueue
      rw [if_pos (show st3.draining = true from hdr)]
    rw [heq2]
    refine
      { counter_pos := Nat.le_succ_of_le h.counter_pos
        queue_bounds := hqb'
        active_bounds := ?_
        settled_bounds := ?_
        queue_state := hqs'
        queue_sorted := hsort'
        active_state := h.active_state
        completed_terminal := h.completed_terminal
        completed_eq := h.completed_eq
        settled_nodup := h.settled_nodup
        holder := ?_
        draining_eq := h.draining_eq
        idle_empty := ?_
        completions_eq := h.completions_eq
        started_inc := ?_
        started_lt_queue := ?_
        started_bounds := ?_
        log_running := ?_
        log_ownership := ?_
        pat_queued := ?_
        pat_active := ?_
        pat_settled := ?_
        pat_unknown := ?_ }
    · intro r hr
      have hr2 : st.activeRun = some r := hr
      exact ⟨(h.active_bounds r hr2).1, Nat.lt_succ_of_lt (h.active_bounds r hr2).2⟩
    · intro i hi
      have hi2 : i ∈ st.settledIds := hi
      exact ⟨(h.settled_bounds i hi2).1, Nat.lt_succ_of_lt (h.settled_bounds i hi2).2⟩
    · -- holder
      intro i h1 h2
      by_cases hieq : i = n
      · refine Or.inl ⟨?_, ?_, ?_⟩
        · show i ∈ (st.runQueue ++ [run]).map (fun r => r.id)
          rw [hqids', hieq]
          exact List.mem_append.mpr (Or.inr (List.mem_singleton_self _))
        · show activeIdOf st ≠ some i
          rw [hieq]
          exact hn_not_active
        · show i ∉ st.settledIds
          rw [hieq]
          exact hn_not_settled
      · have h2n : i < n + 1 := h2
        have h2' : i < n := by omega
        rcases h.holder i h1 h2' with ⟨hin, hna, hns⟩ | ⟨hnq, hact, hns⟩ | ⟨hnq, hna, hin⟩
        · refine Or.inl ⟨?_, hna, hns⟩
          show i ∈ (st.runQueue ++ [run]).map (fun r => r.id)
          rw [hqids']
          exact List.mem_append.mpr (Or.inl hin)
        · refine Or.inr (Or.inl ⟨?_, hact, hns⟩)
          show i ∉ (st.runQueue ++ [run]).map (fun r => r.id)
          rw [hqids']
          intro hm
          rcases List.mem_append.mp hm with hm1 | hm2
          · exact hnq hm1
          · exact hieq (List.mem_singleton.mp hm2)
        · refine Or.inr (Or.inr ⟨?_, hna, hin⟩)
          show i ∉ (st.runQueue ++ [run]).map (fun r => r.id)
          rw [hqids']
          intro hm
          rcases List.mem_append.mp hm with hm1 | hm2
          · exact hnq hm1
          · exact hieq (List.mem_singleton.mp hm2)
    · -- idle_empty, vacuous while draining
      intro hd
      have hd2 : st.draining = false := hd
      rw [hd2] at hdr
      cases hdr
    · -- started_inc
      show strictlyIncreasing (startedIds st3.events) = true
      rw [hEv3, startedIds_append]
      have hno : startedIds [RunEvent.runQueued (cloneRun run),
          RunEvent.historyUpdated (getRunHistory st2)] = [] := rfl
      rw [hno, List.append_nil]
      exact h.started_inc
    · -- started_lt_queue
      intro j hj r hr
      have hj2 : j ∈ startedIds st3.events := hj
      rw [hEv3, startedIds_append] at hj2
      have hno : startedIds [RunEvent.runQueued (cloneRun run),
          RunEvent.historyUpdated (getRunHistory st2)] = [] := rfl
      rw [hno, List.append_nil] at hj2
      have hr2 : r ∈ st.runQueue ++ [run] := hr
      rcases List.mem_append.mp hr2 with h1 | h2
      · exact h.started_lt_queue j hj2 r h1
      · rcases List.mem_singleton.mp h2 with rfl
        exact h.started_bounds j hj2
    · -- started_bounds
      intro j hj
      have hj2 : j ∈ startedIds st3.events := hj
      rw [hEv3, startedIds_append] at hj2
      have hno : startedIds [RunEvent.runQueued (cloneRun run),
          RunEvent.historyUpdated (getRunHistory st2)] = [] := rfl
      rw [hno, List.append_nil] at hj2
      exact Nat.lt_succ_of_lt (h.started_bounds j hj2)
    · -- log_running
      intro e he
      have he2 : e ∈ st3.events := he
      rw [hEv3] at he2
      rcases List.mem_append.mp he2 with hold | hnew
      · exact h.log_running e hold
      · rcases List.mem_cons.mp hnew with rfl | hnew2
        · rfl
        · rcases List.mem_singleton.mp hnew2 with rfl
          simp only [eventRunningOk, decide_eq_true_eq]
          exact hrc2
    · -- log_ownership
      intro e he
      have he2 : e ∈ st3.events := he
      rw [hEv3] at he2
      rcases List.mem_append.mp he2 with hold | hnew
      · exact h.log_ownership e hold
      · rcases List.mem_cons.mp hnew with rfl | hnew2
        · rfl
        · rcases List.mem_singleton.mp hnew2 with rfl
          exact hso2
    · -- pat_queued
      intro i hi
      have hproj := projOf_events_eq st st3 _ hEv3 i
      rw [hproj]
      have hi2 : i ∈ (st.runQueue ++ [run]).map (fun r => r.id) := hi
      rw [hqids'] at hi2
      rcases List.mem_append.mp hi2 with hold | hnewid
      · have hne : n ≠ i := fun he => hn_notin_q (he ▸ hold)
        rw [hdelta_none i (hqueue_notsettled i hold) hne, List.append_nil]
        exact h.pat_queued i hold
      · rcases List.mem_singleton.mp hnewid with rfl
        rw [hdelta_n]
        rw [h.pat_unknown n hn_notin_q hn_not_active hn_not_settled]
        rfl
    · -- pat_active
      intro i hi
      have hproj := projOf_events_eq st st3 _ hEv3 i
      rw [hproj]
      have hi2 : activeIdOf st = some i := hi
      obtain ⟨a, hact⟩ : ∃ a, st.activeRun = some a := by
        cases hact : st.activeRun with
        | none =>
          rw [activeIdOf, hact] at hi2
          cases hi2
        | some a => exact ⟨a, rfl⟩
      have haid : a.id = i := by
        rw [activeIdOf, hact] at hi2
        injection hi2
      have hne : n ≠ i := by
        intro he
        have hlt := (h.active_bounds a hact).2
        rw [haid, ← he] at hlt
        exact absurd hlt (lt_irrefl n)
      have hnsact : i ∉ st.settledIds := by
        intro hm
        apply (hactive_fact a hact).2
        rw [haid]
        exact hm
      rw [hdelta_none i hnsact hne, List.append_nil]
      exact h.pat_active i hi2
    · -- pat_settled
      intro i hi
      have hproj := projOf_events_eq st st3 _ hEv3 i
      rw [hproj]
      have hi2 : i ∈ st.settledIds := hi
      have hne : n ≠ i := fun he => hn_not_settled (he ▸ hi2)
      rw [filterMap_cons_toList, filterMap_singleton, hclQ i hne]
      have hp := (h.pat_settled i hi2).append_classify_history (getRunHistory st2) i
      simp only [Option.toList, List.append_assoc, List.nil_append] at hp ⊢
      exact hp
    · -- pat_unknown
      intro i hqi hai hsi
      have hproj := projOf_events_eq st st3 _ hEv3 i
      rw [hproj]
      have hsi2 : i ∉ st.settledIds := hsi
      have hai2 : activeIdOf st ≠ some i := fun ha => hai ha
      have hqi2 : i ∉ (st.runQueue ++ [run]).map (fun r => r.id) := hqi
      rw [hqids'] at hqi2
      have hqold : i ∉ queueIds st := fun hm =>
        hqi2 (List.mem_append.mpr (Or.inl hm))
      have hne : n ≠ i := fun he =>
        hqi2 (List.mem_append.mpr (Or.inr (by rw [he]; exact List.mem_singleton_self _)))
      rw [hdelta_none i hsi2 hne, List.append_nil]
      exact h.pat_unknown i hqold hai2 hsi2
  case neg =>
    have hdrf : st.draining = false := by
      revert hdr
      cases st.draining <;> simp
    have hactnone : st.activeRun = none := by
      have hde := h.draining_eq
      rw [hdrf] at hde
      cases hact : st.activeRun with
      | none => rfl
      | some a =>
        rw [hact] at hde
        cases hde
    set st4 : ClientState := { st3 with draining := true } with hst4
    have heq2 : drainQueue st3 = drainLoop st4.runQueue st4 := by
      unfold drainQueue
      rw [if_neg (show ¬ st3.draining = true from hdr)]
    rw [heq2]
    refine drainLoop_inv st4 ?_
    have hEv4 : st4.events = st.events
        ++ [RunEvent.runQueued (cloneRun run),
            RunEvent.historyUpdated (getRunHistory st2)] := hEv3
    refine
      { counter_pos := Nat.le_succ_of_le h.counter_pos
        queue_bounds := hqb'
        settled_bounds := ?_
        queue_state := hqs'
        queue_sorted := hsort'
        completed_terminal := h.completed_terminal
        completed_eq := h.completed_eq
        settled_nodup := h.settled_nodup
        holder := ?_
        draining_true := rfl
        active_none := hactnone
        completions_eq := h.completions_eq
        started_inc := ?_
        started_lt_queue := ?_
        started_bounds := ?_
        log_running := ?_
        log_ownership := ?_
        pat_queued := ?_
        pat_settled := ?_
        pat_unknown2 := ?_ }
    · intro i hi
      have hi2 : i ∈ st.settledIds := hi
      exact ⟨(h.settled_bounds i hi2).1, Nat.lt_succ_of_lt (h.settled_bounds i hi2).2⟩
    · -- two-way holder
      intro i h1 h2
      by_cases hieq : i = n
      · refine Or.inl ⟨?_, ?_⟩
        · show i ∈ (st.runQueue ++ [run]).map (fun r => r.id)
          rw [hqids', hieq]
          exact List.mem_append.mpr (Or.inr (List.mem_singleton_self _))
        · show i ∉ st.settledIds
          rw [hieq]
          exact hn_not_settled
      · have h2n : i < n + 1 := h2
        have h2' : i < n := by omega
        rcases h.holder i h1 h2' with ⟨hin, -, hns⟩ | ⟨-, hact, -⟩ | ⟨hnq, -, hin⟩
        · refine Or.inl ⟨?_, hns⟩
          show i ∈ (st.runQueue ++ [run]).map (fun r => r.id)
          rw [hqids']
          exact List.mem_append.mpr (Or.inl hin)
        · exfalso
          rw [activeIdOf, hactnone] at hact
          cases hact
        · refine Or.inr ⟨?_, hin⟩
          show i ∉ (st.runQueue ++ [run]).map (fun r => r.id)
          rw [hqids']
          intro hm
          rcases List.mem_append.mp hm with hm1 | hm2
          · exact hnq hm1
          · exact hieq (List.mem_singleton.mp hm2)
    · -- started_inc
      show strictlyIncreasing (startedIds st4.events) = true
      rw [hEv4, startedIds_append]
      have hno : startedIds [RunEvent.runQueued (cloneRun run),
          RunEvent.historyUpdated (getRunHistory st2)] = [] := rfl
      rw [hno, List.append_nil]
      exact h.started_inc
    · -- started_lt_queue
      intro j hj r hr
      have hj2 : j ∈ startedIds st4.events := hj
      rw [hEv4, startedIds_append] at hj2
      have hno : startedIds [RunEvent.runQueued (cloneRun run),
          RunEvent.historyUpdated (getRunHistory st2)] = [] := rfl
      rw [hno, List.append_nil] at hj2
      have hr2 : r ∈ st.runQueue ++ [run] := hr
      rcases List.mem_append.mp hr2 with h1 | h2
      · exact h.started_lt_queue j hj2 r h1
      · rcases List.mem_singleton.mp h2 with rfl
        exact h.started_bounds j hj2
    · -- started_bounds
      intro j hj
      have hj2 : j ∈ startedIds st4.events := hj
      rw [hEv4, startedIds_append] at hj2
      have hno : startedIds [RunEvent.runQueued (cloneRun run),
          RunEvent.historyUpdated (getRunHistory st2)] = [] := rfl
      rw [hno, List.append_nil] at hj2
      exact Nat.lt_succ_of_lt (h.started_bounds j hj2)
    · -- log_running
      intro e he
      have he2 : e ∈ st4.events := he
      rw [hEv4] at he2
      rcases List.mem_append.mp he2 with hold | hnew
      · exact h.log_running e hold
      · rcases List.mem_cons.mp hnew with rfl | hnew2
        · rfl
        · rcases List.mem_singleton.mp hnew2 with rfl
          simp only [eventRunningOk, decide_eq_true_eq]
          exact hrc2
    · -- log_ownership
      intro e he
      have he2 : e ∈ st4.events := he
      rw [hEv4] at he2
      rcases List.mem_append.mp he2 with hold | hnew
      · exact h.log_ownership e hold
      · rcases List.mem_cons.mp hnew with rfl | hnew2
        · rfl
        · rcases List.mem_singleton.mp hnew2 with rfl
          exact hso2
    · -- pat_queued
      intro i hi
      have hproj := projOf_events_eq st st4 _ hEv4 i
      rw [hproj]
      have hi2 : i ∈ (st.runQueue ++ [run]).map (fun r => r.id) := hi
      rw [hqids'] at hi2
      rcases List.mem_append.mp hi2 with hold | hnewid
      · have hne : n ≠ i := fun he => hn_notin_q (he ▸ hold)
        rw [hdelta_none i (hqueue_notsettled i hold) hne, List.append_nil]
        exact h.pat_queued i hold
      · rcases List.mem_singleton.mp hnewid with rfl
        rw [hdelta_n]
        rw [h.pat_unknown n hn_notin_q hn_not_active hn_not_settled]
        rfl
    · -- pat_settled
      intro i hi
      have hproj := projOf_events_eq st st4 _ hEv4 i
      rw [hproj]
      have hi2 : i ∈ st.settledIds := hi
      have hne : n ≠ i := fun he => hn_not_settled (he ▸ hi2)
      rw [filterMap_cons_toList, filterMap_singleton, hclQ i hne]
      have hp := (h.pat_settled i hi2).append_classify_history (getRunHistory st2) i
      simp only [Option.toList, List.append_assoc, List.nil_append] at hp ⊢
      exact hp
    · -- pat_unknown2
      intro i hqi hsi
      have hproj := projOf_events_eq st st4 _ hEv4 i
      rw [hproj]
      have hsi2 : i ∉ st.settledIds := hsi
      have hai2 : activeIdOf st ≠ some i := by
        rw [activeIdOf, hactnone]
        intro hx
        cases hx
      have hqi2 : i ∉ (st.runQueue ++ [run]).map (fun r => r.id) := hqi
      rw [hqids'] at hqi2
      have hqold : i ∉ queueIds st := fun hm =>
        hqi2 (List.mem_append.mpr (Or.inl hm))
      have hne : n ≠ i := fun he =>
        hqi2 (List.mem_append.mpr (Or.inr (by rw [he]; exact List.mem_singleton_self _)))
      rw [hdelta_none i hsi2 hne, List.append_nil]
      exact h.pat_unknown i hqold hai2 hsi2

/-! ## Scheduler: settlement of the active run re-establishes `DrainPre` -/

theorem SettledPat.append_replicate_hs {l : List Tag} (h : SettledPat l) (m : Nat) :
    SettledPat (l ++ List.replicate m Tag.hs) := by
  induction m with
  | zero => simpa using h
  | succ m ih =>
    rw [List.replicate_succ', ← List.append_assoc]
    exact ih.append_hs

theorem classify_history_toList_replicate (hist : RunHistory) (i : Nat) :
    ∃ m, (classify i (.historyUpdated hist)).toList = List.replicate m Tag.hs := by
  cases hss : showsSettled hist i
  · exact ⟨0, by simp [classify, hss]⟩
  · exact ⟨1, by simp [classify, hss]⟩

/-- After the active run settles (success, failure or cancellation), the
state handed back to the drain loop satisfies `DrainPre`: the run moved from
the active slot to the completed cache and the settled set, its completion
promise was recorded, and the emitted events extend every per-run projection
consistently. -/
theorem settleFinish_drainpre (st S : ClientState) (h : Inv st)
    (run run1 : ToolRunInternal) (out : PromiseOutcome) (L : List RunEvent)
    (hact : st.activeRun = some run) (hid1 : run1.id = run.id)
    (hterm1 : run1.state.isTerminal = true)
    (hSq : S.runQueue = st.runQueue)
    (hSc : S.completedRuns = recordCompletionList st.completedRuns (cloneRun run1))
    (hSa : S.activeRun = none)
    (hSn : S.runIdCounter = st.runIdCounter)
    (hSd : S.draining = st.draining)
    (hSe : S.events = st.events ++ L)
    (hSp : S.completions = st.completions ++ [(run1.id, out)])
    (hSs : S.settledIds = st.settledIds ++ [run1.id])
    (hsid : startedIds L = [])
    (hrunok : ∀ e ∈ L, eventRunningOk e = true)
    (hownok : ∀ e ∈ L, eventOwnershipOk e = true)
    (hnone : ∀ i, i ∉ st.settledIds → i ≠ run.id → List.filterMap (classify i) L = [])
    (hhsrep : ∀ i ∈ st.settledIds, ∃ m,
      List.filterMap (classify i) L = List.replicate m Tag.hs)
    (hridpat : SettledPat (projOf st run.id ++ List.filterMap (classify run.id) L)) :
    DrainPre S := by
  have hb := h.active_bounds run hact
  have haid : activeIdOf st = some run.id := by
    rw [activeIdOf, hact]
    rfl
  have hrid_facts : run.id ∉ queueIds st ∧ run.id ∉ st.settledIds := by
    rcases h.holder run.id hb.1 hb.2 with ⟨-, hna, -⟩ | ⟨hnq, -, hns⟩ | ⟨-, hna, -⟩
    · exact absurd haid hna
    · exact ⟨hnq, hns⟩
    · exact absurd haid hna
  have hqueue_notsettled : ∀ i, i ∈ queueIds st → i ∉ st.settledIds := by
    intro i hi
    have hbq : 1 ≤ i ∧ i < st.runIdCounter := by
      rw [queueIds] at hi
      rcases List.mem_map.mp hi with ⟨y, hy, rfl⟩
      exact h.queue_bounds y hy
    rcases h.holder i hbq.1 hbq.2 with ⟨-, -, hns⟩ | ⟨hnq, -, -⟩ | ⟨hnq, -, -⟩
    · exact hns
    · exact absurd hi hnq
    · exact absurd hi hnq
  have hdr : st.draining = true := by
    rw [h.draining_eq, hact]
    rfl
  have hrid_nots : run.id ∉ st.settledIds := hrid_facts.2
  have hSs' : S.settledIds = st.settledIds ++ [run.id] := by
    rw [hSs, hid1]
  have hc1 : (cloneRun run1).id ∉ st.settledIds := by
    show run1.id ∉ st.settledIds
    rw [hid1]
    exact hrid_nots
  refine
    { counter_pos := ?_
      queue_bounds := ?_
      settled_bounds := ?_
      queue_state := ?_
      queue_sorted := ?_
      completed_terminal := ?_
      completed_eq := ?_
      settled_nodup := ?_
      holder := ?_
      draining_true := ?_
      active_none := hSa
      completions_eq := ?_
      started_inc := ?_
      started_lt_queue := ?_
      started_bounds := ?_
      log_running := ?_
      log_ownership := ?_
      pat_queued := ?_
      pat_settled := ?_
      pat_unknown2 := ?_ }
  · rw [hSn]
    exact h.counter_pos
  · intro r hr
    rw [hSq] at hr
    rw [hSn]
    exact h.queue_bounds r hr
  · intro i hi
    rw [hSs'] at hi
    rw [hSn]
    rcases List.mem_append.mp hi with h1 | h2
    · exact h.settled_bounds i h1
    · rcases List.mem_singleton.mp h2 with rfl
      exact hb
  · intro r hr
    rw [hSq] at hr
    exact h.queue_state r hr
  · rw [hSq]
    exact h.queue_sorted
  · intro r hr
    rw [hSc] at hr
    exact recordCompletionList_terminal _ _ h.completed_terminal hterm1 r hr
  · rw [hSc, hSs]
    exact recordCompletionList_ids_eq _ _ _ h.completed_eq hc1
  · rw [hSs']
    exact nodup_append_singleton h.settled_nodup hrid_nots
  · -- two-way holder
    intro i h1 h2
    rw [hSn] at h2
    by_cases hieq : i = run.id
    · refine Or.inr ⟨?_, ?_⟩
      · rw [queueIds, hSq, hieq]
        exact hrid_facts.1
      · rw [hSs', hieq]
        exact List.mem_append.mpr (Or.inr (List.mem_singleton_self _))
    · rcases h.holder i h1 h2 with ⟨hin, -, hns⟩ | ⟨-, hactid, -⟩ | ⟨hnq, -, hin⟩
      · refine Or.inl ⟨?_, ?_⟩
        · rw [queueIds, hSq]
          exact hin
        · rw [hSs']
          intro hm
          rcases List.mem_append.mp hm with hm1 | hm2
          · exact hns hm1
          · exact hieq (List.mem_singleton.mp hm2)
      · exfalso
        rw [haid] at hactid
        have : run.id = i := by injection hactid
        exact hieq this.symm
      · refine Or.inr ⟨?_, ?_⟩
        · rw [queueIds, hSq]
          exact hnq
        · rw [hSs']
          exact List.mem_append.mpr (Or.inl hin)
  · rw [hSd]
    exact hdr
  · rw [hSp, hSs, List.map_append, h.completions_eq]
    rfl
  · rw [hSe, startedIds_append, hsid, List.append_nil]
    exact h.started_inc
  · intro j hj r hr
    rw [hSe, startedIds_append, hsid, List.append_nil] at hj
    rw [hSq] at hr
    exact h.started_lt_queue j hj r hr
  · intro j hj
    rw [hSe, startedIds_append, hsid, List.append_nil] at hj
    rw [hSn]
    exact h.started_bounds j hj
  · intro e he
    rw [hSe] at he
    rcases List.mem_append.mp he with hold | hnew
    · exact h.log_running e hold
    · exact hrunok e hnew
  · intro e he
    rw [hSe] at he
    rcases List.mem_append.mp he with hold | hnew
    · exact h.log_ownership e hold
    · exact hownok e hnew
  · -- pat_queued
    intro i hi
    rw [queueIds, hSq] at hi
    have hproj := projOf_events_eq st S L hSe i
    rw [hproj]
    have hi2 : i ∈ queueIds st := hi
    have hne : i ≠ run.id := fun he => hrid_facts.1 (he ▸ hi2)
    rw [hnone i (hqueue_notsettled i hi2) hne, List.append_nil]
    exact h.pat_queued i hi2
  · -- pat_settled
    intro i hi
    rw [hSs'] at hi
    have hproj := projOf_events_eq st S L hSe i
    rw [hproj]
    rcases List.mem_append.mp hi with hold | hnewid
    · obtain ⟨m, hm⟩ := hhsrep i hold
      rw [hm]
      exact (h.pat_settled i hold).append_replicate_hs m
    · rcases List.mem_singleton.mp hnewid with rfl
      exact hridpat
  · -- pat_unknown2
    intro i hqi hsi
    rw [queueIds, hSq] at hqi
    rw [hSs'] at hsi
    have hproj := projOf_events_eq st S L hSe i
    rw [hproj]
    have hne : i ≠ run.id := fun he =>
      hsi (List.mem_append.mpr (Or.inr (by rw [he]; exact List.mem_singleton_self _)))
    have hsold : i ∉ st.settledIds := fun hm => hsi (List.mem_append.mpr (Or.inl hm))
    have hai : activeIdOf st ≠ some i := by
      rw [haid]
      intro hx
      have : run.id = i := by injection hx
      exact hne this.symm
    rw [hnone i hsold hne, List.append_nil]
    exact h.pat_unknown i hqi hai hsold

/-- Facts about the history snapshot taken while the just-settled run is
still in the active slot and already recorded as completed (the
`recordCompletion` inside `processRun` runs before the drain loop clears
`activeRun`): at most one running entry, ownership holds because the
doubled id is the terminal head, and the snapshot shows settled exactly the
previously settled ids plus the finishing run. -/
theorem settleSnapshot_facts (st : ClientState) (h : Inv st)
    (run run1 : ToolRunInternal) (hact : st.activeRun = some run)
    (hid1 : run1.id = run.id) (hterm1 : run1.state.isTerminal = true) :
    runningCount (getRunHistory { st with
        activeRun := some run1,
        completedRuns := recordCompletionList st.completedRuns (cloneRun run1) }) ≤ 1
    ∧ snapshotOwnershipOk (getRunHistory { st with
        activeRun := some run1,
        completedRuns := recordCompletionList st.completedRuns (cloneRun run1) }) = true
    ∧ (∀ i, i ∉ st.settledIds → i ≠ run.id → showsSettled (getRunHistory { st with
        activeRun := some run1,
        completedRuns := recordCompletionList st.completedRuns (cloneRun run1) }) i
        = false)
    ∧ showsSettled (getRunHistory { st with
        activeRun := some run1,
        completedRuns := recordCompletionList st.completedRuns (cloneRun run1) }) run.id
      = true := by
  set stSyn : ClientState := { st with
    activeRun := some run1,
    completedRuns := recordCompletionList st.completedRuns (cloneRun run1) } with hsyn
  have hb := h.active_bounds run hact
  have haid : activeIdOf st = some run.id := by
    rw [activeIdOf, hact]
    rfl
  have hrid_facts : run.id ∉ queueIds st ∧ run.id ∉ st.settledIds := by
    rcases h.holder run.id hb.1 hb.2 with ⟨-, hna, -⟩ | ⟨hnq, -, hns⟩ | ⟨-, hna, -⟩
    · exact absurd haid hna
    · exact ⟨hnq, hns⟩
    · exact absurd haid hna
  have hqueue_notsettled : ∀ i, i ∈ queueIds st → i ∉ st.settledIds := by
    intro i hi
    have hbq : 1 ≤ i ∧ i < st.runIdCounter := by
      rw [queueIds] at hi
      rcases List.mem_map.mp hi with ⟨y, hy, rfl⟩
      exact h.queue_bounds y hy
    rcases h.holder i hbq.1 hbq.2 with ⟨-, -, hns⟩ | ⟨hnq, -, -⟩ | ⟨hnq, -, -⟩
    · exact hns
    · exact absurd hi hnq
    · exact absurd hi hnq
  have hqnodup : (st.runQueue.map (fun r => r.id)).Nodup :=
    (List.pairwise_map.mpr h.queue_sorted).imp Nat.ne_of_lt
  have hcid : (cloneRun run1).id = run.id := hid1
  have hc1 : (cloneRun run1).id ∉ st.settledIds := by
    rw [hcid]
    exact hrid_facts.2
  have hceq' : stSyn.completedRuns.map (fun r => r.id)
      = (st.settledIds ++ [run.id]).drop ((st.settledIds ++ [run.id]).length - 100) := by
    have hrc := recordCompletionList_ids_eq st.completedRuns st.settledIds
      (cloneRun run1) h.completed_eq hc1
    rw [hcid] at hrc
    exact hrc
  have hsnodup' : (st.settledIds ++ [run.id]).Nodup :=
    nodup_append_singleton h.settled_nodup hrid_facts.2
  have hterm' : ∀ r ∈ stSyn.completedRuns, r.state.isTerminal = true :=
    recordCompletionList_terminal _ _ h.completed_terminal hterm1
  have hcsub' : ∀ i, i ∈ stSyn.completedRuns.map (fun r => r.id) →
      i ∈ st.settledIds ++ [run.id] := by
    intro i hi
    rw [hceq'] at hi
    exact (List.drop_suffix _ _).subset hi
  have hcnodup' : (stSyn.completedRuns.map (fun r => r.id)).Nodup := by
    rw [hceq']
    exact hsnodup'.sublist (List.drop_suffix _ _).sublist
  have hmem_c : ∃ r ∈ stSyn.completedRuns, r.id = run.id ∧ r.state.isTerminal = true := by
    have hlen : (st.settledIds ++ [run.id]).length = st.settledIds.length + 1 := by simp
    have hmm : run.id ∈ stSyn.completedRuns.map (fun r => r.id) := by
      rw [hceq', hlen]
      exact mem_drop_append_last _ _ _ (by omega)
    rcases List.mem_map.mp hmm with ⟨r, hr, hrid2⟩
    exact ⟨r, hr, hrid2, hterm' r hr⟩
  have hqids_syn : (getRunHistory stSyn).queue.map (fun r => r.id)
      = run.id :: st.runQueue.map (fun r => r.id) := by
    show ((activeSnapList (some run1) ++ st.runQueue.map cloneRun).map (fun r => r.id)) = _
    simp only [activeSnapList, List.singleton_append, List.map_cons, List.map_map]
    rw [hcid]
    rfl
  refine ⟨?_, ?_, ?_, ?_⟩
  · -- at most one running entry
    refine runningCount_le_one stSyn ?_ hterm'
    intro r hr
    have hr2 : r ∈ st.runQueue := hr
    exact (h.queue_state r hr2).1
  · -- snapshot ownership
    refine snapshotOwnershipOk_of _ ?_ hcnodup' ?_
    · rw [hqids_syn, List.nodup_cons]
      exact ⟨hrid_facts.1, hqnodup⟩
    · intro i hiq hic
      rw [hqids_syn] at hiq
      rcases List.mem_cons.mp hiq with rfl | hiqq
      · refine ⟨cloneRun run1, st.runQueue.map cloneRun, rfl, hcid, hterm1⟩
      · exfalso
        have hiset' := hcsub' i hic
        rcases List.mem_append.mp hiset' with hs1 | hs2
        · exact hqueue_notsettled i hiqq hs1
        · rcases List.mem_singleton.mp hs2 with rfl
          exact hrid_facts.1 hiqq
  · -- shows-settled is false away from the settled set and the finishing run
    intro i hns hne
    refine showsSettled_false stSyn i ?_ ?_ ?_
    · intro r hr
      have hr2 : r ∈ st.runQueue := hr
      rw [(h.queue_state r hr2).1]
      rfl
    · intro r hr hidr
      exfalso
      have hr2 : some run1 = some r := hr
      have hr3 : run1 = r := by injection hr2
      rw [← hr3] at hidr
      rw [hid1] at hidr
      exact hne hidr.symm
    · intro r hr he
      have hmm : i ∈ stSyn.completedRuns.map (fun r => r.id) :=
        he ▸ List.mem_map_of_mem _ hr
      rcases List.mem_append.mp (hcsub' i hmm) with hs1 | hs2
      · exact hns hs1
      · exact hne (List.mem_singleton.mp hs2)
  · -- the finishing run shows settled
    exact showsSettled_true stSyn run.id hmem_c

/-! ## Scheduler: settling the channel promise preserves the invariant -/

theorem settleChannel_inv (st : ClientState) (h : Inv st) (out : PromiseOutcome) :
    Inv (settleChannel st out) := by
  cases hact : st.activeRun with
  | none =>
    have heq : settleChannel st out = st := by
      unfold settleChannel
      rw [hact]
    rw [heq]
    exact h
  | some run =>
    have haid : activeIdOf st = some run.id := by
      rw [activeIdOf, hact]
      rfl
    have hb := h.active_bounds run hact
    have hrid_nots : run.id ∉ st.settledIds := by
      rcases h.holder run.id hb.1 hb.2 with ⟨-, hna, -⟩ | ⟨-, -, hns⟩ | ⟨-, hna, -⟩
      · exact absurd haid hna
      · exact hns
      · exact absurd haid hna
    cases out with
    | resolved v =>
      set run1 : ToolRunInternal :=
        { run with execSettled := true, result := some v, state := RunState.done } with hrun1
      set st1 : ClientState := { st with
        activeRun := some run1,
        completions := st.completions ++ [(run1.id, PromiseOutcome.resolved v)] } with hst1
      set st2 : ClientState := emitEvent st1 (.runProgress (cloneRun run1)) with hst2
      set st3 : ClientState := emitEvent st2 (.runFinished (cloneRun run1)) with hst3
      set stA : ClientState := { st3 with
        completedRuns := recordCompletionList st3.completedRuns (cloneRun run1),
        settledIds := st3.settledIds ++ [run1.id] } with hstA
      set st4 : ClientState := emitHistory stA with hst4
      set st5 : ClientState := { st4 with activeRun := none } with hst5
      have heq : settleChannel st (.resolved v)
          = if (run.execSettled || run.cancelled) = true then st
            else (if run.cancelled = true
              then finalizeActiveCancelled st { run with execSettled := true } "Cancelled"
              else drainLoop st5.runQueue st5) := by
        unfold settleChannel
        rw [hact]
        rfl
      rw [heq]
      by_cases hg : (run.execSettled || run.cancelled) = true
      case pos =>
        rw [if_pos hg]
        exact h
      case neg =>
        rw [if_neg hg]
        have hcanf : run.cancelled = false := by
          revert hg
          cases run.cancelled <;> simp
        rw [if_neg (show ¬ run.cancelled = true by simp [hcanf])]
        refine drainLoop_inv st5 ?_
        obtain ⟨hrc, hso, hssf, hsst⟩ := settleSnapshot_facts st h run run1 hact rfl rfl
        have hssf' : ∀ i, i ∉ st.settledIds → i ≠ run.id →
            showsSettled (getRunHistory stA) i = false := hssf
        have hsst' : showsSettled (getRunHistory stA) run.id = true := hsst
        have hrc' : runningCount (getRunHistory stA) ≤ 1 := hrc
        have hso' : snapshotOwnershipOk (getRunHistory stA) = true := hso
        refine settleFinish_drainpre st st5 h run run1 (.resolved v)
          [RunEvent.runProgress (cloneRun run1), RunEvent.runFinished (cloneRun run1),
            RunEvent.historyUpdated (getRunHistory stA)]
          hact rfl rfl rfl rfl rfl rfl rfl ?_ rfl rfl rfl ?_ ?_ ?_ ?_ ?_
        · -- the event log extension
          have h1 : st5.events
              = ((st.events ++ [RunEvent.runProgress (cloneRun run1)])
                ++ [RunEvent.runFinished (cloneRun run1)])
                ++ [RunEvent.historyUpdated (getRunHistory stA)] := rfl
          rw [h1, List.append_assoc, List.append_assoc]
          rfl
        · -- running counts
          intro e he
          rcases List.mem_cons.mp he with rfl | he2
          · rfl
          · rcases List.mem_cons.mp he2 with rfl | he3
            · rfl
            · rcases List.mem_singleton.mp he3 with rfl
              simp only [eventRunningOk, decide_eq_true_eq]
              exact hrc'
        · -- ownership
          intro e he
          rcases List.mem_cons.mp he with rfl | he2
          · rfl
          · rcases List.mem_cons.mp he2 with rfl | he3
            · rfl
            · rcases List.mem_singleton.mp he3 with rfl
              exact hso'
        · -- unrelated runs see no new tags
          intro i hns hne
          have hne' : run.id ≠ i := fun he => hne he.symm
          have h1 : classify i (.runProgress (cloneRun run1)) = none := by
            simp [classify, cloneRun, hne']
          have h2 : classify i (.runFinished (cloneRun run1)) = none := by
            simp [classify, cloneRun, hne']
          have h3 : classify i (.historyUpdated (getRunHistory stA)) = none := by
            simp [classify, hssf' i hns hne]
          rw [filterMap_cons_toList, filterMap_cons_toList, filterMap_singleton, h1, h2, h3]
          rfl
        · -- settled runs see only history snapshots
          intro i hold
          have hne' : run.id ≠ i := fun he => hrid_nots (he ▸ hold)
          have h1 : classify i (.runProgress (cloneRun run1)) = none := by
            simp [classify, cloneRun, hne']
          have h2 : classify i (.runFinished (cloneRun run1)) = none := by
            simp [classify, cloneRun, hne']
          obtain ⟨m, hm⟩ := classify_history_toList_replicate (getRunHistory stA) i
          refine ⟨m, ?_⟩
          rw [filterMap_cons_toList, filterMap_cons_toList, filterMap_singleton, h1, h2, hm]
          rfl
        · -- the finishing run's projection
          have hp1 : classify run.id (.runProgress (cloneRun run1)) = some Tag.p := by
            simp [classify, cloneRun]
          have hp2 : classify run.id (.runFinished (cloneRun run1)) = some Tag.f := by
            simp [classify, cloneRun]
          have hp3 : classify run.id (.historyUpdated (getRunHistory stA)) = some Tag.hs := by
            simp [classify, hsst']
          obtain ⟨k, hk⟩ := h.pat_active run.id haid
          rw [filterMap_cons_toList, filterMap_cons_toList, filterMap_singleton,
            hp1, hp2, hp3, hk]
          refine Or.inl ⟨k + 1, 1, ?_⟩
          simp only [Option.toList, List.replicate, List.cons_append, List.nil_append,
            List.append_assoc, List.replicate_succ, List.cons.injEq, true_and]
          rw [show [Tag.p, Tag.f, Tag.hs] = [Tag.p] ++ [Tag.f, Tag.hs] from rfl,
            ← List.append_assoc, ← List.replicate_succ', List.replicate_succ]
          rfl
    | rejected msg =>
      set run1 : ToolRunInternal :=
        { run with execSettled := true, error := some msg, state := RunState.failed } with hrun1
      set st1 : ClientState := { st with
        activeRun := some run1,
        completions := st.completions ++ [(run1.id, PromiseOutcome.rejected msg)] } with hst1
      set st2 : ClientState := emitEvent st1 (.runFailed (cloneRun run1)) with hst2
      set stA : ClientState := { st2 with
        completedRuns := recordCompletionList st2.completedRuns (cloneRun run1),
        settledIds := st2.settledIds ++ [run1.id] } with hstA
      set st3 : ClientState := emitHistory stA with hst3
      set st4 : ClientState := { st3 with activeRun := none } with hst4
      have heq : settleChannel st (.rejected msg)
          = if (run.execSettled || run.cancelled) = true then st
            else (if run.cancelled = true
              then finalizeActiveCancelled st { run with execSettled := true } msg
              else drainLoop st4.runQueue st4) := by
        unfold settleChannel
        rw [hact]
        rfl
      rw [heq]
      by_cases hg : (run.execSettled || run.cancelled) = true
      case pos =>
        rw [if_pos hg]
        exact h
      case neg =>
        rw [if_neg hg]
        have hcanf : run.cancelled = false := by
          revert hg
          cases run.cancelled <;> simp
        rw [if_neg (show ¬ run.cancelled = true by simp [hcanf])]
        refine drainLoop_inv st4 ?_
        obtain ⟨hrc, hso, hssf, hsst⟩ := settleSnapshot_facts st h run run1 hact rfl rfl
        have hssf' : ∀ i, i ∉ st.settledIds → i ≠ run.id →
            showsSettled (getRunHistory stA) i = false := hssf
        have hsst' : showsSettled (getRunHistory stA) run.id = true := hsst
        have hrc' : runningCount (getRunHistory stA) ≤ 1 := hrc
        have hso' : snapshotOwnershipOk (getRunHistory stA) = true := hso
        refine settleFinish_drainpre st st4 h run run1 (.rejected msg)
          [RunEvent.runFailed (cloneRun run1),
            RunEvent.historyUpdated (getRunHistory stA)]
          hact rfl rfl rfl rfl rfl rfl rfl ?_ rfl rfl rfl ?_ ?_ ?_ ?_ ?_
        · have h1 : st4.events
              = (st.events ++ [RunEvent.runFailed (cloneRun run1)])
                ++ [RunEvent.historyUpdated (getRunHistory stA)] := rfl
          rw [h1, List.append_assoc]
          rfl
        · intro e he
          rcases List.mem_cons.mp he with rfl | he2
          · rfl
          · rcases List.mem_singleton.mp he2 with rfl
            simp only [eventRunningOk, decide_eq_true_eq]
            exact hrc'
        · intro e he
          rcases List.mem_cons.mp he with rfl | he2
          · rfl
          · rcases List.mem_singleton.mp he2 with rfl
            exact hso'
        · intro i hns hne
          have hne' : run.id ≠ i := fun he => hne he.symm
          have h1 : classify i (.runFailed (cloneRun run1)) = none := by
            simp [classify, cloneRun, hne']
          have h3 : classify i (.historyUpdated (getRunHistory stA)) = none := by
            simp [classify, hssf' i hns hne]
          rw [filterMap_cons_toList, filterMap_singleton, h1, h3]
          rfl
        · intro i hold
          have hne' : run.id ≠ i := fun he => hrid_nots (he ▸ hold)
          have h1 : classify i (.runFailed (cloneRun run1)) = none := by
            simp [classify, cloneRun, hne']
          obtain ⟨m, hm⟩ := classify_history_toList_replicate (getRunHistory stA) i
          refine ⟨m, ?_⟩
          rw [filterMap_cons_toList, filterMap_singleton, h1, hm]
          rfl
        · have hp1 : classify run.id (.runFailed (cloneRun run1)) = some Tag.fl := by
            simp [classify, cloneRun]
          have hp3 : classify run.id (.historyUpdated (getRunHistory stA)) = some Tag.hs := by
            simp [classify, hsst']
          obtain ⟨k, hk⟩ := h.pat_active run.id haid
          rw [filterMap_cons_toList, filterMap_singleton, hp1, hp3, hk]
          refine Or.inr (Or.inl ⟨k, 1, ?_⟩)
          simp [Option.toList, List.replicate, List.append_assoc]

/-! ## Scheduler: finalizing a cancelled active run preserves the invariant -/

theorem finalizeCancel_inv (st : ClientState) (h : Inv st) :
    Inv (step st .finalizeCancel) := by
  cases hact : st.activeRun with
  | none =>
    have heq : step st .finalizeCancel = st := by
      unfold step
      rw [hact]
    rw [heq]
    exact h
  | some run =>
    have haid : activeIdOf st = some run.id := by
      rw [activeIdOf, hact]
      rfl
    have hb := h.active_bounds run hact
    have hrid_nots : run.id ∉ st.settledIds := by
      rcases h.holder run.id hb.1 hb.2 with ⟨-, hna, -⟩ | ⟨-, -, hns⟩ | ⟨-, hna, -⟩
      · exact absurd haid hna
      · exact hns
      · exact absurd haid hna
    set run1 : ToolRunInternal :=
      { run with state := RunState.cancelled, error := some "Cancelled" } with hrun1
    set st1 : ClientState := { st with
      activeRun := some run1,
      completions := st.completions ++ [(run1.id, PromiseOutcome.rejected "Cancelled")] } with hst1
    set stA : ClientState := { st1 with
      completedRuns := recordCompletionList st1.completedRuns (cloneRun run1),
      settledIds := st1.settledIds ++ [run1.id] } with hstA
    set st2 : ClientState := emitHistory stA with hst2
    set st3 : ClientState := emitEvent st2 (.runCancelled (cloneRun run1)) with hst3
    set st4 : ClientState := { st3 with activeRun := none } with hst4
    have heq : step st .finalizeCancel
        = if (run.cancelled && run.state == RunState.running) = true
          then drainLoop st4.runQueue st4
          else st := by
      unfold step
      rw [hact]
      rfl
    rw [heq]
    by_cases hg : (run.cancelled && run.state == RunState.running) = true
    case neg =>
      rw [if_neg hg]
      exact h
    case pos =>
      rw [if_pos hg]
      refine drainLoop_inv st4 ?_
      obtain ⟨hrc, hso, hssf, hsst⟩ := settleSnapshot_facts st h run run1 hact rfl rfl
      have hssf' : ∀ i, i ∉ st.settledIds → i ≠ run.id →
          showsSettled (getRunHistory stA) i = false := hssf
      have hsst' : showsSettled (getRunHistory stA) run.id = true := hsst
      have hrc' : runningCount (getRunHistory stA) ≤ 1 := hrc
      have hso' : snapshotOwnershipOk (getRunHistory stA) = true := hso
      refine settleFinish_drainpre st st4 h run run1 (.rejected "Cancelled")
        [RunEvent.historyUpdated (getRunHistory stA),
          RunEvent.runCancelled (cloneRun run1)]
        hact rfl rfl rfl rfl rfl rfl rfl ?_ rfl rfl rfl ?_ ?_ ?_ ?_ ?_
      · have h1 : st4.events
            = (st.events ++ [RunEvent.historyUpdated (getRunHistory stA)])
              ++ [RunEvent.runCancelled (cloneRun run1)] := rfl
        rw [h1, List.append_assoc]
        rfl
      · intro e he
        rcases List.mem_cons.mp he with rfl | he2
        · simp only [eventRunningOk, decide_eq_true_eq]
          exact hrc'
        · rcases List.mem_singleton.mp he2 with rfl
          rfl
      · intro e he
        rcases List.mem_cons.mp he with rfl | he2
        · exact hso'
        · rcases List.mem_singleton.mp he2 with rfl
          rfl
      · intro i hns hne
        have hne' : run.id ≠ i := fun he => hne he.symm
        have h1 : classify i (.runCancelled (cloneRun run1)) = none := by
          simp [classify, cloneRun, hne']
        have h3 : classify i (.historyUpdated (getRunHistory stA)) = none := by
          simp [classify, hssf' i hns hne]
        rw [filterMap_cons_toList, filterMap_singleton, h3, h1]
        rfl
      · intro i hold
        have hne' : run.id ≠ i := fun he => hrid_nots (he ▸ hold)
        have h1 : classify i (.runCancelled (cloneRun run1)) = none := by
          simp [classify, cloneRun, hne']
        obtain ⟨m, hm⟩ := classify_history_toList_replicate (getRunHistory stA) i
        refine ⟨m, ?_⟩
        rw [filterMap_cons_toList, filterMap_singleton, hm, h1]
        simp only [Option.toList, List.append_nil]
      · have hpC : classify run.id (.runCancelled (cloneRun run1)) = some Tag.c := by
          simp [classify, cloneRun]
        have hp3 : classify run.id (.historyUpdated (getRunHistory stA)) = some Tag.hs := by
          simp [classify, hsst']
        obtain ⟨k, hk⟩ := h.pat_active run.id haid
        rw [filterMap_cons_toList, filterMap_singleton, hp3, hpC, hk]
        refine Or.inr (Or.inr (Or.inr ⟨k, 0, ?_⟩))
        simp [Option.toList, List.replicate, List.append_assoc]

/-! ## Scheduler: the invariant holds in every reachable state -/

theorem inv_init : Inv initState :=
  { counter_pos := le_refl 1
    queue_bounds := fun r hr => absurd hr (List.not_mem_nil r)
    active_bounds := fun r hr => by cases hr
    settled_bounds := fun i hi => absurd hi (List.not_mem_nil i)
    queue_state := fun r hr => absurd hr (List.not_mem_nil r)
    queue_sorted := List.Pairwise.nil
    active_state := fun r hr => by cases hr
    completed_terminal := fun r hr => absurd hr (List.not_mem_nil r)
    completed_eq := rfl
    settled_nodup := List.nodup_nil
    holder := fun i h1 h2 => by
      have h2' : i < 1 := h2
      omega
    draining_eq := rfl
    idle_empty := fun _ => rfl
    completions_eq := rfl
    started_inc := rfl
    started_lt_queue := fun j hj => absurd hj (List.not_mem_nil j)
    started_bounds := fun j hj => absurd hj (List.not_mem_nil j)
    log_running := fun e he => absurd he (List.not_mem_nil e)
    log_ownership := fun e he => absurd he (List.not_mem_nil e)
    pat_queued := fun i hi => absurd hi (List.not_mem_nil i)
    pat_active := fun i hi => by cases hi
    pat_settled := fun i hi => absurd hi (List.not_mem_nil i)
    pat_unknown := fun _ _ _ _ => rfl }

theorem inv_step (st : ClientState) (h : Inv st) (a : Act) : Inv (step st a) := by
  cases a with
  | enqueue tool args meta => exact enqueue_inv st h tool args meta
  | settleOk v => exact settleChannel_inv st h (.resolved v)
  | settleErr msg => exact settleChannel_inv st h (.rejected msg)
  | cancel runId =>
    exact Inv_set_cancelResults (cancelRun st runId).1
      ((cancelRun st runId).1.cancelResults ++ [(cancelRun st runId).2])
      (cancelRun_inv st h runId)
  | finalizeCancel => exact finalizeCancel_inv st h
  | tick => exact tick_inv st h

theorem inv_foldl (acts : List Act) :
    ∀ st, Inv st → Inv (acts.foldl step st) := by
  induction acts with
  | nil => exact fun st h => h
  | cons a t ih => exact fun st h => ih (step st a) (inv_step st h a)

theorem inv_runActs (acts : List Act) : Inv (runActs acts) :=
  inv_foldl acts initState inv_init

/-! ## From the invariant to the Boolean observations -/

theorem all_replicate_p (k : Nat) :
    (List.replicate k Tag.p).all (fun t => t == Tag.p) = true := by
  induction k with
  | zero => rfl
  | succ k ih => simp [List.replicate_succ, ih]

theorem all_replicate_hs (m : Nat) :
    (List.replicate m Tag.hs).all (fun t => t == Tag.hs) = true := by
  induction m with
  | zero => rfl
  | succ m ih => simp [List.replicate_succ, ih]

theorem contains_eq_true_of_mem {l : List Nat} {i : Nat} (h : i ∈ l) :
    l.contains i = true :=
  List.elem_eq_true_of_mem h

theorem contains_eq_false_of_not_mem {l : List Nat} {i : Nat} (h : i ∉ l) :
    l.contains i = false := by
  simp [List.elem_eq_mem]
  exact h

theorem activeBeq_true {st : ClientState} {i : Nat} (ha : activeIdOf st = some i) :
    (activeIdOf st == some i) = true := by
  rw [ha]
  exact beq_self_eq_true _

theorem activeBeq_false {st : ClientState} {i : Nat} (hna : activeIdOf st ≠ some i) :
    (activeIdOf st == some i) = false := by
  cases hAv : activeIdOf st with
  | none => rfl
  | some j =>
    have hne : j ≠ i := fun he => hna (by rw [hAv, he])
    simp [hne]

theorem patDone_shape (k m : Nat) :
    patDone (Tag.q :: Tag.s ::
      (List.replicate k Tag.p ++ Tag.f :: List.replicate m Tag.hs)) = true := by
  induction k with
  | zero => exact all_replicate_hs m
  | succ k ih => exact ih

theorem patFailed_shape (k m : Nat) :
    patFailed (Tag.q :: Tag.s ::
      (List.replicate k Tag.p ++ Tag.fl :: List.replicate m Tag.hs)) = true := by
  induction k with
  | zero => exact all_replicate_hs m
  | succ k ih => exact ih

theorem patCancelledQueued_shape (m : Nat) :
    patCancelledQueued (Tag.q :: Tag.hs :: Tag.c :: List.replicate m Tag.hs) = true :=
  all_replicate_hs m

theorem patCancelledActive_shape (k m : Nat) :
    patCancelledActive (Tag.q :: Tag.s ::
      (List.replicate k Tag.p ++ Tag.hs :: Tag.c :: List.replicate m Tag.hs)) = true := by
  induction k with
  | zero => exact all_replicate_hs m
  | succ k ih => exact ih

theorem settledPat_check {l : List Tag} (h : SettledPat l) :
    (patDone l || patFailed l || patCancelledQueued l || patCancelledActive l) = true := by
  rcases h with ⟨k, m, rfl⟩ | ⟨k, m, rfl⟩ | ⟨m, rfl⟩ | ⟨k, m, rfl⟩
  · simp [patDone_shape k m]
  · simp [patFailed_shape k m]
  · simp [patCancelledQueued_shape m]
  · simp [patCancelledActive_shape k m]

theorem c3CheckRun_of_inv (st : ClientState) (h : Inv st) (i : Nat) :
    c3CheckRun st i = true := by
  unfold c3CheckRun
  by_cases hq : i ∈ queueIds st
  · rw [if_pos (contains_eq_true_of_mem hq), h.pat_queued i hq]
    rfl
  · rw [contains_eq_false_of_not_mem hq, if_neg Bool.false_ne_true]
    by_cases ha : activeIdOf st = some i
    · rw [if_pos (activeBeq_true ha)]
      obtain ⟨k, hk⟩ := h.pat_active i ha
      rw [hk]
      show (List.replicate k Tag.p).all (fun t => t == Tag.p) = true
      exact all_replicate_p k
    · rw [activeBeq_false ha, if_neg Bool.false_ne_true]
      by_cases hsi : i ∈ st.settledIds
      · rw [if_pos (contains_eq_true_of_mem hsi)]
        exact settledPat_check (h.pat_settled i hsi)
      · rw [contains_eq_false_of_not_mem hsi, if_neg Bool.false_ne_true]
        rw [h.pat_unknown i hq ha hsi]
        rfl

theorem c2_of_inv (st : ClientState) (h : Inv st) : c2Check st = true := by
  unfold c2Check
  simp only [Bool.and_eq_true, decide_eq_true_eq, List.all_eq_true]
  refine ⟨⟨⟨?_, ?_⟩, ?_⟩, ?_⟩
  · exact runningCount_le_one st (fun r hr => (h.queue_state r hr).1) h.completed_terminal
  · exact h.log_running
  · exact h.started_inc
  · rw [h.draining_eq]
    exact beq_self_eq_true _

theorem exactlyOneHolder_of_inv (st : ClientState) (h : Inv st) (i : Nat)
    (h1 : 1 ≤ i) (h2 : i < st.runIdCounter) : exactlyOneHolder st i = true := by
  unfold exactlyOneHolder
  rcases h.holder i h1 h2 with ⟨hin, hna, hns⟩ | ⟨hnq, ha, hns⟩ | ⟨hnq, hna, hin⟩
  · rw [contains_eq_true_of_mem hin, activeBeq_false hna, contains_eq_false_of_not_mem hns]
    rfl
  · rw [contains_eq_false_of_not_mem hnq, activeBeq_true ha, contains_eq_false_of_not_mem hns]
    rfl
  · rw [contains_eq_false_of_not_mem hnq, activeBeq_false hna, contains_eq_true_of_mem hin]
    rfl

theorem c4_of_inv (st : ClientState) (h : Inv st) : c4Check st = true := by
  unfold c4Check
  simp only [Bool.and_eq_true, List.all_eq_true]
  refine ⟨⟨?_, h.log_ownership⟩, ?_⟩
  · intro i hi
    rcases Nat.eq_zero_or_pos i with rfl | hp
    · rfl
    · rw [exactlyOneHolder_of_inv st h i hp (List.mem_range.mp hi), Bool.or_true]
  · rw [h.completed_eq]
    exact beq_self_eq_true _

theorem c3_of_inv (st : ClientState) (h : Inv st) : c3Check st = true := by
  unfold c3Check
  rw [List.all_eq_true]
  intro i _
  exact c3CheckRun_of_inv st h i

theorem tfilter_rep_p (k : Nat) :
    (List.replicate k Tag.p).filter (fun t => t == Tag.f || t == Tag.fl || t == Tag.c)
      = [] := by
  induction k with
  | zero => rfl
  | succ k ih => simp [List.replicate_succ, List.filter_cons, ih]

theorem tfilter_rep_hs (m : Nat) :
    (List.replicate m Tag.hs).filter (fun t => t == Tag.f || t == Tag.fl || t == Tag.c)
      = [] := by
  induction m with
  | zero => rfl
  | succ m ih => simp [List.replicate_succ, List.filter_cons, ih]

theorem settled_tfilter_len {l : List Tag} (h : SettledPat l) :
    (l.filter (fun t => t == Tag.f || t == Tag.fl || t == Tag.c)).length = 1 := by
  rcases h with ⟨k, m, rfl⟩ | ⟨k, m, rfl⟩ | ⟨m, rfl⟩ | ⟨k, m, rfl⟩ <;>
    simp [List.filter_cons, List.filter_append, tfilter_rep_p, tfilter_rep_hs]

theorem terminalCount_eq_proj (st : ClientState) (i : Nat) :
    terminalCount st i = ((projOf st i).filter
      (fun t => t == Tag.f || t == Tag.fl || t == Tag.c)).length := by
  unfold terminalCount projOf
  generalize st.events = l
  induction l with
  | nil => rfl
  | cons e t ih =>
    rw [List.filter_cons, filterMap_cons_toList, List.filter_append, List.length_append]
    cases e with
    | runQueued r =>
      by_cases hid : (r.id == i) = true <;> simp [classify, hid, ih]
    | runStarted r =>
      by_cases hid : (r.id == i) = true <;> simp [classify, hid, ih]
    | runProgress r =>
      by_cases hid : (r.id == i) = true <;> simp [classify, hid, ih]
    | runFinished r =>
      by_cases hid : (r.id == i) = true
      · simp [classify, hid, ih]
        omega
      · simp [classify, hid, ih]
    | runFailed r =>
      by_cases hid : (r.id == i) = true
      · simp [classify, hid, ih]
        omega
      · simp [classify, hid, ih]
    | runCancelled r =>
      by_cases hid : (r.id == i) = true
      · simp [classify, hid, ih]
        omega
      · simp [classify, hid, ih]
    | historyUpdated hist =>
      by_cases hss : showsSettled hist i = true <;> simp [classify, hss, ih]

theorem terminalCount_le_one_of_inv (st : ClientState) (h : Inv st) (i : Nat) :
    terminalCount st i ≤ 1 := by
  rw [terminalCount_eq_proj]
  by_cases hq : i ∈ queueIds st
  · rw [h.pat_queued i hq]
    simp [List.filter_cons]
  · by_cases ha : activeIdOf st = some i
    · obtain ⟨k, hk⟩ := h.pat_active i ha
      rw [hk]
      have : ((Tag.q :: Tag.s :: List.replicate k Tag.p).filter
          (fun t => t == Tag.f || t == Tag.fl || t == Tag.c)).length = 0 := by
        simp [List.filter_cons, tfilter_rep_p]
      omega
    · by_cases hsi : i ∈ st.settledIds
      · rw [settled_tfilter_len (h.pat_settled i hsi)]
      · rw [h.pat_unknown i hq ha hsi]
        exact Nat.zero_le 1

theorem c5_of_inv (st : ClientState) (h : Inv st) : c5Check st = true := by
  unfold c5Check
  rw [List.all_eq_true]
  intro i _
  simp only [Bool.and_eq_true, decide_eq_true_eq]
  have hcnodup : (st.completedRuns.map (fun r => r.id)).Nodup := by
    rw [h.completed_eq]
    exact h.settled_nodup.sublist (List.drop_suffix _ _).sublist
  refine ⟨⟨terminalCount_le_one_of_inv st h i, ?_⟩, ?_⟩
  · rw [countIdIn_eq_count]
    exact List.nodup_iff_count_le_one.mp hcnodup i
  · rw [h.completions_eq]
    exact List.nodup_iff_count_le_one.mp h.settled_nodup i

/-! ## Claim theorems for the scheduler -/

/-- C2: under any sequence of external stimuli, at most one run is in state
`running` at every observable point — in the current snapshot and in every
emitted `historyUpdated` snapshot — the `runStarted` events appear in
strictly increasing (FIFO) id order, and the `draining` guard is set exactly
while a run is active, so an enqueue during a drain never starts a second
concurrent drain. -/
theorem C2_at_most_one_running (acts : List Act) :
    c2Check (runActs acts) = true :=
  c2_of_inv (runActs acts) (inv_runActs acts)

/-- C3, counterexample to the claimed order: when run 2 is cancelled while
still queued, its projected event sequence is `runQueued`, then a
`historyUpdated` whose snapshot already shows it cancelled, then the
terminal `runCancelled`, then another snapshot — a settled-showing
`historyUpdated` precedes the terminal event, contradicting "no
historyUpdated showing the Run as settled precedes its terminal event"
(`recordCompletion` runs before `runCancelled` is emitted,
mcpClient.ts:277-279). -/
theorem C3_settled_snapshot_precedes_terminal_counterexample :
    projOf (runActs [Act.enqueue "echo" (JsValue.vobj []) none,
      Act.enqueue "echo" (JsValue.vobj []) none, Act.cancel 2]) 2
      = [Tag.q, Tag.hs, Tag.c, Tag.hs] := rfl

/-- C3, amended: for every run id, the projected event sequence follows the
phase discipline the code actually implements — `[q]` while queued,
`q s p*` while active, and for settled runs one of `q s p* f hs*`,
`q s p* fl hs*`, `q hs c hs*` or `q s p* hs c hs*`: exactly one `runQueued`,
at most one `runStarted`, exactly one terminal event, and every
settled-showing snapshot after the terminal event except in the two
cancellation shapes, where `recordCompletion`'s snapshot precedes
`runCancelled`. -/
theorem C3_event_order_amended (acts : List Act) :
    c3Check (runActs acts) = true :=
  c3_of_inv (runActs acts) (inv_runActs acts)

/-- C4, counterexample to exclusive ownership at every observable point:
when run 1 finishes, `recordCompletion` emits a `historyUpdated` snapshot
while the run is still in the active slot (cleared only afterwards,
mcpClient.ts:334-360), so that snapshot shows run 1 both in `queue` (the
active run is prepended to it by `getRunHistory`) and in `completed`. -/
theorem C4_double_ownership_counterexample :
    (runActs [Act.enqueue "echo" (JsValue.vobj []) none,
      Act.settleOk (JsValue.vstr "ok")]).events.any (doubleOwnedEvent 1) = true := rfl

/-- C4, amended: at the state level every issued run id is held by exactly
one of pending queue, active slot and settled set; in every emitted
snapshot each id occurs at most once in `queue` and at most once in
`completed`, and an id occurring in both is exactly the just-settled run at
the head of `queue` with a terminal state, during its finalization; the
completed cache holds the most recent (at most 100) settled runs. -/
theorem C4_ownership_amended (acts : List Act) :
    c4Check (runActs acts) = true :=
  c4_of_inv (runActs acts) (inv_runActs acts)

/-- C5, counterexample to "cancelRun(id) twice returns true then false":
cancelling the active run does not settle it synchronously
(mcpClient.ts:264-269 returns `true` while `state === "running"`, and the
state only changes when the scheduled rejection is delivered), so a second
`cancelRun` before that delivery returns `true` again. -/
theorem C5_cancel_twice_counterexample :
    (runActs [Act.enqueue "echo" (JsValue.vobj []) none,
      Act.cancel 1, Act.cancel 1]).cancelResults = [true, true] := rfl

/-- C5, amended: finalization itself is single — for every run id at most
one terminal event is emitted, at most one entry with that id is in the
completed cache, and the completion promise is settled at most once —
although `cancelRun` on a not-yet-finalized active run can return `true`
repeatedly. -/
theorem C5_single_finalization_amended (acts : List Act) :
    c5Check (runActs acts) = true :=
  c5_of_inv (runActs acts) (inv_runActs acts)

end Mcp
